import Mathlib

/-!
DSLogic session control and viewport: a shallow embedding of `pv::SigSession`
and `pv::view::Viewport`.

The session object of the DSLogic GUI (`DSLogic-gui/pv/sigsession.cpp`) is
embedded as a record of its member variables.  Calls that leave the class
(Qt signals, libsigrok, the trigger library, thread creation) are recorded,
in program order, as a list of `Effect`s returned next to the new state.
A failed `assert` or a dereference of a null pointer is the result `none`.

The viewport of DSView (`DSView/pv/view/viewport.cpp`) is embedded the same
way: its mouse handlers and `measure` take what they read of the view as a
`Scene` and return the new viewport with the calls they make.  A `double` is
the rational it denotes; the handlers take the rounding operations as a
parameter, and where a property depends on the rounding they are those of
IEEE-754 binary64 (`round64`, `DoubleOps.binary64`).
-/

namespace pv

/-- Capture states of a session, `SigSession::capture_state`. -/
inductive capture_state where
  | Init
  | Stopped
  | Running
  deriving DecidableEq, Repr

/-- Channel kinds of libsigrok that `init_signals` distinguishes. -/
inductive channel_type where
  | SR_CHANNEL_LOGIC
  | SR_CHANNEL_DSO
  | SR_CHANNEL_ANALOG
  deriving DecidableEq, Repr

/-- Device modes, the field `sr_dev_inst::mode`. -/
inductive dev_mode where
  | LOGIC
  | DSO
  | ANALOG
  deriving DecidableEq, Repr

/-- The fields of `sr_channel` that the session reads; `index` is the probe
number a signal created for the channel reports as `get_index()`. -/
structure sr_channel where
  type : channel_type
  enabled : Bool
  index : Int := 0
  deriving DecidableEq, Repr

/-- The field of `sr_dev_driver` that the session reads. -/
structure sr_dev_driver where
  name : String
  deriving DecidableEq, Repr

/-- The fields of `sr_dev_inst` that the session reads; `channels` is the
`GSList` of channel records in list order. -/
structure sr_dev_inst where
  driver : sr_dev_driver
  mode : dev_mode
  channels : List sr_channel
  deriving DecidableEq, Repr

/-- A `device::DevInst`; `dev_inst` is the result of `dev_inst()`, which the
code tests against null. -/
structure DevInst where
  dev_inst : Option sr_dev_inst
  deriving DecidableEq, Repr

/-- Trace kinds, `view::Trace::get_type()`. -/
inductive trace_type where
  | DS_LOGIC
  | DS_ANALOG
  | DS_DSO
  | DS_GROUP
  | DS_DECODER
  deriving DecidableEq, Repr

/-- The members of a `view::Signal` that the session reads. -/
structure Signal where
  type : trace_type
  index : Int
  selected : Bool
  trig : Int
  deriving DecidableEq, Repr

/-- The members of a `view::GroupSignal` that the session reads and writes. -/
structure GroupSignal where
  index_list : List Int
  sec_index : Int
  selected : Bool
  deriving DecidableEq, Repr

/-- A `data::LogicSnapshot`; `buf_null` is the result of `buf_null()`. -/
structure LogicSnapshot where
  buf_null : Bool
  deriving DecidableEq, Repr

/-- A `data::DsoSnapshot`; `buf_null` is the result of `buf_null()`. -/
structure DsoSnapshot where
  buf_null : Bool
  deriving DecidableEq, Repr

/-- A `data::AnalogSnapshot`; `buf_null` is the result of `buf_null()`. -/
structure AnalogSnapshot where
  buf_null : Bool
  deriving DecidableEq, Repr

/-- A `data::GroupSnapshot`, built from a logic snapshot and the probe index
list of its group. -/
structure GroupSnapshot where
  source : LogicSnapshot
  index_list : List Int
  deriving DecidableEq, Repr

/-- The snapshot deque of a `data::Logic`, front first. -/
structure Logic where
  snapshots : List LogicSnapshot
  deriving DecidableEq, Repr

/-- The snapshot deque of a `data::Dso`, front first. -/
structure Dso where
  snapshots : List DsoSnapshot
  deriving DecidableEq, Repr

/-- The snapshot deque of a `data::Analog`, front first. -/
structure Analog where
  snapshots : List AnalogSnapshot
  deriving DecidableEq, Repr

/-- The snapshot deque of a `data::Group`, front first. -/
structure Group where
  snapshots : List GroupSnapshot
  deriving DecidableEq, Repr

/-- Calls that leave `SigSession`, in the order the code makes them. -/
inductive Effect where
  | qDebug (msg : String)
  | error_handler (msg : String)
  | sr_session_stop
  | thread_join (tid : Nat)
  | thread_create (tid : Nat) (dev : DevInst)
  | ds_trigger_set_en (en : Bool)
  | set_trig (index : Int) (trig : Int)
  | dev_inst_start
  | dev_inst_run
  | receive_data (len : Nat)
  | receive_trigger (pos : Nat)
  | read_sample_rate
  | test_data_error
  | frame_began
  | frame_ended
  | data_received
  | data_updated
  | capture_state_changed (st : capture_state)
  | logic_append_payload
  | dso_append_payload
  | analog_append_payload
  | datafeed_callback_remove_all
  | datafeed_callback_add
  | dev_release (dev : DevInst)
  | dev_use (dev : DevInst)
  | device_setted
  | message_box (text : String) (info : String)
  | get_save_file_name (caption : String) (filter : String)
  | save_file (name : String)
  | signals_changed
  | group_set_samplerate
  deriving DecidableEq, Repr

/-- The member variables of `SigSession` that the embedded functions use.
`_sampling_thread` holds the identity of the `boost::thread` object the
session owns, `none` for an empty `std::auto_ptr`. -/
structure SigSession where
  _dev_inst : Option DevInst
  _capture_state : capture_state
  _instant : Bool
  _adv_trigger : Bool
  _sampling_thread : Option Nat
  _signals : List Signal
  _group_traces : List GroupSignal
  _group_cnt : Int
  _logic_data : Option Logic
  _dso_data : Option Dso
  _analog_data : Option Analog
  _group_data : Option Group
  _cur_logic_snapshot : Option LogicSnapshot
  _cur_dso_snapshot : Option DsoSnapshot
  _cur_analog_snapshot : Option AnalogSnapshot
  _cur_group_snapshot : Option GroupSnapshot
  deriving DecidableEq, Repr

/-- The session right after the constructor `SigSession::SigSession`: state
`Init`, `_instant`, `_adv_trigger` false, `_group_cnt` zero, every pointer
null. -/
def SigSession.new : SigSession :=
  { _dev_inst := none
    _capture_state := capture_state.Init
    _instant := false
    _adv_trigger := false
    _sampling_thread := none
    _signals := []
    _group_traces := []
    _group_cnt := 0
    _logic_data := none
    _dso_data := none
    _analog_data := none
    _group_data := none
    _cur_logic_snapshot := none
    _cur_dso_snapshot := none
    _cur_analog_snapshot := none
    _cur_group_snapshot := none }

/-- Qt's `tr`: with no translation installed the source text is returned. -/
def tr (text : String) : String := text

/-- The messages passed to `error_handler`, in call order. -/
def error_handler_calls : List Effect → List String
  | [] => []
  | Effect.error_handler msg :: es => msg :: error_handler_calls es
  | _ :: es => error_handler_calls es

/-- The identities of the threads created, in creation order. -/
def threads_created : List Effect → List Nat
  | [] => []
  | Effect.thread_create tid _ :: es => tid :: threads_created es
  | _ :: es => threads_created es

/-- `SigSession::stop_capture`: nothing unless the capture state is
`Running`; otherwise stop the libsigrok session, join the sampling thread if
the session owns one, and empty `_sampling_thread`. -/
def stop_capture (s : SigSession) : SigSession × List Effect :=
  if s._capture_state ≠ capture_state.Running then (s, [])
  else
    match s._sampling_thread with
    | some t =>
      ({ s with _sampling_thread := none }, [Effect.sr_session_stop, Effect.thread_join t])
    | none =>
      ({ s with _sampling_thread := none }, [Effect.sr_session_stop])

/-- The probe loop of `start_capture`: walk the channel list until a channel
with `enabled` set is met; the result is the list cell `l` the loop stops at
(the empty list is the null pointer). -/
def probe_scan : List sr_channel → List sr_channel
  | [] => []
  | probe :: rest => if probe.enabled then probe :: rest else probe_scan rest

/-- `SigSession::start_capture`.  `tid` is the identity of the thread object
that `new boost::thread` would return.  `none` is the failed
`assert(_dev_inst->dev_inst())`. -/
def start_capture (s : SigSession) (instant : Bool) (tid : Nat) :
    Option (SigSession × List Effect) :=
  let r := stop_capture s
  match r.1._dev_inst with
  | none => some (r.1, r.2 ++ [Effect.qDebug "No device selected"])
  | some dev =>
    match dev.dev_inst with
    | none => none
    | some sdi =>
      match probe_scan sdi.channels with
      | [] => some (r.1, r.2 ++ [Effect.error_handler (tr "No probes enabled.")])
      | _ :: _ =>
        some ({ r.1 with _instant := instant, _sampling_thread := some tid },
              r.2 ++ [Effect.thread_create tid dev])

/-- `SigSession::set_device`: stop a running capture, release the old device,
store the new one, clear the group traces and take the new device into use.
`DevInst::release` and `DevInst::use` are calls into the device classes and
are recorded as effects. -/
def set_device (s : SigSession) (dev_inst : Option DevInst) : SigSession × List Effect :=
  let r := stop_capture s
  let released :=
    match r.1._dev_inst with
    | some old => [Effect.datafeed_callback_remove_all, Effect.dev_release old]
    | none => []
  let used :=
    match dev_inst with
    | some dev => [Effect.dev_use dev, Effect.datafeed_callback_add, Effect.device_setted]
    | none => []
  ({ r.1 with _dev_inst := dev_inst, _group_traces := [] }, r.2 ++ released ++ used)

/-- The test of the `BOOST_FOREACH` in `set_default_device`:
`dev->dev_inst() && strcmp(dev->dev_inst()->driver->name, "DSLogic") == 0`. -/
def is_dslogic (dev : DevInst) : Bool :=
  match dev.dev_inst with
  | some sdi => decide (sdi.driver.name = "DSLogic")
  | none => false

/-- The `BOOST_FOREACH` of `set_default_device`: `default_device` is the
value of the local variable on entry, the result its value when the loop is
left, by `break` or at the end of the list. -/
def default_device_loop : List DevInst → DevInst → DevInst
  | [], default_device => default_device
  | dev :: rest, default_device =>
    if is_dslogic dev then dev else default_device_loop rest default_device

/-- `SigSession::set_default_device`, for the device list `devices` returned
by `_device_manager.devices()`. -/
def set_default_device (s : SigSession) (devices : List DevInst) : SigSession × List Effect :=
  match devices with
  | [] => (s, [])
  | front :: _ => set_device s (some (default_device_loop devices front))

/-- `SigSession::set_capture_state`. -/
def set_capture_state (s : SigSession) (state : capture_state) : SigSession × List Effect :=
  ({ s with _capture_state := state },
   [Effect.data_updated, Effect.capture_state_changed state])

/-- The `BOOST_FOREACH` over `_signals` in `sample_thread_proc` (simple
trigger): a signal with `get_trig() != 0` enables the trigger and has its
trigger set again. -/
def trig_loop : List Signal → List Effect
  | [] => []
  | sg :: rest =>
    if sg.trig ≠ 0 then
      Effect.ds_trigger_set_en true :: Effect.set_trig sg.index sg.trig :: trig_loop rest
    else trig_loop rest

/-- The trigger-enable block at the head of `sample_thread_proc`. -/
def trigger_setup (s : SigSession) : List Effect :=
  if s._instant then [Effect.ds_trigger_set_en false]
  else if !s._adv_trigger then Effect.ds_trigger_set_en false :: trig_loop s._signals
  else [Effect.ds_trigger_set_en true]

/-- The fields of `sr_datafeed_logic` that `feed_in_logic` reads. -/
structure sr_datafeed_logic where
  length : Nat
  unitsize : Nat
  data_error : Nat
  deriving DecidableEq, Repr

/-- The field of `sr_datafeed_dso` that `feed_in_dso` reads. -/
structure sr_datafeed_dso where
  num_samples : Nat
  deriving DecidableEq, Repr

/-- The field of `sr_datafeed_analog` that `feed_in_analog` reads. -/
structure sr_datafeed_analog where
  num_samples : Nat
  deriving DecidableEq, Repr

/-- A datafeed packet with its payload, by `packet->type`; `SR_DF_OTHER`
stands for every type the `switch` of `data_feed_in` has no case for. -/
inductive sr_datafeed_packet where
  | SR_DF_HEADER
  | SR_DF_META
  | SR_DF_TRIGGER (real_pos : Nat)
  | SR_DF_LOGIC (logic : sr_datafeed_logic)
  | SR_DF_DSO (dso : sr_datafeed_dso)
  | SR_DF_ANALOG (analog : sr_datafeed_analog)
  | SR_DF_END
  | SR_DF_OTHER
  deriving DecidableEq, Repr

/-- Modelled from the spec: `data::Logic::push_snapshot` (data/logic.cpp is
not among the sources).  The spec speaks of deques of snapshot buffers; the
new snapshot is put at the front, where `get_buf` and `save_file` read the
capture. -/
def Logic.push_snapshot (d : Logic) (snap : LogicSnapshot) : Logic :=
  { snapshots := snap :: d.snapshots }

/-- Modelled from the spec: `data::Dso::push_snapshot` (data/dso.cpp is not
among the sources); as for `Logic.push_snapshot`. -/
def Dso.push_snapshot (d : Dso) (snap : DsoSnapshot) : Dso :=
  { snapshots := snap :: d.snapshots }

/-- Modelled from the spec: `data::Analog::push_snapshot` (data/analog.cpp is
not among the sources); as for `Logic.push_snapshot`. -/
def Analog.push_snapshot (d : Analog) (snap : AnalogSnapshot) : Analog :=
  { snapshots := snap :: d.snapshots }

/-- Modelled from the spec: `data::Group::push_snapshot` (data/group.cpp is
not among the sources).  The snapshot is appended at the back, so that the
group with `sec_index` k finds its snapshot at position k, the way
`del_group` addresses it. -/
def Group.push_snapshot (d : Group) (snap : GroupSnapshot) : Group :=
  { snapshots := d.snapshots ++ [snap] }

/-- `SigSession::feed_in_logic`.  `buf_null` tells whether the buffer of a
snapshot constructed by this call could not be allocated. -/
def feed_in_logic (s : SigSession) (logic : sr_datafeed_logic) (buf_null : Bool) :
    SigSession × List Effect :=
  match s._logic_data with
  | none => (s, [Effect.qDebug "Unexpected logic packet"])
  | some d =>
    let e0 := if logic.data_error = 1 then [Effect.test_data_error] else []
    let e1 := [Effect.receive_data (logic.length / logic.unitsize), Effect.data_received]
    match s._cur_logic_snapshot with
    | none =>
      let snap : LogicSnapshot := { buf_null := buf_null }
      let s1 := { s with _cur_logic_snapshot := some snap }
      if snap.buf_null then
        let r := stop_capture s1
        (r.1, e0 ++ r.2 ++ [Effect.frame_began] ++ e1)
      else
        ({ s1 with _logic_data := some (d.push_snapshot snap) }, e0 ++ [Effect.frame_began] ++ e1)
    | some _ => (s, e0 ++ [Effect.logic_append_payload] ++ e1)

/-- `SigSession::feed_in_dso`, with `buf_null` as in `feed_in_logic`. -/
def feed_in_dso (s : SigSession) (dso : sr_datafeed_dso) (buf_null : Bool) :
    SigSession × List Effect :=
  match s._dso_data with
  | none => (s, [Effect.qDebug "Unexpected dso packet"])
  | some d =>
    let e1 := [Effect.receive_data dso.num_samples, Effect.data_updated]
    match s._cur_dso_snapshot with
    | none =>
      let snap : DsoSnapshot := { buf_null := buf_null }
      let s1 := { s with _cur_dso_snapshot := some snap }
      if snap.buf_null then
        let r := stop_capture s1
        (r.1, r.2 ++ e1)
      else
        ({ s1 with _dso_data := some (d.push_snapshot snap) }, e1)
    | some _ => (s, [Effect.dso_append_payload] ++ e1)

/-- `SigSession::feed_in_analog`, with `buf_null` as in `feed_in_logic`. -/
def feed_in_analog (s : SigSession) (analog : sr_datafeed_analog) (buf_null : Bool) :
    SigSession × List Effect :=
  match s._analog_data with
  | none => (s, [Effect.qDebug "Unexpected analog packet"])
  | some d =>
    let e1 := [Effect.receive_data analog.num_samples, Effect.data_updated]
    match s._cur_analog_snapshot with
    | none =>
      let snap : AnalogSnapshot := { buf_null := buf_null }
      let s1 := { s with _cur_analog_snapshot := some snap }
      if snap.buf_null then
        let r := stop_capture s1
        (r.1, r.2 ++ e1)
      else
        ({ s1 with _analog_data := some (d.push_snapshot snap) }, e1)
    | some _ => (s, [Effect.analog_append_payload] ++ e1)

/-- The `BOOST_FOREACH` over `_group_traces` in the `SR_DF_END` case: every
group gets a new snapshot built from the front logic snapshot.  `none` when
`_logic_data` or `_group_data` is null or the logic deque is empty, where
`front()` is undefined. -/
def end_group_loop (s : SigSession) : List GroupSignal → Option SigSession
  | [] => some s
  | g :: rest =>
    match s._logic_data, s._group_data with
    | some ld, some gd =>
      match ld.snapshots with
      | [] => none
      | front :: _ =>
        let snap : GroupSnapshot := { source := front, index_list := g.index_list }
        end_group_loop
          { s with _cur_group_snapshot := some snap, _group_data := some (gd.push_snapshot snap) }
          rest
    | _, _ => none

/-- `SigSession::data_feed_in` (built without `ENABLE_DECODE`), with
`buf_null` as in `feed_in_logic`. -/
def data_feed_in (s : SigSession) (packet : sr_datafeed_packet) (buf_null : Bool) :
    Option (SigSession × List Effect) :=
  match packet with
  | sr_datafeed_packet.SR_DF_HEADER => some (s, [Effect.read_sample_rate])
  | sr_datafeed_packet.SR_DF_META => some (s, [])
  | sr_datafeed_packet.SR_DF_TRIGGER real_pos => some (s, [Effect.receive_trigger real_pos])
  | sr_datafeed_packet.SR_DF_LOGIC logic => some (feed_in_logic s logic buf_null)
  | sr_datafeed_packet.SR_DF_DSO dso => some (feed_in_dso s dso buf_null)
  | sr_datafeed_packet.SR_DF_ANALOG analog => some (feed_in_analog s analog buf_null)
  | sr_datafeed_packet.SR_DF_END =>
    match end_group_loop s s._group_traces with
    | none => none
    | some s1 =>
      some ({ s1 with _cur_logic_snapshot := none, _cur_dso_snapshot := none,
                      _cur_analog_snapshot := none },
            [Effect.frame_ended])
  | sr_datafeed_packet.SR_DF_OTHER => some (s, [])

/-- The packets a run of the device hands to `data_feed_in`, one after the
other; the result is the trace so far and the final session, `none` once a
call is undefined. -/
def feed_all (s : SigSession) : List (sr_datafeed_packet × Bool) → List Effect × Option SigSession
  | [] => ([], some s)
  | pb :: rest =>
    match data_feed_in s pb.1 pb.2 with
    | none => ([], none)
    | some r =>
      let q := feed_all r.1 rest
      (r.2 ++ q.1, q.2)

/-- The three assertions at the end of `sample_thread_proc`. -/
def end_asserts (s : SigSession) : Bool :=
  s._cur_logic_snapshot.isNone && s._cur_dso_snapshot.isNone && s._cur_analog_snapshot.isNone

/-- `SigSession::sample_thread_proc` run on its own.  `start_error` is the
`QString` thrown by `dev_inst->start()`, if any; `packets` are the packets
`dev_inst->run()` delivers through `data_feed_in_proc`.  The session is
`none` when an assertion fails. -/
def sample_thread_proc (s : SigSession) (dev_inst : Option DevInst)
    (start_error : Option String) (packets : List (sr_datafeed_packet × Bool)) :
    List Effect × Option SigSession :=
  match dev_inst with
  | none => ([], none)
  | some dev =>
    match dev.dev_inst with
    | none => ([], none)
    | some _ =>
      let e0 := trigger_setup s ++ [Effect.dev_inst_start]
      match start_error with
      | some e => (e0 ++ [Effect.error_handler e], some s)
      | none =>
        let r1 := set_capture_state s capture_state.Running
        let e1 := e0 ++ [Effect.receive_data 0] ++ r1.2 ++ [Effect.dev_inst_run]
        let r2 := feed_all r1.1 packets
        match r2.2 with
        | none => (e1 ++ r2.1, none)
        | some s2 =>
          let r3 := set_capture_state s2 capture_state.Stopped
          if end_asserts r3.1 then (e1 ++ r2.1 ++ r3.2, some r3.1)
          else (e1 ++ r2.1 ++ r3.2, none)

/-- The argument of the last `ds_trigger_set_en` call in a trace. -/
def last_trigger_en : List Effect → Option Bool
  | [] => none
  | Effect.ds_trigger_set_en en :: es =>
    match last_trigger_en es with
    | some later => some later
    | none => some en
  | _ :: es => last_trigger_en es

/-- The sessions in which the `SR_DF_END` case dereferences no null pointer and
takes `front()` of no empty deque: there is no group trace, or the logic data
holds a snapshot and the group data exists. -/
def feed_defined (s : SigSession) : Prop :=
  s._group_traces = [] ∨
    ∃ ld gd, s._logic_data = some ld ∧ ld.snapshots ≠ [] ∧ s._group_data = some gd

/-- The part of a trace before the first `dev_inst->start()`. -/
def before_start : List Effect → List Effect
  | [] => []
  | Effect.dev_inst_start :: _ => []
  | e :: es => e :: before_start es

/-- `SigSession::get_buf`, as far as `FileBar` tests its result: `some true`
for a non-null buffer, `some false` for `NULL`; `none` where a null pointer
is dereferenced.  The buffer returned is `get_data()` of the front snapshot,
null exactly when `buf_null()` holds. -/
def get_buf (s : SigSession) : Option Bool :=
  match s._dev_inst with
  | none => none
  | some dev =>
    match dev.dev_inst with
    | none => none
    | some sdi =>
      if sdi.mode = dev_mode.LOGIC then
        match s._logic_data with
        | none => none
        | some d =>
          match d.snapshots with
          | [] => some false
          | front :: _ => some (!front.buf_null)
      else if sdi.mode = dev_mode.DSO then
        match s._dso_data with
        | none => none
        | some d =>
          match d.snapshots with
          | [] => some false
          | front :: _ => some (!front.buf_null)
      else
        match s._analog_data with
        | none => none
        | some d =>
          match d.snapshots with
          | [] => some false
          | front :: _ => some (!front.buf_null)

end pv

namespace pv.toolbars

open pv

/-- `FileBar::on_actionSave_triggered` (`DSLogic-gui/pv/toolbars/filebar.cpp`).
`file_name` is what `QFileDialog::getSaveFileName` returns when it is
opened, the empty string when the user cancels. -/
def on_actionSave_triggered (s : SigSession) (file_name : String) : Option (List Effect) :=
  match get_buf s with
  | none => none
  | some false => some [Effect.message_box "File Save" "No Data to Save!"]
  | some true =>
    match s._dev_inst with
    | none => none
    | some dev =>
      match dev.dev_inst with
      | none => none
      | some sdi =>
        if sdi.mode ≠ dev_mode.LOGIC then
          some (Effect.get_save_file_name (tr "Save CSV File") (tr "DSLogic Session CSV (*.csv)") ::
                (if file_name ≠ "" then [Effect.save_file file_name] else []))
        else
          some (Effect.get_save_file_name (tr "Save File") (tr "DSLogic Session (*.dsl)") ::
                (if file_name ≠ "" then [Effect.save_file file_name] else []))

/-- The names passed to `SigSession::save_file`, in call order. -/
def save_file_calls : List Effect → List String
  | [] => []
  | Effect.save_file name :: es => name :: save_file_calls es
  | _ :: es => save_file_calls es

/-- The filters of the save dialogs opened, in call order. -/
def dialogs_opened : List Effect → List String
  | [] => []
  | Effect.get_save_file_name _ filter :: es => filter :: dialogs_opened es
  | _ :: es => dialogs_opened es

/-- The informative texts of the message boxes shown, in call order. -/
def warnings_shown : List Effect → List String
  | [] => []
  | Effect.message_box _ info :: es => info :: warnings_shown es
  | _ :: es => warnings_shown es

end pv.toolbars

namespace pv.dock

/-- The two properties of a `QComboBox` that `delta_update` reads. -/
structure QComboBox where
  count : Int
  currentIndex : Int
  deriving DecidableEq, Repr

/-- The members of `MeasureDock` that `delta_update` reads and writes; the
labels are kept as their text. -/
structure MeasureDock where
  _t1_comboBox : QComboBox
  _t2_comboBox : QComboBox
  _t3_comboBox : QComboBox
  _t1_last_index : Int
  _t2_last_index : Int
  _t3_last_index : Int
  _delta_label_t1t2 : String
  _cnt_label_t1t2 : String
  _delta_label_t2t3 : String
  _cnt_label_t2t3 : String
  _delta_label_t1t3 : String
  _cnt_label_t1t3 : String
  deriving DecidableEq, Repr

/-- The two functions of `View` that `delta_update` calls.  Sample positions
are `uint64_t`, as are the cursor indices in the viewport code. -/
structure View where
  get_cursor_samples : Int → Nat
  get_cm_delta : Int → Int → String

/-- Subtraction of two `uint64_t` values. -/
def sub_u64 (a b : Nat) : Nat := (a % 2 ^ 64 + 2 ^ 64 - b % 2 ^ 64) % 2 ^ 64

/-- Conversion of a `uint64_t` value to `int`: the low 32 bits, read as two's
complement. -/
def u64_to_int (x : Nat) : Int :=
  if x % 2 ^ 32 < 2 ^ 31 then ((x % 2 ^ 32 : Nat) : Int) else ((x % 2 ^ 32 : Nat) : Int) - 2 ^ 32

/-- The C library function `int abs(int)`; undefined for `INT_MIN`. -/
def c_abs (x : Int) : Option Int :=
  if x = -(2 ^ 31) then none else some (if x < 0 then -x else x)

/-- Conversion of an `int` value to `uint64_t`. -/
def int_to_u64 (x : Int) : Nat := (x % 2 ^ 64).toNat

/-- The expression `abs(a - b)` of `delta_update` with `uint64_t` operands,
assigned to the `uint64_t` variable `delta`: the difference is taken in
`uint64_t`, passed to `abs`, which takes and returns `int`, and converted
back.  The file names no namespace `std`; for an unsigned 64-bit argument the
call is well-formed only with the single candidate `int abs(int)` of the C
library, the overloads of `<cstdlib>` and `<cmath>` being ambiguous. -/
def delta_samples (a b : Nat) : Option Nat :=
  (c_abs (u64_to_int (sub_u64 a b))).map int_to_u64

/-- `MeasureDock::delta_update` (`DSLogic-gui/pv/dock/measuredock.cpp`);
`QString::number` is the decimal text of the number.  `none` where `abs` is
undefined. -/
def delta_update (v : View) (m : MeasureDock) : Option MeasureDock :=
  let m0 := { m with _t1_last_index := max m._t1_comboBox.currentIndex 0,
                     _t2_last_index := max m._t2_comboBox.currentIndex 0,
                     _t3_last_index := max m._t3_comboBox.currentIndex 0 }
  let r1 : Option MeasureDock :=
    if m0._t1_comboBox.count ≠ 0 ∧ m0._t2_comboBox.count ≠ 0 then
      (delta_samples (v.get_cursor_samples m0._t1_last_index)
          (v.get_cursor_samples m0._t2_last_index)).map
        (fun delta => { m0 with
          _delta_label_t1t2 := v.get_cm_delta m0._t1_last_index m0._t2_last_index,
          _cnt_label_t1t2 := toString delta })
    else some m0
  let r2 : Option MeasureDock :=
    r1.bind (fun m1 =>
      if m1._t2_comboBox.count ≠ 0 ∧ m1._t2_comboBox.count ≠ 0 then
        (delta_samples (v.get_cursor_samples m1._t2_last_index)
            (v.get_cursor_samples m1._t3_last_index)).map
          (fun delta => { m1 with
            _delta_label_t2t3 := v.get_cm_delta m1._t2_last_index m1._t3_last_index,
            _cnt_label_t2t3 := toString delta })
      else some m1)
  r2.bind (fun m2 =>
    if m2._t1_comboBox.count ≠ 0 ∧ m2._t3_comboBox.count ≠ 0 then
      (delta_samples (v.get_cursor_samples m2._t1_last_index)
          (v.get_cursor_samples m2._t3_last_index)).map
        (fun delta => { m2 with
          _delta_label_t1t3 := v.get_cm_delta m2._t1_last_index m2._t3_last_index,
          _cnt_label_t1t3 := toString delta })
    else some m2)

end pv.dock

namespace pv

/-- Where a capture thread stands in `sample_thread_proc`: before
`set_capture_state(Running)`, between the two `set_capture_state` calls, or
after `set_capture_state(Stopped)` and before it returns. -/
inductive thread_phase where
  | Starting
  | Capturing
  | Finishing
  deriving DecidableEq, Repr

/-- The session together with the capture threads that exist: those created
by `start_capture` that have not yet returned from `sample_thread_proc`.
`next_tid` numbers the thread objects. -/
structure World where
  session : SigSession
  threads : List (Nat × thread_phase)
  next_tid : Nat
  deriving DecidableEq, Repr

/-- What can happen next: the GUI thread calls `start_capture`, or a capture
thread makes one of its own state changes. -/
inductive Event where
  | call_start_capture (instant : Bool)
  | thread_running (tid : Nat)
  | thread_start_failed (tid : Nat)
  | thread_stopped (tid : Nat)
  | thread_exit (tid : Nat)
  deriving DecidableEq, Repr

/-- The consequence of one effect of `start_capture` for the threads.  A join
returns once the joined thread has run to its end, which leaves the capture
state `Stopped`; a creation adds a thread at the head of
`sample_thread_proc`. -/
def World.perform (w : World) : Effect → World
  | Effect.thread_join t =>
    if w.threads.any (fun p => p.1 = t) then
      { w with threads := w.threads.filter (fun p => p.1 ≠ t),
               session := { w.session with _capture_state := capture_state.Stopped } }
    else w
  | Effect.thread_create t _ =>
    { w with threads := w.threads ++ [(t, thread_phase.Starting)], next_tid := t + 1 }
  | _ => w

/-- One event.  A call of `start_capture` runs the function on the session
and performs its effects; a thread event that does not fit the phase of the
thread changes nothing. -/
def World.step (w : World) : Event → World
  | Event.call_start_capture instant =>
    match start_capture w.session instant w.next_tid with
    | none => w
    | some r => r.2.foldl World.perform { w with session := r.1 }
  | Event.thread_running t =>
    if (t, thread_phase.Starting) ∈ w.threads then
      { w with session := (set_capture_state w.session capture_state.Running).1,
               threads := w.threads.map
                 (fun p => if p.1 = t then (t, thread_phase.Capturing) else p) }
    else w
  | Event.thread_start_failed t =>
    if (t, thread_phase.Starting) ∈ w.threads then
      { w with threads := w.threads.filter (fun p => p.1 ≠ t) }
    else w
  | Event.thread_stopped t =>
    if (t, thread_phase.Capturing) ∈ w.threads then
      { w with session := (set_capture_state w.session capture_state.Stopped).1,
               threads := w.threads.map
                 (fun p => if p.1 = t then (t, thread_phase.Finishing) else p) }
    else w
  | Event.thread_exit t =>
    if (t, thread_phase.Finishing) ∈ w.threads then
      { w with threads := w.threads.filter (fun p => p.1 ≠ t) }
    else w

/-- A sequence of events, from left to right. -/
def World.run (w : World) (evs : List Event) : World :=
  evs.foldl World.step w

/-- A new session with the device `dev` selected and no capture thread. -/
def World.init (dev : DevInst) : World :=
  { session := { SigSession.new with _dev_inst := some dev }
    threads := []
    next_tid := 0 }

end pv

/-! ## Concrete sessions used to instantiate the theorems -/

namespace pv.sample

/-- A logic channel. -/
def channel (enabled : Bool) : sr_channel :=
  { type := channel_type.SR_CHANNEL_LOGIC, enabled := enabled }

/-- A device of driver `name` in mode `mode` with the given channels. -/
def device (name : String) (mode : dev_mode) (channels : List sr_channel) : DevInst :=
  { dev_inst := some { driver := { name := name }, mode := mode, channels := channels } }

/-- A DSLogic device with two channels, both disabled. -/
def dev_off : DevInst := device "DSLogic" dev_mode.LOGIC [channel false, channel false]

/-- A DSLogic device with two channels, the second enabled. -/
def dev_on : DevInst := device "DSLogic" dev_mode.LOGIC [channel false, channel true]

/-- A device whose `dev_inst()` is null. -/
def dev_null : DevInst := { dev_inst := none }

/-- A device of another driver. -/
def dev_demo : DevInst := device "demo" dev_mode.LOGIC [channel true]

/-- A logic signal with trigger setting `trig`. -/
def signal (index : Int) (trig : Int) : Signal :=
  { type := trace_type.DS_LOGIC, index := index, selected := false, trig := trig }

/-- A session in simple trigger mode whose second signal has a trigger set. -/
def session_trig : SigSession :=
  { SigSession.new with _dev_inst := some dev_on, _signals := [signal 0 0, signal 1 2] }

/-- A logic capture of two data packets closed by `SR_DF_END`, with a DSO
packet the session has no data object for. -/
def packets_logic : List (sr_datafeed_packet × Bool) :=
  [(sr_datafeed_packet.SR_DF_HEADER, false),
   (sr_datafeed_packet.SR_DF_LOGIC { length := 8, unitsize := 2, data_error := 0 }, false),
   (sr_datafeed_packet.SR_DF_DSO { num_samples := 4 }, false),
   (sr_datafeed_packet.SR_DF_LOGIC { length := 8, unitsize := 2, data_error := 0 }, false)]

/-- A session after `init_signals` on a logic device: empty logic and group
data, no group trace. -/
def session_logic : SigSession :=
  { SigSession.new with _dev_inst := some dev_on, _logic_data := some { snapshots := [] },
                        _group_data := some { snapshots := [] } }

/-- A DSO device with one enabled channel. -/
def dev_dso : DevInst :=
  device "DSLogic" dev_mode.DSO [{ type := channel_type.SR_CHANNEL_DSO, enabled := true }]

/-- A DSO session holding one captured snapshot. -/
def session_dso : SigSession :=
  { SigSession.new with _dev_inst := some dev_dso,
                        _dso_data := some { snapshots := [{ buf_null := false }] } }

/-- A view with two cursors, at sample 4294967296 and at sample 0. -/
def view_far : dock.View :=
  { get_cursor_samples := fun index => if index = 0 then 4294967296 else 0
    get_cm_delta := fun _ _ => "" }

/-- A measure dock after `cursor_update` for two cursors: T1 selects the first
cursor, T2 and T3 the second. -/
def dock_two : dock.MeasureDock :=
  { _t1_comboBox := { count := 2, currentIndex := 0 }
    _t2_comboBox := { count := 2, currentIndex := 1 }
    _t3_comboBox := { count := 2, currentIndex := 1 }
    _t1_last_index := 0
    _t2_last_index := 0
    _t3_last_index := 0
    _delta_label_t1t2 := "#####"
    _cnt_label_t1t2 := "#####"
    _delta_label_t2t3 := "#####"
    _cnt_label_t2t3 := "#####"
    _delta_label_t1t3 := "#####"
    _cnt_label_t1t3 := "#####" }

/-- A new session with `dev` selected. -/
def session_with (dev : DevInst) : SigSession :=
  { SigSession.new with _dev_inst := some dev }

end pv.sample

/-! ## `SigSession::save_file`, the CSV branch -/

namespace pv

/-- What `save_file` reads from the front snapshot of `_dso_data`:
`get_channel_num()`, `get_sample_count()` and the byte buffer returned by
`get_samples(0, last_sample, 0)`, which may be longer than the samples
captured. -/
structure DsoSnapshotData where
  channel_num : Nat
  sample_count : Nat
  samples : List Nat
  deriving DecidableEq, Repr

/-- The items `save_file` puts on the stream, in order.  A `double` that is
written is kept as the operands of the expression that computes it:
`time_ms i samplerate` stands for `i/(double)samplerate*1000.0`, and
`volt vdiv sample` for
`(valueVDivs[ch]*(DS_CONF_DSO_VDIVS))*(sample/255.0-0.5)/1000.0`, with `vdiv`
the array element read (`none` for an element never assigned). -/
inductive Field where
  | text (s : String)
  | channel (ch : Nat)
  | time_ms (i : Nat) (samplerate : Nat)
  | volt (vdiv : Option Nat) (sample : Nat)
  | endl
  | session_save
  deriving DecidableEq, Repr

/-- How a run of a loop ends: with a result, in undefined behaviour (a read
outside the buffer, a null pointer), or not within the given number of
iterations. -/
inductive Run (α : Type) where
  | done (a : α)
  | undefined
  | out_of_fuel
  deriving DecidableEq, Repr

/-- The value of
`std::max((unsigned long long)(snapshot->get_sample_count() - 1), (unsigned long long)0)`:
the subtraction and the cast are taken modulo 2^64. -/
def last_sample_of (sample_count : Nat) : Nat :=
  max ((sample_count % 2 ^ 64 + 2 ^ 64 - 1) % 2 ^ 64) 0

/-- The header line: "Time (ms)," and one title per channel, separated by
commas and closed by `std::endl` after the last channel. -/
def header_fields (number_channels : Nat) : List Field :=
  Field.text "Time (ms)," ::
    (List.range number_channels).flatMap (fun ch =>
      [Field.text "Channel ", Field.channel ch, Field.text " (V)",
       if ch + 1 < number_channels then Field.text "," else Field.endl])

/-- The loop that fills `valueVDivs`: it walks the channel list while
`ii < number_channels`; `get_config ii` is the value of the `SR_CONF_VDIV`
setting read for the channel at position `ii`, `none` when `get_config`
returns `NULL`.  The result holds the elements assigned, in order. -/
def vdiv_loop (get_config : Nat → Option Nat) (number_channels : Nat) :
    List sr_channel → Nat → List Nat
  | [], _ => []
  | _ :: rest, ii =>
    if ii < number_channels then
      (match get_config ii with
        | some v => v
        | none => 0) :: vdiv_loop get_config number_channels rest (ii + 1)
    else []

/-- The inner loop of a data row, over the channels `chs` still to be written:
the byte `samples[i*number_channels+ch]` is read and its value written,
followed by a comma or, after the last channel, by `std::endl`.  `none` when
the index lies outside the buffer. -/
def row_channels (d : DsoSnapshotData) (number_channels : Nat) (valueVDivs : List Nat)
    (i : Nat) : List Nat → Option (List Field)
  | [] => some []
  | ch :: rest =>
    match d.samples[(i * number_channels + ch) % 2 ^ 64]? with
    | none => none
    | some sample =>
      match row_channels d number_channels valueVDivs i rest with
      | none => none
      | some fs =>
        some (Field.volt valueVDivs[ch]? sample ::
              (if ch + 1 < number_channels then Field.text "," else Field.endl) :: fs)

/-- The loop `for(unsigned long long i=0;i<=last_sample;i++)`, entered with
the value `i` and at most `fuel` tests of its condition left. -/
def rows_loop (d : DsoSnapshotData) (number_channels : Nat) (valueVDivs : List Nat)
    (samplerate : Nat) (last_sample : Nat) : Nat → Nat → Run (List Field)
  | 0, _ => Run.out_of_fuel
  | fuel + 1, i =>
    if i ≤ last_sample then
      match row_channels d number_channels valueVDivs i (List.range number_channels) with
      | none => Run.undefined
      | some fs =>
        match rows_loop d number_channels valueVDivs samplerate last_sample fuel
            ((i + 1) % 2 ^ 64) with
        | Run.done rest =>
          Run.done (Field.time_ms i samplerate :: Field.text "," :: (fs ++ rest))
        | Run.undefined => Run.undefined
        | Run.out_of_fuel => Run.out_of_fuel
    else Run.done []

/-- `SigSession::save_file`.  `front` is the content of the front snapshot of
`_dso_data`, `samplerate` the result of `_dev_inst->get_sample_rate()`,
`get_config` as in `vdiv_loop`, `fuel` bounds the tests of the row loop. -/
def save_file (fuel : Nat) (s : SigSession) (front : DsoSnapshotData) (samplerate : Nat)
    (get_config : Nat → Option Nat) : Run (List Field) :=
  match s._dev_inst with
  | none => Run.undefined
  | some dev =>
    match dev.dev_inst with
    | none => Run.undefined
    | some sdi =>
      if sdi.mode = dev_mode.LOGIC then
        match s._logic_data with
        | none => Run.undefined
        | some ld =>
          match ld.snapshots with
          | [] => Run.done []
          | _ :: _ => Run.done [Field.session_save]
      else if sdi.mode = dev_mode.DSO then
        match s._dso_data with
        | none => Run.undefined
        | some dd =>
          match dd.snapshots with
          | [] => Run.done []
          | _ :: _ =>
            let number_channels := front.channel_num
            let last_sample := last_sample_of front.sample_count
            let valueVDivs := vdiv_loop get_config number_channels sdi.channels 0
            match rows_loop front number_channels valueVDivs samplerate last_sample fuel 0 with
            | Run.done rows => Run.done (header_fields number_channels ++ rows)
            | Run.undefined => Run.undefined
            | Run.out_of_fuel => Run.out_of_fuel
      else Run.done []

/-- The data row of sample `i` in the words of the specification: the time
field, then for every channel in order the value of the byte
`samples[i*number_channels + ch]`. -/
def expected_row (d : DsoSnapshotData) (valueVDivs : List Nat) (samplerate : Nat) (i : Nat) :
    List Field :=
  Field.time_ms i samplerate :: Field.text "," ::
    (List.range d.channel_num).flatMap (fun ch =>
      [Field.volt valueVDivs[ch]? (d.samples.getD (i * d.channel_num + ch) 0),
       if ch + 1 < d.channel_num then Field.text "," else Field.endl])

/-- The number of lines of an output: the `std::endl` items in it. -/
def line_count : List Field → Nat
  | [] => 0
  | Field.endl :: fs => line_count fs + 1
  | _ :: fs => line_count fs

end pv

namespace pv.sample

/-- A one-channel snapshot with no sample captured, in a buffer of two bytes. -/
def snapshot_empty : DsoSnapshotData :=
  { channel_num := 1, sample_count := 0, samples := [128, 129] }

/-- A two-channel snapshot of three samples. -/
def snapshot_three : DsoSnapshotData :=
  { channel_num := 2, sample_count := 3, samples := [0, 255, 10, 20, 30, 40] }

end pv.sample

/-! ## Signal groups: `init_signals`, `add_group`, `del_group` -/

namespace pv

/-- How a call of a group operation ends: it returns, with the new session
and its effects; an exception leaves it (`std::out_of_range` from
`deque::at`), with the session as it is at the throw; or its behaviour is
undefined (a null pointer is dereferenced, `front()` of an empty deque). -/
inductive Outcome where
  | returned (s : SigSession) (es : List Effect)
  | thrown (s : SigSession)
  | undefined
  deriving DecidableEq, Repr

/-- The signal `init_signals` creates for a channel: a logic or analog signal
for an enabled channel of that type, a DSO signal for every DSO channel.  A
new signal is not selected and has no trigger set. -/
def signal_of_probe (probe : sr_channel) : Option Signal :=
  match probe.type with
  | channel_type.SR_CHANNEL_LOGIC =>
    if probe.enabled then
      some { type := trace_type.DS_LOGIC, index := probe.index, selected := false, trig := 0 }
    else none
  | channel_type.SR_CHANNEL_DSO =>
    some { type := trace_type.DS_DSO, index := probe.index, selected := false, trig := 0 }
  | channel_type.SR_CHANNEL_ANALOG =>
    if probe.enabled then
      some { type := trace_type.DS_ANALOG, index := probe.index, selected := false, trig := 0 }
    else none

/-- `SigSession::init_signals` (built without `ENABLE_DECODE`): count the
channels by type, create the data objects for the types present, which for
logic channels also replaces the group data and sets `_group_cnt` to zero,
and rebuild `_signals`.  `_group_traces` is not touched.  `none` is a failed
assertion. -/
def init_signals (s : SigSession) : Option (SigSession × List Effect) :=
  match s._dev_inst with
  | none => none
  | some dev =>
    let r := stop_capture s
    match dev.dev_inst with
    | none => none
    | some sdi =>
      let logic_probe_count :=
        (sdi.channels.filter
          (fun c => decide (c.type = channel_type.SR_CHANNEL_LOGIC) && c.enabled)).length
      let dso_probe_count :=
        (sdi.channels.filter (fun c => decide (c.type = channel_type.SR_CHANNEL_DSO))).length
      let analog_probe_count :=
        (sdi.channels.filter
          (fun c => decide (c.type = channel_type.SR_CHANNEL_ANALOG) && c.enabled)).length
      let s1 : SigSession :=
        if logic_probe_count ≠ 0 then
          { r.1 with _logic_data := some { snapshots := [] },
                     _group_data := some { snapshots := [] }, _group_cnt := 0 }
        else r.1
      let s2 : SigSession :=
        if dso_probe_count ≠ 0 then { s1 with _dso_data := some { snapshots := [] } } else s1
      let s3 : SigSession :=
        if analog_probe_count ≠ 0 then { s2 with _analog_data := some { snapshots := [] } }
        else s2
      some ({ s3 with _signals := sdi.channels.filterMap signal_of_probe },
            r.2 ++ [Effect.signals_changed, Effect.data_updated])

/-- `SigSession::add_group`.  The group signal is constructed with
`_group_cnt` as its last argument, which `get_sec_index()` returns; a new
group signal is not selected. -/
def add_group (s : SigSession) : Outcome :=
  let probe_index_list :=
    (s._signals.filter
      (fun sg => decide (sg.type = trace_type.DS_LOGIC) && sg.selected)).map
      (fun sg => sg.index)
  if probe_index_list.length > 1 then
    match s._group_data with
    | none => Outcome.undefined
    | some gd =>
      match gd.snapshots, s._dev_inst with
      | [], none => Outcome.undefined
      | snaps, _ =>
        let e0 := if snaps.isEmpty then [Effect.group_set_samplerate] else []
        let signal : GroupSignal :=
          { index_list := probe_index_list, sec_index := s._group_cnt, selected := false }
        let s1 : SigSession :=
          { s with _group_traces := s._group_traces ++ [signal],
                   _group_cnt := s._group_cnt + 1 }
        let e1 := e0 ++ [Effect.signals_changed, Effect.data_updated]
        if s1._capture_state = capture_state.Stopped then
          match s1._cur_group_snapshot with
          | some _ => Outcome.returned s1 e1
          | none =>
            match s1._logic_data with
            | none => Outcome.undefined
            | some ld =>
              match ld.snapshots with
              | [] => Outcome.undefined
              | front :: _ =>
                let snap : GroupSnapshot :=
                  { source := front, index_list := signal.index_list }
                Outcome.returned
                  { s1 with _group_data := some (gd.push_snapshot snap),
                            _cur_group_snapshot := none } e1
        else Outcome.returned s1 e1
  else Outcome.returned s []

/-- The inner loop of `del_group` for the selected group with index
`sec_index`: every group with a larger `sec_index` has it decreased by one. -/
def shift_sec_index (sec_index : Int) (traces : List GroupSignal) : List GroupSignal :=
  traces.map (fun g => if g.sec_index > sec_index then { g with sec_index := g.sec_index - 1 }
                       else g)

/-- The outer loop of `del_group`, with the iterator `i` as a position in
`_group_traces`.  Every pass either erases the group at `i` or moves `i` on,
so that `fuel` passes, with `fuel` the number of groups at the start, reach
the end of the vector. -/
def del_group_loop : Nat → Nat → SigSession → Outcome
  | 0, _, s => Outcome.returned s []
  | fuel + 1, i, s =>
    match s._group_traces[i]? with
    | none => Outcome.returned s []
    | some g =>
      if g.selected then
        let s1 : SigSession :=
          { s with _group_traces := shift_sec_index g.sec_index s._group_traces }
        match s1._group_data with
        | none => Outcome.undefined
        | some gd =>
          if 0 ≤ g.sec_index ∧ g.sec_index.toNat < gd.snapshots.length then
            del_group_loop fuel i
              { s1 with _group_data :=
                          some { snapshots := gd.snapshots.eraseIdx g.sec_index.toNat },
                        _group_traces := s1._group_traces.eraseIdx i,
                        _group_cnt := s1._group_cnt - 1 }
          else Outcome.thrown s1
      else del_group_loop fuel (i + 1) s

/-- `SigSession::del_group`. -/
def del_group (s : SigSession) : Outcome :=
  match del_group_loop s._group_traces.length 0 s with
  | Outcome.returned s1 _ => Outcome.returned s1 [Effect.signals_changed, Effect.data_updated]
  | Outcome.thrown s1 => Outcome.thrown s1
  | Outcome.undefined => Outcome.undefined

/-- Marks for the signals in order: `flags` gives the new `selected()` of the
first signals, the others keep their mark. -/
def mark_signals : List Signal → List Bool → List Signal
  | sg :: sigs, b :: flags => { sg with selected := b } :: mark_signals sigs flags
  | sigs, _ => sigs

/-- Marks for the group traces in order, as `mark_signals`. -/
def mark_groups : List GroupSignal → List Bool → List GroupSignal
  | g :: gs, b :: flags => { g with selected := b } :: mark_groups gs flags
  | gs, _ => gs

/-- The user selects and deselects signals. -/
def select_signals (s : SigSession) (flags : List Bool) : SigSession :=
  { s with _signals := mark_signals s._signals flags }

/-- The user selects and deselects groups. -/
def select_groups (s : SigSession) (flags : List Bool) : SigSession :=
  { s with _group_traces := mark_groups s._group_traces flags }

/-- The bookkeeping of the groups: `_group_cnt` is the number of group traces
and every group trace has its position as `sec_index`. -/
def group_inv (s : SigSession) : Prop :=
  s._group_cnt = s._group_traces.length ∧
    ∀ (k : Nat) (g : GroupSignal), s._group_traces[k]? = some g → g.sec_index = (k : Int)

/-- What identifies a group trace apart from its `sec_index`. -/
def group_core (g : GroupSignal) : List Int × Bool := (g.index_list, g.selected)

end pv

namespace pv.sample

/-- A logic device with two enabled logic channels, probes 0 and 1. -/
def dev_two : DevInst :=
  device "DSLogic" dev_mode.LOGIC
    [{ type := channel_type.SR_CHANNEL_LOGIC, enabled := true, index := 0 },
     { type := channel_type.SR_CHANNEL_LOGIC, enabled := true, index := 1 }]

/-- A stopped session with two selected logic signals and three group traces
with one snapshot each, the first and the last group selected. -/
def session_three_groups : SigSession :=
  { SigSession.new with
      _dev_inst := some dev_two
      _capture_state := capture_state.Stopped
      _signals := [{ type := trace_type.DS_LOGIC, index := 0, selected := true, trig := 0 },
                   { type := trace_type.DS_LOGIC, index := 1, selected := true, trig := 0 }]
      _group_traces := [{ index_list := [0, 1], sec_index := 0, selected := true },
                        { index_list := [1, 2], sec_index := 1, selected := false },
                        { index_list := [0, 2], sec_index := 2, selected := true }]
      _group_cnt := 3
      _logic_data := some { snapshots := [{ buf_null := false }] }
      _group_data := some { snapshots :=
        [{ source := { buf_null := false }, index_list := [0, 1] },
         { source := { buf_null := false }, index_list := [1, 2] },
         { source := { buf_null := false }, index_list := [0, 2] }] } }

end pv.sample

namespace pv

/-- The group traces `gs` carry the consecutive `sec_index` values `k`,
`k + 1`, ... in list order. -/
def numbered : List GroupSignal → Int → Prop
  | [], _ => True
  | g :: gs, k => g.sec_index = k ∧ numbered gs (k + 1)

/-- The session a group operation returns with, if it returns. -/
def Outcome.session : Outcome → Option SigSession
  | Outcome.returned s _ => some s
  | _ => none

/-- The group data holds one snapshot per group trace. -/
def group_aligned (s : SigSession) : Bool :=
  match s._group_data with
  | none => false
  | some gd => decide (gd.snapshots.length = s._group_traces.length)

end pv

namespace pv.sample

/-- The session after `init_signals` on a device with two enabled logic
channels, before any capture, with both signals selected. -/
def session_two_selected : Option SigSession :=
  (init_signals (session_with dev_two)).map (fun r => select_signals r.1 [true, true])

/-- The session `session_two_selected` after `add_group`, with the new group
selected. -/
def session_one_added : Option SigSession :=
  (session_two_selected.bind (fun s => (add_group s).session)).map
    (fun s => select_groups s [true])

/-- The session `session_two_selected` after `add_group` twice, with the first
of the two groups selected. -/
def session_two_added : Option SigSession :=
  ((session_two_selected.bind (fun s => (add_group s).session)).bind
    (fun s => (add_group s).session)).map (fun s => select_groups s [true, false])

end pv.sample

/-! ## IEEE-754 binary64 arithmetic with round-to-nearest, ties to even -/

namespace pv

/-- The integer nearest to `y`, a tie going to the even one. -/
def rne (y : ℚ) : Int :=
  let f : Int := ⌊y⌋
  let r : ℚ := y - (f : ℚ)
  if r < 1 / 2 then f else if 1 / 2 < r then f + 1 else if f % 2 = 0 then f else f + 1

/-- The floor of the binary logarithm of `n >= 1`, by halving; `fuel` bounds
the number of steps and `n` itself is enough. -/
def log2_floor : Nat → Nat → Nat
  | 0, _ => 0
  | fuel + 1, n => if n < 2 then 0 else log2_floor fuel (n / 2) + 1

/-- The ceiling of the binary logarithm of `n >= 1`, by halving upwards. -/
def log2_ceil : Nat → Nat → Nat
  | 0, _ => 0
  | fuel + 1, n => if n < 2 then 0 else log2_ceil fuel ((n + 1) / 2) + 1

/-- The floor of the binary logarithm of a rational `x > 0`. -/
def ilog2 (x : ℚ) : Int :=
  if 1 ≤ x then (log2_floor ⌊x⌋₊ ⌊x⌋₊ : Int) else -(log2_ceil ⌈x⁻¹⌉₊ ⌈x⁻¹⌉₊ : Int)

/-- The exponent of the unit in the last place of the binary64 numbers around
`x > 0`: the significand has 53 bits, so that `2^52 <= x / 2^e < 2^53`. -/
def ulp_exp (x : ℚ) : Int := ilog2 x - 52

/-- The binary64 number nearest to `x > 0`, ties to even. -/
def round_pos (x : ℚ) : ℚ := (rne (x / (2 : ℚ) ^ ulp_exp x) : ℚ) * (2 : ℚ) ^ ulp_exp x

/-- Rounding to binary64, round-to-nearest with ties to even, on the value of
the exact result.  The exponent range is not bounded: the result agrees with
IEEE-754 binary64 whenever the exact result is 0 or has a magnitude from
2^-1022 up to the largest finite double, which covers every computation
stated below (their operands are `uint64_t` and pixel values). -/
def round64 (x : ℚ) : ℚ :=
  if x = 0 then 0 else if 0 < x then round_pos x else - round_pos (-x)

/-- A number with a significand of at most 53 bits: a binary64 number, the
exponent range apart. -/
def representable (c : ℚ) : Prop := ∃ m k : Int, |m| ≤ 2 ^ 53 ∧ c = (m : ℚ) * (2 : ℚ) ^ k

end pv

/-! ## The doubles `save_file` writes -/

namespace pv

/-- A finite `double`: its value and its sign bit, which tells the two zeros
apart.  `operator<<` writes a `-` first exactly when the sign bit is set. -/
structure Double where
  val : ℚ
  negative : Bool
  deriving DecidableEq, Repr

/-- Conversion of an unsigned integer to `double`. -/
def Double.of_u64 (n : Nat) : Double := { val := round64 (n : ℚ), negative := false }

/-- A literal of the source, by its decimal value. -/
def Double.lit (q : ℚ) : Double := { val := round64 q, negative := decide (q < 0) }

/-- The product of two doubles; the sign bit is the exclusive or of the two
sign bits, also when the product is zero. -/
def Double.mul (a b : Double) : Double :=
  { val := round64 (a.val * b.val), negative := xor a.negative b.negative }

/-- The quotient of two doubles for a divisor that is not zero; the sign bit
is the exclusive or of the two sign bits, also when the quotient is zero. -/
def Double.div (a b : Double) : Double :=
  { val := round64 (a.val / b.val), negative := xor a.negative b.negative }

/-- The difference of two doubles.  A difference that is zero is the positive
zero, unless the minuend is the negative and the subtrahend the positive
zero. -/
def Double.sub (a b : Double) : Double :=
  let r := round64 (a.val - b.val)
  { val := r, negative := if r = 0 then a.negative && !b.negative else decide (r < 0) }

/-- The double `i/(double)samplerate*1000.0` that `save_file` writes as the
time of row `i`; `samplerate` is the `double` made from the sample rate of the
device.  `none` for the sample rate 0, where the quotient is not finite. -/
def time_value (i samplerate : Nat) : Option Double :=
  if samplerate = 0 then none
  else
    some (Double.mul (Double.div (Double.of_u64 i) (Double.of_u64 samplerate))
      (Double.lit 1000))

/-- The double `(valueVDivs[ch]*(DS_CONF_DSO_VDIVS))*sample_int/1000.0` with
`sample_int = sample/255.0-0.5` that `save_file` writes for the byte
`sample`.  `vdiv` is the array element and `vdivs` the constant
`DS_CONF_DSO_VDIVS`, a constant of libsigrok that is not among the sources and
is taken as a parameter; their product is formed in `uint64_t`. -/
def volt_value (vdivs vdiv sample : Nat) : Double :=
  let sample_int :=
    Double.sub (Double.div (Double.of_u64 sample) (Double.lit 255)) (Double.lit (1 / 2))
  Double.div (Double.mul (Double.of_u64 ((vdiv * vdivs) % 2 ^ 64)) sample_int)
    (Double.lit 1000)

/-- The double a field of the output is written from, if it is one:
`vdivs` is the constant `DS_CONF_DSO_VDIVS`. -/
def Field.value (vdivs : Nat) : Field → Option Double
  | Field.time_ms i samplerate => time_value i samplerate
  | Field.volt (some vdiv) sample => some (volt_value vdivs vdiv sample)
  | _ => none

end pv

/-! ## `pv::view::Viewport` (DSView): mouse handlers and measurement -/

namespace pv.view

open pv

/-- Arithmetic on `double`.  A finite `double` is the rational number it
denotes; NaN and the infinities are not represented.  The operations that
round are parameters, so that nothing proved depends on how a product, sum
or quotient is rounded: `of_u64` is the conversion from `uint64_t`, the four
others are `+`, `-`, `*` and `/` on `double`.  Comparisons, `std::min`,
`std::max`, `floor`, `ceil` and the conversion from `int` are exact and are
taken on the rationals. -/
structure DoubleOps where
  of_u64 : Nat → ℚ
  add : ℚ → ℚ → ℚ
  sub : ℚ → ℚ → ℚ
  mul : ℚ → ℚ → ℚ
  div : ℚ → ℚ → ℚ

/-- The operations without rounding. -/
def DoubleOps.exact : DoubleOps :=
  { of_u64 := fun n => (n : ℚ)
    add := fun a b => a + b
    sub := fun a b => a - b
    mul := fun a b => a * b
    div := fun a b => a / b }

/-- The operations of IEEE-754 binary64 in the default rounding mode: each
gives the exact result rounded by `round64`. -/
def DoubleOps.binary64 : DoubleOps :=
  { of_u64 := fun n => round64 (n : ℚ)
    add := fun a b => round64 (a + b)
    sub := fun a b => round64 (a - b)
    mul := fun a b => round64 (a * b)
    div := fun a b => round64 (a / b) }

/-- The functions that turn a number into text: `Ruler::format_real_time`,
`Ruler::format_real_freq` (both take a `uint64_t` sample difference and the
sample rate) and `QString::number(d, 'f', 2)`.  None is among the sources;
they are parameters. -/
structure Format where
  format_real_time : Nat → Nat → String
  format_real_freq : Nat → Nat → String
  number_f2 : ℚ → String

/-- Conversion of a `double` to `uint64_t`: the value is truncated towards
zero; `none` when the truncated value is not a `uint64_t`, where the
behaviour is undefined. -/
def double_to_u64 (d : ℚ) : Option Nat :=
  let t : Int := if 0 ≤ d then ⌊d⌋ else ⌈d⌉
  if 0 ≤ t ∧ t < 2 ^ 64 then some t.toNat else none

/-- A `QPoint`. -/
structure QPoint where
  x : Int
  y : Int
  deriving DecidableEq, Repr

/-- What the handlers read of a `QMouseEvent`: `pos()`, the bits of
`buttons()` (`other` stands for any button besides the left and the right
one) and the bits of `button()`. -/
structure QMouseEvent where
  pos : QPoint
  left : Bool
  right : Bool
  other : Bool := false
  button_left : Bool := false
  button_right : Bool := false
  deriving DecidableEq, Repr

/-- The values of `_measure_type`. -/
inductive MeasureType where
  | NO_MEASURE
  | LOGIC_FREQ
  | LOGIC_EDGE
  | LOGIC_MOVE
  | LOGIC_CURS
  | DSO_FREQ
  deriving DecidableEq, Repr

/-- A signal as `Viewport::measure` meets it.  For a logic signal, `measure`
is the result of `LogicSignal::measure` with the values its three reference
arguments hold after the call, and `edges` that of `LogicSignal::edges` with
the rising and falling counts; for a DSO signal, `measure` is the result of
`DsoSignal::measure`. -/
inductive Trace where
  | logic (measure : Bool × Nat × Nat × Nat) (edges : Bool × Nat × Nat)
  | dso (measure : Bool)
  | other
  deriving DecidableEq, Repr

/-- What a handler reads from the view, the session and the device while it
runs.  `cursor_near` tells whether the cursor loop of `mousePressEvent` finds
a cursor to grab, `trig_hit` whether its signal loop finds a DSO signal whose
trigger rectangle holds the mouse point, `hover` what `paintMeasure` finds
under the mouse (the sample index of a DSO waveform point, if any). -/
structure Scene where
  mode : dev_mode
  capture : capture_state
  sample_rate : Nat
  scale : ℚ
  offset : ℚ
  minscale : ℚ
  maxscale : ℚ
  view_width : Int
  cursors_shown : Bool
  grabbed_cursor : Bool
  hover_point : QPoint
  cursor_near : Bool
  trig_hit : Bool
  hover : Option Nat
  signals : List Trace
  deriving DecidableEq, Repr

/-- The calls a handler makes on the view, the ruler and itself that the
claims speak of, in order. -/
inductive Call where
  | set_scale_offset (scale : ℚ) (offset : ℚ)
  | set_preScale_preOffset
  | set_index (index : Nat)
  | add_cursor (index : Nat)
  | show_cursors
  | set_trig_vpos (y : Int)
  | mouse_measure
  | update
  deriving DecidableEq, Repr

/-- Modelled from the spec: the constant `DsoMeasureStages` is declared in
viewport.h, which is not among the sources.  The horizontal measurement has
three recorded indices and is complete at stage 3; `paintMeasure` reads
`_dso_xm_index[2]` once the stage exceeds 2. -/
def DsoMeasureStages : Nat := 3

/-- The members of `Viewport` that the mouse handlers, `measure` and the
horizontal measurement of `paintMeasure` read and write.  `_drag_sig` tells
whether the pointer is set.  `_dso_xm_index` is the array of
`DsoMeasureStages` sample indices of type `uint64_t`.  The members that only
hold paint coordinates are left out. -/
structure Viewport where
  _mouse_point : QPoint
  _mouse_down_point : QPoint
  _mouse_down_offset : ℚ
  _drag_strength : ℚ
  _drag_sig : Bool
  _zoom_rect : QPoint × QPoint
  _zoom_rect_visible : Bool
  _measure_shown : Bool
  _measure_type : MeasureType
  _measure_en : Bool
  _cur_sample : Nat
  _nxt_sample : Nat
  _thd_sample : Nat
  _edge_start : Nat
  _edge_rising : Nat
  _edge_falling : Nat
  _mm_width : String
  _mm_period : String
  _mm_freq : String
  _mm_duty : String
  _em_rising : String
  _em_falling : String
  _em_edges : String
  _hover_index : Nat
  _hover_hit : Bool
  _dso_xm : Bool
  _dso_xm_stage : Nat
  _dso_xm_index : List Nat
  _dso_xm_y : Int
  _dso_ym : Bool
  _dso_ym_done : Bool
  _dso_ym_start : Int
  _dso_ym_end : Int
  deriving DecidableEq, Repr

/-- The constructor `Viewport::Viewport`.  The members it does not
initialise keep the values of `u`, whatever they are. -/
def Viewport.new (u : Viewport) : Viewport :=
  { u with
      _zoom_rect_visible := false
      _measure_shown := false
      _measure_type := MeasureType.NO_MEASURE
      _cur_sample := 0
      _nxt_sample := 1
      _hover_index := 0
      _hover_hit := false
      _dso_xm := false
      _dso_xm_stage := 0
      _dso_ym := false
      _dso_ym_done := false
      _mm_width := "#####"
      _mm_period := "#####"
      _mm_freq := "#####"
      _mm_duty := "#####"
      _measure_en := true
      _drag_strength := 0
      _drag_sig := false }

/-- The loop of `mousePressEvent` that puts the new index in its place:
`for (i = stage; i > 0; i--)` orders the entries `i - 1` and `i`. -/
def sort_down (a : List Nat) : Nat → List Nat
  | 0 => a
  | i + 1 =>
    let max_index := max (a.getD i 0) (a.getD (i + 1) 0)
    let a1 := a.set i (min (a.getD i 0) (a.getD (i + 1) 0))
    sort_down (a1.set (i + 1) max_index) i

/-- The first statements of `mousePressEvent`, up to the `update()` that
ends the block for the left button.  Of the loops over the cursors and the
signals only what they write to the viewport is kept. -/
def press_begin (v : Viewport) (sc : Scene) (event : QMouseEvent) : Viewport :=
  let v1 : Viewport :=
    { v with _mouse_down_point := event.pos, _mouse_down_offset := sc.offset,
             _measure_shown := v._dso_xm || v._dso_ym, _drag_strength := 0 }
  if event.left then
    let w1 : Viewport :=
      if sc.cursors_shown && sc.cursor_near then
        { v1 with _measure_type := MeasureType.LOGIC_CURS }
      else v1
    let w2 : Viewport := if sc.trig_hit then { w1 with _drag_sig := true } else w1
    if w2._measure_type = MeasureType.LOGIC_FREQ then
      { w2 with _measure_type := MeasureType.NO_MEASURE }
    else w2
  else v1

/-- `Viewport::mousePressEvent`.  `none` is undefined behaviour, the
conversion of the new index to `uint64_t` being out of range. -/
def mousePressEvent (ops : DoubleOps) (v : Viewport) (sc : Scene) (event : QMouseEvent) :
    Option (Viewport × List Call) :=
  let v2 : Viewport := press_begin v sc event
  let e2 : List Call := if event.left then [Call.update] else []
  if v2._hover_hit && event.right then
    some ({ v2 with _hover_hit := false },
          e2 ++ [Call.add_cursor v2._hover_index, Call.show_cursors])
  else if v2._hover_hit && event.left then
    some ({ v2 with _dso_ym := true, _dso_ym_done := false, _dso_ym_start := event.pos.y }, e2)
  else if v2._dso_ym && !v2._dso_ym_done && event.left then
    some ({ v2 with _dso_ym_end := event.pos.y, _dso_ym_done := true }, e2)
  else if v2._dso_ym && !v2._dso_ym_done && event.right then
    some ({ v2 with _dso_ym := false, _dso_ym_done := false }, e2)
  else if v2._dso_xm && decide (v2._dso_xm_stage < DsoMeasureStages) && event.right then
    some ({ v2 with _dso_xm := false, _measure_shown := v2._dso_ym, _dso_xm_stage := 0,
                    _measure_type := MeasureType.NO_MEASURE,
                    _mm_width := "#####", _mm_period := "#####", _mm_freq := "#####",
                    _mm_duty := "#####" },
          e2 ++ [Call.mouse_measure])
  else if event.left then
    if 0 < v2._dso_xm_stage ∧ v2._dso_xm_stage < DsoMeasureStages then
      let sample_rate := ops.of_u64 sc.sample_rate
      let samples_per_pixel := ops.mul sample_rate sc.scale
      match double_to_u64
          (ops.add (ops.mul (event.pos.x : ℚ) samples_per_pixel)
            (ops.mul sc.offset sample_rate)) with
      | none => none
      | some index =>
        some ({ v2 with
                  _dso_xm_index :=
                    sort_down (v2._dso_xm_index.set v2._dso_xm_stage index) v2._dso_xm_stage,
                  _dso_xm_stage := (v2._dso_xm_stage + 1) % (DsoMeasureStages + 1) }, e2)
    else some (v2, e2)
  else some (v2, e2)

/-- The duty cycle as the code computes it from two `uint64_t` differences:
`d1 * 100.0 / d2` in `double`. -/
def duty_cycle (ops : DoubleOps) (d1 d2 : Nat) : ℚ :=
  ops.div (ops.mul (ops.of_u64 d1) 100) (ops.of_u64 d2)

/-- The loop of `Viewport::measure` over the signals; a `break` ends it. -/
def measure_loop (ops : DoubleOps) (fm : Format) (sc : Scene) :
    Viewport → List Trace → Viewport × List Call
  | v, [] => (v, [])
  | v, Trace.logic m e :: rest =>
    if v._measure_type ≠ MeasureType.LOGIC_EDGE then
      let v1 : Viewport :=
        { v with _cur_sample := m.2.1, _nxt_sample := m.2.2.1, _thd_sample := m.2.2.2 }
      if m.1 then
        ({ v1 with
             _measure_shown := true
             _measure_type := MeasureType.LOGIC_FREQ
             _mm_width :=
               fm.format_real_time (dock.sub_u64 v1._nxt_sample v1._cur_sample) sc.sample_rate
             _mm_period :=
               if v1._thd_sample ≠ 0 then
                 fm.format_real_time (dock.sub_u64 v1._thd_sample v1._cur_sample) sc.sample_rate
               else "#####"
             _mm_freq :=
               if v1._thd_sample ≠ 0 then
                 fm.format_real_freq (dock.sub_u64 v1._thd_sample v1._cur_sample) sc.sample_rate
               else "#####"
             _mm_duty :=
               if v1._thd_sample ≠ 0 then
                 fm.number_f2
                   (duty_cycle ops (dock.sub_u64 v1._nxt_sample v1._cur_sample)
                     (dock.sub_u64 v1._thd_sample v1._cur_sample)) ++ "%"
               else "#####" },
         [Call.mouse_measure])
      else
        let r := measure_loop ops fm sc
          { v1 with _mm_width := "#####", _mm_period := "#####", _mm_freq := "#####",
                    _mm_duty := "#####" } rest
        (r.1, Call.mouse_measure :: r.2)
    else
      let v1 : Viewport := { v with _edge_rising := e.2.1, _edge_falling := e.2.2 }
      if e.1 then
        ({ v1 with
             _measure_shown := true
             _em_rising := "Rising: " ++ toString v1._edge_rising
             _em_falling := "Falling: " ++ toString v1._edge_falling
             _em_edges :=
               "Edges: " ++ toString ((v1._edge_rising + v1._edge_falling) % 2 ^ 64) }, [])
      else
        let r := measure_loop ops fm sc
          { v1 with _mm_width := "#####", _mm_period := "#####", _mm_freq := "#####",
                    _mm_duty := "#####" } rest
        (r.1, Call.mouse_measure :: r.2)
  | v, Trace.dso m :: rest =>
    if v._measure_en && m then
      measure_loop ops fm sc
        { v with _measure_shown := true, _measure_type := MeasureType.DSO_FREQ } rest
    else measure_loop ops fm sc v rest
  | v, Trace.other :: rest => measure_loop ops fm sc v rest

/-- `Viewport::measure`. -/
def measure (ops : DoubleOps) (fm : Format) (v : Viewport) (sc : Scene) :
    Viewport × List Call :=
  if (sc.mode = dev_mode.LOGIC ∧ sc.capture = capture_state.Running) ∨ v._drag_strength ≠ 0 then
    (v, [])
  else
    measure_loop ops fm sc { v with _measure_shown := v._dso_xm || v._dso_ym } sc.signals

/-- The index `mouseMoveEvent` gives the grabbed cursor for the position
`pos`.  `pos - (uint64_t)pos` is taken exactly: the truncated value is a
`double` and the difference, the fractional part of `pos`, is one too.
`none` is a conversion to `uint64_t` out of range. -/
def grabbed_index (pos : ℚ) : Option Nat :=
  match double_to_u64 pos with
  | none => none
  | some t =>
    let pos_delta : ℚ := pos - (t : ℚ)
    if pos_delta < 1 / 2 then double_to_u64 (⌊pos⌋ : ℚ) else double_to_u64 (⌈pos⌉ : ℚ)

/-- The position `pos` of `mouseMoveEvent`:
`(offset + hover_point.x * scale) * sample_rate`. -/
def hover_pos (ops : DoubleOps) (sc : Scene) : ℚ :=
  let cur_time := ops.add sc.offset (ops.mul (sc.hover_point.x : ℚ) sc.scale)
  ops.mul cur_time (ops.of_u64 sc.sample_rate)

/-- The first statements of `mouseMoveEvent`: `_hover_hit` is cleared and
the zoom rectangle follows the mouse while the right button is held. -/
def move_zoom (v : Viewport) (event : QMouseEvent) : Viewport :=
  let v0 : Viewport := { v with _hover_hit := false }
  if !v0._dso_xm && (v0._dso_ym_done || !v0._dso_ym) && event.right then
    { v0 with _zoom_rect := (v0._mouse_down_point, event.pos), _zoom_rect_visible := true }
  else v0

/-- The block of `mouseMoveEvent` for the left button: the trigger level of
the dragged signal follows the mouse, or else the view is panned. -/
def move_drag (ops : DoubleOps) (v : Viewport) (sc : Scene) (event : QMouseEvent) :
    Viewport × List Call :=
  if event.left then
    if v._drag_sig then (v, [Call.set_trig_vpos event.pos.y])
    else
      ({ v with _drag_strength := ((v._mouse_down_point.x - event.pos.x : Int) : ℚ) },
       [Call.set_scale_offset sc.scale
          (ops.add v._mouse_down_offset
            (ops.mul ((v._mouse_down_point.x - event.pos.x : Int) : ℚ) sc.scale))])
  else (v, [])

/-- The block of `mouseMoveEvent` for no button: the grabbed cursor follows
the mouse, and `measure()` is called.  `none` is a conversion to `uint64_t`
out of range. -/
def move_hover (ops : DoubleOps) (fm : Format) (v : Viewport) (sc : Scene)
    (event : QMouseEvent) : Option (Viewport × List Call) :=
  if !(event.left || event.right || event.other) then
    let v3 : Viewport :=
      if v._dso_ym && !v._dso_ym_done then { v with _dso_ym_end := event.pos.y } else v
    let m := measure ops fm v3 sc
    if sc.cursors_shown && sc.grabbed_cursor then
      match grabbed_index (hover_pos ops sc) with
      | none => none
      | some n => some (m.1, Call.set_index n :: m.2)
    else some m
  else some (v, [])

/-- `Viewport::mouseMoveEvent`. -/
def mouseMoveEvent (ops : DoubleOps) (fm : Format) (v : Viewport) (sc : Scene)
    (event : QMouseEvent) : Option (Viewport × List Call) :=
  let r2 := move_drag ops (move_zoom v event) sc event
  match move_hover ops fm r2.1 sc event with
  | none => none
  | some r => some ({ r.1 with _mouse_point := event.pos }, r2.2 ++ r.2 ++ [Call.update])

/-- The scale `mouseReleaseEvent` asks for:
`max(min(scale * abs(x_release - x_press) / view_width, maxscale), minscale)`. -/
def zoom_scale (ops : DoubleOps) (sc : Scene) (x_release x_press : Int) : ℚ :=
  max (min (ops.div (ops.mul sc.scale ((|x_release - x_press| : Int) : ℚ)) (sc.view_width : ℚ))
        sc.maxscale) sc.minscale

/-- The offset `mouseReleaseEvent` asks for:
`offset + (min(x_release, x_press) + 0.5) * scale`. -/
def zoom_offset (ops : DoubleOps) (sc : Scene) (x_release x_press : Int) : ℚ :=
  ops.add sc.offset (ops.mul (ops.add ((min x_release x_press : Int) : ℚ) (1 / 2)) sc.scale)

/-- `Viewport::mouseReleaseEvent`, the part up to `_drag_sig.reset()`: the
zoom rectangle.  The statements after it set `_measure_type` and
`_drag_strength` and start or stop the drag timer, from constants and an
elapsed time that are not among the sources; they make no call of
`set_scale_offset` and do not write `_zoom_rect_visible`. -/
def mouseReleaseEvent (ops : DoubleOps) (v : Viewport) (sc : Scene) (event : QMouseEvent) :
    Viewport × List Call :=
  let r1 : Viewport × List Call :=
    if v._zoom_rect_visible then
      let newOffset := zoom_offset ops sc event.pos.x v._mouse_down_point.x
      let newScale := zoom_scale ops sc event.pos.x v._mouse_down_point.x
      ({ v with _zoom_rect_visible := false },
       if newScale ≠ sc.scale then [Call.set_scale_offset newScale newOffset] else [])
    else (v, [])
  ({ r1.1 with _drag_sig := false }, r1.2)

/-- `Viewport::mouseDoubleClickEvent`.  `none` is a conversion to `uint64_t`
out of range. -/
def mouseDoubleClickEvent (ops : DoubleOps) (v : Viewport) (sc : Scene)
    (event : QMouseEvent) : Option (Viewport × List Call) :=
  if sc.mode = dev_mode.LOGIC then
    if event.button_right then
      if sc.scale = sc.maxscale then some (v, [Call.set_preScale_preOffset, Call.update])
      else some (v, [Call.set_scale_offset sc.maxscale 0, Call.update])
    else if event.button_left then
      match double_to_u64
          (ops.mul (ops.add sc.offset (ops.mul (ops.add (event.pos.x : ℚ) (1 / 2)) sc.scale))
            (ops.of_u64 sc.sample_rate)) with
      | none => none
      | some index => some (v, [Call.add_cursor index, Call.show_cursors, Call.update])
    else some (v, [Call.update])
  else if sc.mode = dev_mode.DSO ∧ sc.capture ≠ capture_state.Init ∧ event.button_left = true then
    if v._dso_xm_stage = 0 then
      let sample_rate := ops.of_u64 sc.sample_rate
      let samples_per_pixel := ops.mul sample_rate sc.scale
      match double_to_u64
          (ops.add (ops.mul (event.pos.x : ℚ) samples_per_pixel)
            (ops.mul sc.offset sample_rate)) with
      | none => none
      | some index =>
        some ({ v with _dso_xm_index := v._dso_xm_index.set 0 index, _dso_xm_stage := 1,
                       _dso_xm_y := event.pos.y, _dso_xm := true,
                       _measure_type := MeasureType.DSO_FREQ, _measure_shown := true }, [])
    else if v._dso_xm_stage = DsoMeasureStages then
      some ({ v with _dso_xm := false, _measure_shown := v._dso_ym, _dso_xm_stage := 0,
                     _mm_width := "#####", _mm_period := "#####", _mm_freq := "#####",
                     _mm_duty := "#####" }, [Call.mouse_measure])
    else some (v, [])
  else some (v, [])

/-- The branch `else if (_measure_type == DSO_FREQ)` of `paintMeasure`
(viewport.cpp:828-1012), by what it writes to the viewport: `_hover_hit` and
`_hover_index` when a point of a DSO waveform lies under the mouse, and, in
the horizontal measurement (`if (_dso_xm)`), the four measurement strings
from the recorded indices. -/
def paint_dso_freq (ops : DoubleOps) (fm : Format) (v : Viewport) (sc : Scene) :
    Viewport × List Call :=
  let v0 : Viewport :=
    match sc.hover with
    | some index => { v with _hover_hit := true, _hover_index := index }
    | none => v
  if v0._dso_xm then
    let i0 := v0._dso_xm_index.getD 0 0
    let i1 := v0._dso_xm_index.getD 1 0
    let i2 := v0._dso_xm_index.getD 2 0
    let v1 : Viewport :=
      if v0._dso_xm_stage > 1 then
        { v0 with _mm_width := fm.format_real_time (dock.sub_u64 i1 i0) sc.sample_rate }
      else v0
    let v2 : Viewport :=
      if v0._dso_xm_stage > 2 then
        { v1 with
            _mm_period := fm.format_real_time (dock.sub_u64 i2 i0) sc.sample_rate
            _mm_freq := fm.format_real_freq (dock.sub_u64 i2 i0) sc.sample_rate
            _mm_duty :=
              fm.number_f2 (duty_cycle ops (dock.sub_u64 i1 i0) (dock.sub_u64 i2 i0)) ++ "%" }
      else v1
    (v2, [Call.mouse_measure])
  else (v0, [])

/-- `Viewport::paintMeasure`, by what it writes to the viewport: `_hover_hit`
is cleared, then the measure type decides.  The branches for `LOGIC_FREQ`
and `LOGIC_EDGE` only paint; the branch for `DSO_FREQ` is `paint_dso_freq`;
for every other measure type nothing is done. -/
def paintMeasure (ops : DoubleOps) (fm : Format) (v : Viewport) (sc : Scene) :
    Viewport × List Call :=
  let v0 : Viewport := { v with _hover_hit := false }
  if v0._measure_type = MeasureType.LOGIC_FREQ then (v0, [])
  else if v0._measure_type = MeasureType.LOGIC_EDGE then (v0, [])
  else if v0._measure_type = MeasureType.DSO_FREQ then paint_dso_freq ops fm v0 sc
  else (v0, [])

/-- One call of a member function of the viewport with what it reads. -/
inductive Input where
  | press (sc : Scene) (event : QMouseEvent)
  | move (sc : Scene) (event : QMouseEvent)
  | release (sc : Scene) (event : QMouseEvent)
  | double_click (sc : Scene) (event : QMouseEvent)
  | paint (sc : Scene)

/-- The viewport after one call; `none` is undefined behaviour. -/
def Viewport.handle (ops : DoubleOps) (fm : Format) (v : Viewport) : Input → Option Viewport
  | Input.press sc event => (mousePressEvent ops v sc event).map (fun r => r.1)
  | Input.move sc event => (mouseMoveEvent ops fm v sc event).map (fun r => r.1)
  | Input.release sc event => some (mouseReleaseEvent ops v sc event).1
  | Input.double_click sc event => (mouseDoubleClickEvent ops v sc event).map (fun r => r.1)
  | Input.paint sc => some (paintMeasure ops fm v sc).1

/-- The viewport after a sequence of calls. -/
def Viewport.run (ops : DoubleOps) (fm : Format) : Viewport → List Input → Option Viewport
  | v, [] => some v
  | v, i :: rest =>
    match v.handle ops fm i with
    | none => none
    | some v1 => Viewport.run ops fm v1 rest

end pv.view

namespace pv.view.sample

/-- A viewport object before its constructor has run: every member zero. -/
def blank : Viewport :=
  { _mouse_point := ⟨0, 0⟩, _mouse_down_point := ⟨0, 0⟩, _mouse_down_offset := 0,
    _drag_strength := 0, _drag_sig := false, _zoom_rect := (⟨0, 0⟩, ⟨0, 0⟩),
    _zoom_rect_visible := false, _measure_shown := false,
    _measure_type := MeasureType.NO_MEASURE, _measure_en := false,
    _cur_sample := 0, _nxt_sample := 0, _thd_sample := 0,
    _edge_start := 0, _edge_rising := 0, _edge_falling := 0,
    _mm_width := "", _mm_period := "", _mm_freq := "", _mm_duty := "",
    _em_rising := "", _em_falling := "", _em_edges := "",
    _hover_index := 0, _hover_hit := false,
    _dso_xm := false, _dso_xm_stage := 0, _dso_xm_index := [0, 0, 0], _dso_xm_y := 0,
    _dso_ym := false, _dso_ym_done := false, _dso_ym_start := 0, _dso_ym_end := 0 }

/-- A stopped DSO device at 1 Hz shown at one second per pixel from offset 0,
in a view 100 pixels wide, with no cursor and nothing under the mouse. -/
def scene_dso : Scene :=
  { mode := dev_mode.DSO, capture := capture_state.Stopped, sample_rate := 1,
    scale := 1, offset := 0, minscale := 1 / 10, maxscale := 10, view_width := 100,
    cursors_shown := false, grabbed_cursor := false, hover_point := ⟨0, 0⟩,
    cursor_near := false, trig_hit := false, hover := none, signals := [] }

/-- Text for numbers: the sample difference in decimal, and the integer part
of a `double`. -/
def format : Format :=
  { format_real_time := fun n _ => toString n
    format_real_freq := fun n _ => toString n
    number_f2 := fun d => toString ⌊d⌋ }

/-- A left-button event at the pixel `x`. -/
def left_at (x : Int) : QMouseEvent :=
  { pos := ⟨x, 0⟩, left := true, right := false, button_left := true }

/-- A stopped logic device at 1 Hz shown at half a second per pixel from
offset 0, the mouse at pixel 5, the cursors shown and one of them grabbed;
`measure()` of the only signal succeeds with the samples 10, 20 and 30. -/
def scene_logic : Scene :=
  { mode := dev_mode.LOGIC, capture := capture_state.Stopped, sample_rate := 1,
    scale := 1 / 2, offset := 0, minscale := 1 / 10, maxscale := 10, view_width := 100,
    cursors_shown := true, grabbed_cursor := true, hover_point := ⟨5, 0⟩,
    cursor_near := false, trig_hit := false, hover := none,
    signals := [Trace.logic (true, 10, 20, 30) (false, 0, 0)] }

/-- The scene `scene_logic` with the view offset 2^64 seconds and the mouse
at pixel 0, which is the sample position 2^64. -/
def scene_far : Scene := { scene_logic with offset := 2 ^ 64, hover_point := ⟨0, 0⟩ }

/-- A mouse event at the pixel `x` with no button held. -/
def free_at (x : Int) : QMouseEvent :=
  { pos := ⟨x, 0⟩, left := false, right := false }

/-- The release of the right button at the pixel `x`. -/
def right_release_at (x : Int) : QMouseEvent :=
  { pos := ⟨x, 0⟩, left := false, right := false, button_right := true }

/-- A viewport with the zoom rectangle shown, the mouse pressed at pixel 10. -/
def viewport_zoom : Viewport :=
  { Viewport.new blank with _zoom_rect_visible := true, _mouse_down_point := ⟨10, 0⟩ }

/-- The viewport after a press of the left button at pixel 50 over
`scene_dso`, fresh from its constructor before. -/
def viewport_pressed : Viewport :=
  { Viewport.new blank with _mouse_down_point := ⟨50, 0⟩ }

/-- Two moves with the left button held, to the pixels 40 and 45. -/
def moves_pan : List (Scene × QMouseEvent) :=
  [(scene_dso, left_at 40), (scene_dso, left_at 45)]

end pv.view.sample

namespace pv.view

/-- The pixel position `cursorX` at which `paintSignals` draws the cursor of
the sample `index` and at which `mousePressEvent` tests it for a hit
(viewport.cpp:204-206 and 381-383):
`samples_per_pixel = get_sample_rate() * scale` and
`cursorX = index/samples_per_pixel - (offset / scale)`, all in `double`. -/
def cursorX (ops : DoubleOps) (sc : Scene) (index : Nat) : ℚ :=
  let samples_per_pixel := ops.mul (ops.of_u64 sc.sample_rate) sc.scale
  ops.sub (ops.div (ops.of_u64 index) samples_per_pixel) (ops.div sc.offset sc.scale)

end pv.view

namespace pv.view.sample

/-- A stopped logic device at 1 MHz, shown at the double nearest to 2e-6
seconds per pixel from the double nearest to 0.001 seconds. -/
def scene_logic_mhz : Scene :=
  { scene_logic with
      sample_rate := 1000000, scale := round64 (2 / 1000000), offset := round64 (1 / 1000) }

/-- A stopped logic device at 1 MHz, shown at 1/8 second per pixel from the
double nearest to 0.1 seconds. -/
def scene_logic_eighth : Scene :=
  { scene_logic with sample_rate := 1000000, scale := 1 / 8, offset := round64 (1 / 10) }

end pv.view.sample

/-! ## Theorems -/

/-! ### Rounding to binary64 -/

namespace pv

theorem rne_bounds (y : ℚ) : ⌊y⌋ ≤ rne y ∧ rne y ≤ ⌊y⌋ + 1 := by
  unfold rne
  dsimp only
  split_ifs <;> constructor <;> omega

theorem rne_abs_sub_le (y : ℚ) : |(rne y : ℚ) - y| ≤ 1 / 2 := by
  have h1 : (⌊y⌋ : ℚ) ≤ y := Int.floor_le y
  have h2 : y < (⌊y⌋ : ℚ) + 1 := Int.lt_floor_add_one y
  unfold rne
  dsimp only
  rw [abs_le]
  split_ifs with a b c
  · constructor <;> linarith
  · push_cast
    constructor <;> linarith
  · constructor <;> linarith
  · push_cast
    constructor <;> linarith

theorem rne_intCast (n : Int) : rne (n : ℚ) = n := by
  unfold rne
  dsimp only
  rw [Int.floor_intCast]
  simp

theorem rne_le_of_le (y : ℚ) (n : Int) (h : y ≤ (n : ℚ)) : rne y ≤ n := by
  rcases eq_or_lt_of_le h with h | h
  · rw [h, rne_intCast]
  · have hf : ⌊y⌋ < n := Int.floor_lt.2 h
    have := (rne_bounds y).2
    omega

theorem le_rne_of_le (y : ℚ) (n : Int) (h : (n : ℚ) ≤ y) : n ≤ rne y := by
  have hf : n ≤ ⌊y⌋ := Int.le_floor.2 h
  have := (rne_bounds y).1
  omega

theorem rne_mono (x y : ℚ) (h : x ≤ y) : rne x ≤ rne y := by
  have hf : ⌊x⌋ ≤ ⌊y⌋ := Int.floor_mono h
  rcases eq_or_lt_of_le hf with he | hl
  · unfold rne
    dsimp only
    rw [he]
    have hr : x - (⌊y⌋ : ℚ) ≤ y - (⌊y⌋ : ℚ) := by linarith
    split_ifs <;> first | omega | (exfalso; linarith)
  · have h1 := (rne_bounds x).2
    have h2 := (rne_bounds y).1
    omega

theorem rne_eq_of_abs_lt (y : ℚ) (m : Int) (h : |y - (m : ℚ)| < 1 / 2) : rne y = m := by
  rw [abs_lt] at h
  have e := rne_abs_sub_le y
  rw [abs_le] at e
  have lo : ((rne y : Int) : ℚ) - (m : ℚ) < 1 := by linarith [e.2, h.1]
  have hi : (m : ℚ) - ((rne y : Int) : ℚ) < 1 := by linarith [e.1, h.2]
  have lo' : rne y - m < 1 := by exact_mod_cast lo
  have hi' : m - rne y < 1 := by exact_mod_cast hi
  omega


theorem two_zpow_pos (k : Int) : (0 : ℚ) < (2 : ℚ) ^ k := zpow_pos (by norm_num) k

theorem two_zpow_mono (a b : Int) (h : a ≤ b) : (2 : ℚ) ^ a ≤ (2 : ℚ) ^ b :=
  zpow_le_zpow_right₀ (by norm_num) h

theorem log2_floor_eq (fuel : Nat) : ∀ n : Nat, n ≤ fuel → log2_floor fuel n = Nat.log 2 n := by
  induction fuel with
  | zero =>
    intro n hn
    have : n = 0 := by omega
    subst this
    simp [log2_floor]
  | succ fuel ih =>
    intro n hn
    unfold log2_floor
    split_ifs with h
    · rw [Nat.log_of_lt h]
    · rw [ih (n / 2) (by omega)]
      exact (Nat.log_of_one_lt_of_le (by norm_num) (by omega)).symm

theorem log2_ceil_eq (fuel : Nat) : ∀ n : Nat, n ≤ fuel → log2_ceil fuel n = Nat.clog 2 n := by
  induction fuel with
  | zero =>
    intro n hn
    have : n = 0 := by omega
    subst this
    simp [log2_ceil]
  | succ fuel ih =>
    intro n hn
    unfold log2_ceil
    split_ifs with h
    · rw [Nat.clog_of_right_le_one (by omega)]
    · rw [ih ((n + 1) / 2) (by omega)]
      exact (Nat.clog_of_two_le (by norm_num) (by omega)).symm

theorem ilog2_eq (x : ℚ) : ilog2 x = Int.log 2 x := by
  unfold ilog2 Int.log
  rw [log2_floor_eq _ _ (le_refl _), log2_ceil_eq _ _ (le_refl _)]

theorem log2_bounds (x : ℚ) (hx : 0 < x) :
    (2 : ℚ) ^ ilog2 x ≤ x ∧ x < (2 : ℚ) ^ (ilog2 x + 1) := by
  rw [ilog2_eq]
  have h1 := Int.zpow_log_le_self (b := 2) (by norm_num) hx
  have h2 := Int.lt_zpow_succ_log_self (b := 2) (by norm_num) x
  simp only [Nat.cast_ofNat] at h1 h2
  exact ⟨h1, h2⟩

theorem log2_eq (x : ℚ) (z : Int) (h1 : (2 : ℚ) ^ z ≤ x) (h2 : x < (2 : ℚ) ^ (z + 1)) :
    ilog2 x = z := by
  rw [ilog2_eq]
  have hx : 0 < x := lt_of_lt_of_le (two_zpow_pos z) h1
  have a := (Int.zpow_le_iff_le_log (b := 2) (by norm_num) (x := z) hx).1
    (by simpa using h1)
  have b := (Int.lt_zpow_iff_log_lt (b := 2) (by norm_num) (x := z + 1) hx).1
    (by simpa using h2)
  omega

theorem log2_mono (x y : ℚ) (hx : 0 < x) (h : x ≤ y) : ilog2 x ≤ ilog2 y := by
  rw [ilog2_eq, ilog2_eq]
  exact Int.log_mono_right hx h

/-- The scaled value lies in the 53-bit range. -/
theorem scaled_bounds (x : ℚ) (hx : 0 < x) :
    (2 : ℚ) ^ (52 : Int) ≤ x / (2 : ℚ) ^ ulp_exp x ∧
    x / (2 : ℚ) ^ ulp_exp x < (2 : ℚ) ^ (53 : Int) := by
  obtain ⟨h1, h2⟩ := log2_bounds x hx
  have hp := two_zpow_pos (ulp_exp x)
  unfold ulp_exp at hp ⊢
  constructor
  · rw [le_div_iff₀ hp, ← zpow_add₀ (by norm_num : (2 : ℚ) ≠ 0)]
    have : (52 : Int) + (ilog2 x - 52) = ilog2 x := by ring
    rw [this]
    exact h1
  · rw [div_lt_iff₀ hp, ← zpow_add₀ (by norm_num : (2 : ℚ) ≠ 0)]
    have : (53 : Int) + (ilog2 x - 52) = ilog2 x + 1 := by ring
    rw [this]
    exact h2

theorem round_pos_ge (x : ℚ) (hx : 0 < x) : (2 : ℚ) ^ (52 + ulp_exp x) ≤ round_pos x := by
  unfold round_pos
  have hp := two_zpow_pos (ulp_exp x)
  have h := le_rne_of_le (x / (2 : ℚ) ^ ulp_exp x) (2 ^ 52)
    (by
      have := (scaled_bounds x hx).1
      push_cast
      exact_mod_cast this)
  have hq : ((2 : ℚ) ^ (52 : Int)) ≤ (rne (x / (2 : ℚ) ^ ulp_exp x) : ℚ) := by
    have : (((2 : Int) ^ 52 : Int) : ℚ) ≤ (rne (x / (2 : ℚ) ^ ulp_exp x) : ℚ) := by
      exact_mod_cast h
    exact le_of_eq_of_le (by norm_num) this
  rw [zpow_add₀ (by norm_num : (2 : ℚ) ≠ 0)]
  exact mul_le_mul_of_nonneg_right hq hp.le

theorem round_pos_pos (x : ℚ) (hx : 0 < x) : 0 < round_pos x :=
  lt_of_lt_of_le (two_zpow_pos _) (round_pos_ge x hx)

theorem round_pos_abs_sub_le (x : ℚ) (hx : 0 < x) :
    |round_pos x - x| ≤ x / 2 ^ 53 := by
  have hp := two_zpow_pos (ulp_exp x)
  have he := rne_abs_sub_le (x / (2 : ℚ) ^ ulp_exp x)
  have hs := (scaled_bounds x hx).1
  have e1 : round_pos x - x =
      ((rne (x / (2 : ℚ) ^ ulp_exp x) : ℚ) - x / (2 : ℚ) ^ ulp_exp x) * (2 : ℚ) ^ ulp_exp x := by
    unfold round_pos
    field_simp
  rw [e1, abs_mul, abs_of_pos hp]
  have h2 : (2 : ℚ) ^ ulp_exp x ≤ x / 2 ^ 52 := by
    rw [le_div_iff₀ (by norm_num)]
    have := (le_div_iff₀ hp).1 hs
    have e52 : ((2 : ℚ) ^ (52 : Int)) = 2 ^ 52 := by norm_num
    rw [e52] at this
    linarith
  calc |(rne (x / (2 : ℚ) ^ ulp_exp x) : ℚ) - x / (2 : ℚ) ^ ulp_exp x| * (2 : ℚ) ^ ulp_exp x
      ≤ 1 / 2 * (2 : ℚ) ^ ulp_exp x := mul_le_mul_of_nonneg_right he hp.le
    _ ≤ 1 / 2 * (x / 2 ^ 52) := by linarith
    _ = x / 2 ^ 53 := by ring


theorem two_zpow_int (j : Int) (hj : 0 ≤ j) : (2 : ℚ) ^ j = (((2 : Int) ^ j.toNat : Int) : ℚ) := by
  have e : (j.toNat : Int) = j := Int.toNat_of_nonneg hj
  rw [← e, zpow_natCast, Int.toNat_ofNat]
  push_cast
  rfl

theorem repr_scaled (m k e : Int) (h : e ≤ k) :
    (m : ℚ) * (2 : ℚ) ^ k / (2 : ℚ) ^ e = ((m * 2 ^ (k - e).toNat : Int) : ℚ) := by
  have hp := two_zpow_pos e
  rw [mul_div_assoc, ← zpow_sub₀ (by norm_num : (2 : ℚ) ≠ 0), two_zpow_int _ (by omega)]
  push_cast
  rfl

theorem repr_small (m k e : Int) (hm : m ≤ 2 ^ 53) (h : k < e) :
    (m : ℚ) * (2 : ℚ) ^ k ≤ (2 : ℚ) ^ (52 + e) := by
  have hk := two_zpow_pos k
  have hmq : (m : ℚ) ≤ (2 : ℚ) ^ (53 : Int) := by
    have : (m : ℚ) ≤ (((2 : Int) ^ 53 : Int) : ℚ) := by exact_mod_cast hm
    exact le_of_le_of_eq this (by norm_num)
  calc (m : ℚ) * (2 : ℚ) ^ k ≤ (2 : ℚ) ^ (53 : Int) * (2 : ℚ) ^ k :=
        mul_le_mul_of_nonneg_right hmq hk.le
    _ = (2 : ℚ) ^ (53 + k) := by rw [← zpow_add₀ (by norm_num : (2 : ℚ) ≠ 0)]
    _ ≤ (2 : ℚ) ^ (52 + e) := two_zpow_mono _ _ (by omega)

theorem round_pos_eq_mul (x : ℚ) :
    round_pos x = (rne (x / (2 : ℚ) ^ ulp_exp x) : ℚ) * (2 : ℚ) ^ ulp_exp x := rfl

theorem le_round_pos (x : ℚ) (m k : Int) (hx : 0 < x) (hm : m ≤ 2 ^ 53)
    (h : (m : ℚ) * (2 : ℚ) ^ k ≤ x) : (m : ℚ) * (2 : ℚ) ^ k ≤ round_pos x := by
  have hp := two_zpow_pos (ulp_exp x)
  by_cases hk : ulp_exp x ≤ k
  · have hs : ((m * 2 ^ (k - ulp_exp x).toNat : Int) : ℚ) ≤ x / (2 : ℚ) ^ ulp_exp x := by
      rw [← repr_scaled m k _ hk]
      exact div_le_div_of_nonneg_right h hp.le
    have hr := le_rne_of_le _ _ hs
    have hrq : ((m * 2 ^ (k - ulp_exp x).toNat : Int) : ℚ) ≤
        (rne (x / (2 : ℚ) ^ ulp_exp x) : ℚ) := by exact_mod_cast hr
    rw [← repr_scaled m k _ hk] at hrq
    rw [round_pos_eq_mul]
    have := mul_le_mul_of_nonneg_right hrq hp.le
    rwa [div_mul_cancel₀ _ hp.ne'] at this
  · exact le_trans (repr_small m k _ hm (by omega)) (round_pos_ge x hx)

theorem round_pos_le (x : ℚ) (m k : Int) (hx : 0 < x) (hm : m ≤ 2 ^ 53)
    (h : x ≤ (m : ℚ) * (2 : ℚ) ^ k) : round_pos x ≤ (m : ℚ) * (2 : ℚ) ^ k := by
  have hp := two_zpow_pos (ulp_exp x)
  by_cases hk : ulp_exp x ≤ k
  · have hs : x / (2 : ℚ) ^ ulp_exp x ≤ ((m * 2 ^ (k - ulp_exp x).toNat : Int) : ℚ) := by
      rw [← repr_scaled m k _ hk]
      exact div_le_div_of_nonneg_right h hp.le
    have hr := rne_le_of_le _ _ hs
    have hrq : (rne (x / (2 : ℚ) ^ ulp_exp x) : ℚ) ≤
        ((m * 2 ^ (k - ulp_exp x).toNat : Int) : ℚ) := by exact_mod_cast hr
    rw [← repr_scaled m k _ hk] at hrq
    rw [round_pos_eq_mul]
    have := mul_le_mul_of_nonneg_right hrq hp.le
    rwa [div_mul_cancel₀ _ hp.ne'] at this
  · have hsmall := repr_small m k _ hm (show k < ulp_exp x by omega)
    have hlow : (2 : ℚ) ^ (52 + ulp_exp x) ≤ x := by
      have := (log2_bounds x hx).1
      unfold ulp_exp
      have e : (52 : Int) + (ilog2 x - 52) = ilog2 x := by ring
      rw [e]
      exact this
    have hxe : x = (2 : ℚ) ^ (52 + ulp_exp x) := le_antisymm (le_trans h hsmall) hlow
    have hce : (m : ℚ) * (2 : ℚ) ^ k = x := le_antisymm (le_trans hsmall hlow) h
    have hsc : x / (2 : ℚ) ^ ulp_exp x = (((2 : Int) ^ 52 : Int) : ℚ) := by
      rw [div_eq_iff hp.ne']
      nth_rewrite 1 [hxe]
      rw [zpow_add₀ (by norm_num : (2 : ℚ) ≠ 0)]
      norm_num
    rw [round_pos_eq_mul, hsc, rne_intCast, hce]
    rw [← hsc, div_mul_cancel₀ _ hp.ne']

theorem round_pos_mono (x y : ℚ) (hx : 0 < x) (h : x ≤ y) : round_pos x ≤ round_pos y := by
  have hy : 0 < y := lt_of_lt_of_le hx h
  have hl := log2_mono x y hx h
  have hpx := two_zpow_pos (ulp_exp x)
  by_cases he : ulp_exp x = ulp_exp y
  · rw [round_pos_eq_mul, round_pos_eq_mul, ← he]
    have hs : x / (2 : ℚ) ^ ulp_exp x ≤ y / (2 : ℚ) ^ ulp_exp x :=
      div_le_div_of_nonneg_right h hpx.le
    have := rne_mono _ _ hs
    have hq : (rne (x / (2 : ℚ) ^ ulp_exp x) : ℚ) ≤ (rne (y / (2 : ℚ) ^ ulp_exp x) : ℚ) := by
      exact_mod_cast this
    exact mul_le_mul_of_nonneg_right hq hpx.le
  · have hlt : ulp_exp x < ulp_exp y := by
      unfold ulp_exp at he ⊢
      omega
    have hxu : x ≤ ((1 : Int) : ℚ) * (2 : ℚ) ^ (53 + ulp_exp x) := by
      have := (log2_bounds x hx).2
      unfold ulp_exp
      have e : (53 : Int) + (ilog2 x - 52) = ilog2 x + 1 := by ring
      rw [e]
      push_cast
      linarith
    have h1 := round_pos_le x 1 (53 + ulp_exp x) hx (by norm_num) hxu
    have h2 := round_pos_ge y hy
    have h3 := two_zpow_mono (53 + ulp_exp x) (52 + ulp_exp y) (by omega)
    push_cast at h1
    linarith


theorem round64_zero : round64 0 = 0 := by
  unfold round64
  rw [if_pos rfl]

theorem round64_of_pos (x : ℚ) (hx : 0 < x) : round64 x = round_pos x := by
  unfold round64
  rw [if_neg hx.ne', if_pos hx]

theorem round64_of_neg (x : ℚ) (hx : x < 0) : round64 x = - round_pos (-x) := by
  unfold round64
  rw [if_neg hx.ne, if_neg (not_lt.2 hx.le)]

theorem round64_neg (x : ℚ) : round64 (-x) = - round64 x := by
  rcases lt_trichotomy x 0 with h | h | h
  · rw [round64_of_neg x h, round64_of_pos (-x) (by linarith), neg_neg]
  · rw [h, neg_zero, round64_zero, neg_zero]
  · rw [round64_of_pos x h, round64_of_neg (-x) (by linarith), neg_neg]

theorem round64_pos (x : ℚ) (hx : 0 < x) : 0 < round64 x := by
  rw [round64_of_pos x hx]
  exact round_pos_pos x hx

theorem round64_nonneg (x : ℚ) (hx : 0 ≤ x) : 0 ≤ round64 x := by
  rcases eq_or_lt_of_le hx with h | h
  · rw [← h, round64_zero]
  · exact (round64_pos x h).le

theorem round64_nonpos (x : ℚ) (hx : x ≤ 0) : round64 x ≤ 0 := by
  have := round64_nonneg (-x) (by linarith)
  rw [round64_neg] at this
  linarith

theorem round64_mono (x y : ℚ) (h : x ≤ y) : round64 x ≤ round64 y := by
  rcases lt_trichotomy x 0 with hx | hx | hx
  · rcases lt_or_le y 0 with hy | hy
    · rw [round64_of_neg x hx, round64_of_neg y hy]
      have := round_pos_mono (-y) (-x) (by linarith) (by linarith)
      linarith
    · exact le_trans (round64_nonpos x hx.le) (round64_nonneg y hy)
  · rw [hx, round64_zero]
    exact round64_nonneg y (by linarith)
  · rw [round64_of_pos x hx, round64_of_pos y (by linarith)]
    exact round_pos_mono x y hx h

theorem round64_abs_sub_le (x : ℚ) : |round64 x - x| ≤ |x| / 2 ^ 53 := by
  rcases lt_trichotomy x 0 with hx | hx | hx
  · rw [round64_of_neg x hx, abs_of_neg hx]
    have := round_pos_abs_sub_le (-x) (by linarith)
    rw [abs_le] at this ⊢
    constructor <;> linarith [this.1, this.2]
  · rw [hx, round64_zero]
    simp
  · rw [round64_of_pos x hx, abs_of_pos hx]
    exact round_pos_abs_sub_le x hx

theorem representable_neg (c : ℚ) (h : representable c) : representable (-c) := by
  obtain ⟨m, k, hm, hc⟩ := h
  refine ⟨-m, k, by rwa [abs_neg], ?_⟩
  rw [hc]
  push_cast
  ring

theorem round64_le_of_le_pos (x c : ℚ) (hc : representable c) (hc0 : 0 < c) (h : x ≤ c) :
    round64 x ≤ c := by
  obtain ⟨m, k, hm, rfl⟩ := hc
  rcases lt_or_le 0 x with hx | hx
  · rw [round64_of_pos x hx]
    exact round_pos_le x m k hx (le_trans (le_abs_self m) hm) h
  · exact le_trans (round64_nonpos x hx) hc0.le

theorem le_round64_of_le_pos (x c : ℚ) (hc : representable c) (hc0 : 0 < c) (h : c ≤ x) :
    c ≤ round64 x := by
  obtain ⟨m, k, hm, rfl⟩ := hc
  have hx : 0 < x := lt_of_lt_of_le hc0 h
  rw [round64_of_pos x hx]
  exact le_round_pos x m k hx (le_trans (le_abs_self m) hm) h

theorem round64_le_of_le (x c : ℚ) (hc : representable c) (h : x ≤ c) : round64 x ≤ c := by
  rcases lt_trichotomy c 0 with h0 | h0 | h0
  · have := le_round64_of_le_pos (-x) (-c) (representable_neg c hc) (by linarith) (by linarith)
    rw [round64_neg] at this
    linarith
  · rw [h0] at h ⊢
    exact round64_nonpos x h
  · exact round64_le_of_le_pos x c hc h0 h

theorem le_round64_of_le (x c : ℚ) (hc : representable c) (h : c ≤ x) : c ≤ round64 x := by
  have := round64_le_of_le (-x) (-c) (representable_neg c hc) (by linarith)
  rw [round64_neg] at this
  linarith

theorem round64_representable (c : ℚ) (hc : representable c) : round64 c = c :=
  le_antisymm (round64_le_of_le c c hc (le_refl c)) (le_round64_of_le c c hc (le_refl c))

theorem representable_intCast (n : Int) (h : |n| ≤ 2 ^ 53) : representable (n : ℚ) :=
  ⟨n, 0, h, by simp⟩

theorem representable_natCast (n : Nat) (h : n ≤ 2 ^ 53) : representable (n : ℚ) :=
  ⟨n, 0, by rw [abs_of_nonneg (by positivity)]; exact_mod_cast h, by simp⟩

theorem round64_natCast (n : Nat) (h : n ≤ 2 ^ 53) : round64 (n : ℚ) = n :=
  round64_representable _ (representable_natCast n h)

/-- Evaluation of a rounding: a positive `x` in the binade with last-place
exponent `e` rounds to `m * 2^e` when `m` is the integer `rne` gives for the
scaled value. -/
theorem round64_eval (x : ℚ) (e m : Int) (h1 : (2 : ℚ) ^ (52 + e) ≤ x)
    (h2 : x < (2 : ℚ) ^ (53 + e)) (hm : rne (x / (2 : ℚ) ^ e) = m) :
    round64 x = (m : ℚ) * (2 : ℚ) ^ e := by
  have hx : 0 < x := lt_of_lt_of_le (two_zpow_pos _) h1
  have hl : ilog2 x = 52 + e := log2_eq x (52 + e) h1 (by
    have : 52 + e + 1 = 53 + e := by ring
    rw [this]
    exact h2)
  have he : ulp_exp x = e := by
    unfold ulp_exp
    omega
  rw [round64_of_pos x hx, round_pos_eq_mul, he, hm]

theorem rne_tie (f : Int) : rne ((f : ℚ) + 1 / 2) = if f % 2 = 0 then f else f + 1 := by
  have hf : ⌊(f : ℚ) + 1 / 2⌋ = f := by
    rw [Int.floor_eq_iff]
    constructor <;> linarith
  unfold rne
  dsimp only
  rw [hf]
  have e : (f : ℚ) + 1 / 2 - (f : ℚ) = 1 / 2 := by ring
  rw [e]
  simp


theorem error_handler_calls_append (xs ys : List Effect) :
    error_handler_calls (xs ++ ys) = error_handler_calls xs ++ error_handler_calls ys := by
  induction xs with
  | nil => rfl
  | cons x xs ih => cases x <;> simp [error_handler_calls, ih]

theorem threads_created_append (xs ys : List Effect) :
    threads_created (xs ++ ys) = threads_created xs ++ threads_created ys := by
  induction xs with
  | nil => rfl
  | cons x xs ih => cases x <;> simp [threads_created, ih]

theorem stop_capture_dev_inst (s : SigSession) : (stop_capture s).1._dev_inst = s._dev_inst := by
  unfold stop_capture
  split
  · rfl
  · split <;> rfl

theorem stop_capture_instant (s : SigSession) : (stop_capture s).1._instant = s._instant := by
  unfold stop_capture
  split
  · rfl
  · split <;> rfl

theorem stop_capture_error_handler_calls (s : SigSession) :
    error_handler_calls (stop_capture s).2 = [] := by
  unfold stop_capture
  split
  · rfl
  · split <;> rfl

theorem stop_capture_threads_created (s : SigSession) :
    threads_created (stop_capture s).2 = [] := by
  unfold stop_capture
  split
  · rfl
  · split <;> rfl

theorem probe_scan_eq_nil (cs : List sr_channel) :
    probe_scan cs = [] ↔ ∀ c ∈ cs, c.enabled = false := by
  induction cs with
  | nil => simp [probe_scan]
  | cons c cs ih =>
    unfold probe_scan
    by_cases h : c.enabled = true
    · simp [h]
    · simp [h, ih]

theorem start_capture_no_device (s : SigSession) (instant : Bool) (tid : Nat)
    (hd : s._dev_inst = none) :
    start_capture s instant tid =
      some ((stop_capture s).1, (stop_capture s).2 ++ [Effect.qDebug "No device selected"]) := by
  simp [start_capture, stop_capture_dev_inst, hd]

theorem start_capture_no_probe (s : SigSession) (instant : Bool) (tid : Nat)
    (dev : DevInst) (sdi : sr_dev_inst)
    (hd : s._dev_inst = some dev) (hs : dev.dev_inst = some sdi)
    (hp : probe_scan sdi.channels = []) :
    start_capture s instant tid =
      some ((stop_capture s).1,
            (stop_capture s).2 ++ [Effect.error_handler "No probes enabled."]) := by
  simp [start_capture, stop_capture_dev_inst, hd, hs, hp, tr]

theorem start_capture_creates (s : SigSession) (instant : Bool) (tid : Nat)
    (dev : DevInst) (sdi : sr_dev_inst)
    (hd : s._dev_inst = some dev) (hs : dev.dev_inst = some sdi)
    (hp : probe_scan sdi.channels ≠ []) :
    start_capture s instant tid =
      some ({ (stop_capture s).1 with _instant := instant, _sampling_thread := some tid },
            (stop_capture s).2 ++ [Effect.thread_create tid dev]) := by
  cases hc : probe_scan sdi.channels with
  | nil => exact absurd hc hp
  | cons c cs => simp [start_capture, stop_capture_dev_inst, hd, hs, hc]

/-- C1: `start_capture` calls `error_handler` exactly when a device is selected
and none of its channels is enabled; it is then called once, with the message
"No probes enabled.", no thread is created and `_instant` keeps its value.
With no device selected `error_handler` is not called. -/
theorem start_capture_error_handler (s : SigSession) (instant : Bool) (tid : Nat)
    (hdev : ∀ dev, s._dev_inst = some dev → dev.dev_inst ≠ none) :
    ∃ s' es, start_capture s instant tid = some (s', es) ∧
      (error_handler_calls es ≠ [] ↔
        ∃ dev sdi, s._dev_inst = some dev ∧ dev.dev_inst = some sdi ∧
          ∀ c ∈ sdi.channels, c.enabled = false) ∧
      (error_handler_calls es ≠ [] →
        error_handler_calls es = ["No probes enabled."] ∧ threads_created es = [] ∧
          s'._instant = s._instant) ∧
      (s._dev_inst = none → error_handler_calls es = []) := by
  cases hd : s._dev_inst with
  | none =>
    refine ⟨_, _, start_capture_no_device s instant tid hd, ?_, ?_, ?_⟩
    · simp [error_handler_calls_append, stop_capture_error_handler_calls, error_handler_calls]
    · simp [error_handler_calls_append, stop_capture_error_handler_calls, error_handler_calls]
    · intro _
      simp [error_handler_calls_append, stop_capture_error_handler_calls, error_handler_calls]
  | some dev =>
    cases hs : dev.dev_inst with
    | none => exact absurd hs (hdev dev hd)
    | some sdi =>
      by_cases hp : probe_scan sdi.channels = []
      · have hall := (probe_scan_eq_nil sdi.channels).1 hp
        refine ⟨_, _, start_capture_no_probe s instant tid dev sdi hd hs hp, ?_, ?_, ?_⟩
        · simp only [error_handler_calls_append, stop_capture_error_handler_calls,
            error_handler_calls]
          constructor
          · intro _
            exact ⟨dev, sdi, rfl, hs, hall⟩
          · intro _
            simp
        · intro _
          simp [error_handler_calls_append, stop_capture_error_handler_calls,
            error_handler_calls, threads_created_append, stop_capture_threads_created,
            threads_created, stop_capture_instant]
        · intro h
          cases h
      · have hne : ¬ ∀ c ∈ sdi.channels, c.enabled = false :=
          fun hall => hp ((probe_scan_eq_nil sdi.channels).2 hall)
        refine ⟨_, _, start_capture_creates s instant tid dev sdi hd hs hp, ?_, ?_, ?_⟩
        · simp only [error_handler_calls_append, stop_capture_error_handler_calls,
            error_handler_calls]
          constructor
          · intro h
            simp at h
          · rintro ⟨dev2, sdi2, h1, h2, h3⟩
            cases h1
            rw [hs] at h2
            cases h2
            exact absurd h3 hne
        · intro h
          simp [error_handler_calls_append, stop_capture_error_handler_calls,
            error_handler_calls] at h
        · intro h
          cases h

/-- Witness of C1: a session whose selected device has two disabled channels. -/
theorem start_capture_error_handler_witness :
    (∀ dev, (sample.session_with sample.dev_off)._dev_inst = some dev → dev.dev_inst ≠ none) ∧
    ∃ s' es, start_capture (sample.session_with sample.dev_off) true 0 = some (s', es) ∧
      (error_handler_calls es ≠ [] ↔
        ∃ dev sdi, (sample.session_with sample.dev_off)._dev_inst = some dev ∧
          dev.dev_inst = some sdi ∧ ∀ c ∈ sdi.channels, c.enabled = false) ∧
      (error_handler_calls es ≠ [] →
        error_handler_calls es = ["No probes enabled."] ∧ threads_created es = [] ∧
          s'._instant = (sample.session_with sample.dev_off)._instant) ∧
      ((sample.session_with sample.dev_off)._dev_inst = none → error_handler_calls es = []) :=
  have h : ∀ dev, (sample.session_with sample.dev_off)._dev_inst = some dev →
      dev.dev_inst ≠ none := by
    intro dev hd
    cases hd
    simp [sample.dev_off, sample.device]
  ⟨h, start_capture_error_handler (sample.session_with sample.dev_off) true 0 h⟩

theorem probe_scan_ne_nil (cs : List sr_channel) :
    probe_scan cs ≠ [] ↔ ∃ c ∈ cs, c.enabled = true := by
  rw [Ne, probe_scan_eq_nil]
  constructor
  · intro h
    by_contra hc
    apply h
    intro c hmem
    cases he : c.enabled with
    | false => rfl
    | true => exact absurd ⟨c, hmem, he⟩ hc
  · rintro ⟨c, hmem, he⟩ hall
    rw [hall c hmem] at he
    cases he

/-- C2: `start_capture` stores `instant` in `_instant` and creates the sampling
thread (kept in `_sampling_thread`) exactly when a device is selected and one
of its channels has `enabled` set; otherwise no thread is created and
`_instant` and `_sampling_thread` are as `stop_capture` left them. -/
theorem start_capture_begins_session (s : SigSession) (instant : Bool) (tid : Nat)
    (hdev : ∀ dev, s._dev_inst = some dev → dev.dev_inst ≠ none) :
    ∃ s' es, start_capture s instant tid = some (s', es) ∧
      (threads_created es ≠ [] ↔
        ∃ dev sdi, s._dev_inst = some dev ∧ dev.dev_inst = some sdi ∧
          ∃ c ∈ sdi.channels, c.enabled = true) ∧
      (threads_created es ≠ [] →
        threads_created es = [tid] ∧ s'._instant = instant ∧
          s'._sampling_thread = some tid ∧
          ∃ dev, s._dev_inst = some dev ∧ Effect.thread_create tid dev ∈ es) ∧
      (threads_created es = [] →
        s'._instant = (stop_capture s).1._instant ∧
          s'._sampling_thread = (stop_capture s).1._sampling_thread) := by
  cases hd : s._dev_inst with
  | none =>
    refine ⟨_, _, start_capture_no_device s instant tid hd, ?_, ?_, ?_⟩
    · simp [threads_created_append, stop_capture_threads_created, threads_created]
    · simp [threads_created_append, stop_capture_threads_created, threads_created]
    · intro _
      exact ⟨rfl, rfl⟩
  | some dev =>
    cases hs : dev.dev_inst with
    | none => exact absurd hs (hdev dev hd)
    | some sdi =>
      by_cases hp : probe_scan sdi.channels = []
      · have hne : ¬ ∃ c ∈ sdi.channels, c.enabled = true :=
          fun hex => (probe_scan_ne_nil sdi.channels).2 hex hp
        refine ⟨_, _, start_capture_no_probe s instant tid dev sdi hd hs hp, ?_, ?_, ?_⟩
        · simp only [threads_created_append, stop_capture_threads_created, threads_created]
          constructor
          · intro h
            simp at h
          · rintro ⟨dev2, sdi2, h1, h2, h3⟩
            cases h1
            rw [hs] at h2
            cases h2
            exact absurd h3 hne
        · intro h
          simp [threads_created_append, stop_capture_threads_created, threads_created] at h
        · intro _
          exact ⟨rfl, rfl⟩
      · have hex := (probe_scan_ne_nil sdi.channels).1 hp
        refine ⟨_, _, start_capture_creates s instant tid dev sdi hd hs hp, ?_, ?_, ?_⟩
        · simp only [threads_created_append, stop_capture_threads_created, threads_created]
          constructor
          · intro _
            exact ⟨dev, sdi, rfl, hs, hex⟩
          · intro _
            simp
        · intro _
          refine ⟨?_, rfl, rfl, dev, rfl, ?_⟩
          · simp [threads_created_append, stop_capture_threads_created, threads_created]
          · simp
        · intro h
          simp [threads_created_append, stop_capture_threads_created, threads_created] at h

/-- Witness of C2: a session whose selected device has an enabled channel. -/
theorem start_capture_begins_session_witness :
    (∀ dev, (sample.session_with sample.dev_on)._dev_inst = some dev → dev.dev_inst ≠ none) ∧
    ∃ s' es, start_capture (sample.session_with sample.dev_on) true 7 = some (s', es) ∧
      (threads_created es ≠ [] ↔
        ∃ dev sdi, (sample.session_with sample.dev_on)._dev_inst = some dev ∧
          dev.dev_inst = some sdi ∧ ∃ c ∈ sdi.channels, c.enabled = true) ∧
      (threads_created es ≠ [] →
        threads_created es = [7] ∧ s'._instant = true ∧
          s'._sampling_thread = some 7 ∧
          ∃ dev, (sample.session_with sample.dev_on)._dev_inst = some dev ∧
            Effect.thread_create 7 dev ∈ es) ∧
      (threads_created es = [] →
        s'._instant = (stop_capture (sample.session_with sample.dev_on)).1._instant ∧
          s'._sampling_thread =
            (stop_capture (sample.session_with sample.dev_on)).1._sampling_thread) :=
  have h : ∀ dev, (sample.session_with sample.dev_on)._dev_inst = some dev →
      dev.dev_inst ≠ none := by
    intro dev hd
    cases hd
    simp [sample.dev_on, sample.device]
  ⟨h, start_capture_begins_session (sample.session_with sample.dev_on) true 7 h⟩

theorem is_dslogic_iff (dev : DevInst) :
    is_dslogic dev = true ↔ ∃ sdi, dev.dev_inst = some sdi ∧ sdi.driver.name = "DSLogic" := by
  unfold is_dslogic
  cases h : dev.dev_inst with
  | none => simp
  | some sdi => simp

theorem default_device_loop_found (pre : List DevInst) (dev : DevInst) (post : List DevInst)
    (default_device : DevInst) (hpre : ∀ d ∈ pre, is_dslogic d = false)
    (hdev : is_dslogic dev = true) :
    default_device_loop (pre ++ dev :: post) default_device = dev := by
  induction pre with
  | nil => simp [default_device_loop, hdev]
  | cons d pre ih =>
    have hd : is_dslogic d = false := hpre d (List.mem_cons_self d pre)
    have hrest : ∀ x ∈ pre, is_dslogic x = false :=
      fun x hx => hpre x (List.mem_cons_of_mem d hx)
    simp [default_device_loop, hd, ih hrest]

theorem default_device_loop_fallback (devices : List DevInst) (default_device : DevInst)
    (hall : ∀ d ∈ devices, is_dslogic d = false) :
    default_device_loop devices default_device = default_device := by
  induction devices with
  | nil => rfl
  | cons d devices ih =>
    have hd : is_dslogic d = false := hall d (List.mem_cons_self d devices)
    have hrest : ∀ x ∈ devices, is_dslogic x = false :=
      fun x hx => hall x (List.mem_cons_of_mem d hx)
    simp [default_device_loop, hd, ih hrest]

theorem is_dslogic_false_of_not (dev : DevInst)
    (h : ¬ ∃ sdi, dev.dev_inst = some sdi ∧ sdi.driver.name = "DSLogic") :
    is_dslogic dev = false := by
  cases hb : is_dslogic dev with
  | false => rfl
  | true => exact absurd ((is_dslogic_iff dev).1 hb) h

/-- C3: for a non-empty device list `set_default_device` calls `set_device`
with the first device in list order whose `dev_inst()` is non-null and whose
driver name is "DSLogic", and with the first device of the list when there is
none; for the empty list it makes no call and leaves the session as it is. -/
theorem set_default_device_choice (s : SigSession) (devices : List DevInst) :
    (devices = [] → set_default_device s devices = (s, [])) ∧
    (∀ pre dev post, devices = pre ++ dev :: post →
      (∀ d ∈ pre, ¬ ∃ sdi, d.dev_inst = some sdi ∧ sdi.driver.name = "DSLogic") →
      (∃ sdi, dev.dev_inst = some sdi ∧ sdi.driver.name = "DSLogic") →
      set_default_device s devices = set_device s (some dev) ∧
        (set_default_device s devices).1._dev_inst = some dev) ∧
    (∀ front rest, devices = front :: rest →
      (∀ d ∈ devices, ¬ ∃ sdi, d.dev_inst = some sdi ∧ sdi.driver.name = "DSLogic") →
      set_default_device s devices = set_device s (some front) ∧
        (set_default_device s devices).1._dev_inst = some front) := by
  refine ⟨?_, ?_, ?_⟩
  · intro h
    subst h
    rfl
  · intro pre dev post hdevs hpre hdev
    have hloop : ∀ dflt, default_device_loop devices dflt = dev := by
      intro dflt
      rw [hdevs]
      exact default_device_loop_found pre dev post dflt
        (fun d hd => is_dslogic_false_of_not d (hpre d hd)) ((is_dslogic_iff dev).2 hdev)
    have heq : set_default_device s devices = set_device s (some dev) := by
      cases hl : devices with
      | nil =>
        rw [hl] at hdevs
        cases pre <;> cases hdevs
      | cons front rest =>
        have := hloop front
        rw [hl] at this
        simp [set_default_device, this]
    exact ⟨heq, by rw [heq]; rfl⟩
  · intro front rest hdevs hall
    have hloop : default_device_loop devices front = front :=
      default_device_loop_fallback devices front
        (fun d hd => is_dslogic_false_of_not d (hall d hd))
    have heq : set_default_device s devices = set_device s (some front) := by
      rw [hdevs] at hloop
      rw [hdevs]
      simp [set_default_device, hloop]
    exact ⟨heq, by rw [heq]; rfl⟩

/-- Witness of C3: of a null device, a demo device and two DSLogic devices the
first DSLogic device is chosen. -/
theorem set_default_device_choice_witness :
    set_default_device SigSession.new
        [sample.dev_null, sample.dev_demo, sample.dev_on, sample.dev_off] =
      set_device SigSession.new (some sample.dev_on) ∧
    (set_default_device SigSession.new
        [sample.dev_null, sample.dev_demo, sample.dev_on, sample.dev_off]).1._dev_inst =
      some sample.dev_on :=
  (set_default_device_choice SigSession.new
      [sample.dev_null, sample.dev_demo, sample.dev_on, sample.dev_off]).2.1
    [sample.dev_null, sample.dev_demo] sample.dev_on [sample.dev_off] rfl
    (by
      intro d hd
      simp at hd
      rcases hd with rfl | rfl
      · simp [sample.dev_null]
      · simp [sample.dev_demo, sample.device])
    ⟨_, rfl, rfl⟩

theorem trig_loop_no_start (sigs : List Signal) : Effect.dev_inst_start ∉ trig_loop sigs := by
  induction sigs with
  | nil => simp [trig_loop]
  | cons sg sigs ih =>
    unfold trig_loop
    split
    · simp [ih]
    · exact ih

theorem trigger_setup_no_start (s : SigSession) : Effect.dev_inst_start ∉ trigger_setup s := by
  unfold trigger_setup
  split
  · simp
  · split
    · simp [trig_loop_no_start]
    · simp

theorem before_start_append (xs ys : List Effect) (h : Effect.dev_inst_start ∉ xs) :
    before_start (xs ++ Effect.dev_inst_start :: ys) = xs := by
  induction xs with
  | nil => simp [before_start]
  | cons x xs ih =>
    have hx : x ≠ Effect.dev_inst_start := fun hc => h (by simp [hc])
    have hxs : Effect.dev_inst_start ∉ xs := fun hc => h (List.mem_cons_of_mem x hc)
    cases x <;> simp_all [before_start]

theorem trig_loop_last_true (sigs : List Signal) (b : Bool)
    (h : last_trigger_en (trig_loop sigs) = some b) : b = true := by
  induction sigs with
  | nil => simp [trig_loop, last_trigger_en] at h
  | cons sg sigs ih =>
    unfold trig_loop at h
    split at h
    · simp only [last_trigger_en] at h
      cases hl : last_trigger_en (trig_loop sigs) with
      | none =>
        rw [hl] at h
        simp at h
        exact h
      | some later =>
        rw [hl] at h
        simp at h
        rw [h] at hl
        exact ih hl
    · exact ih h

theorem trig_loop_last_isSome (sigs : List Signal) :
    (last_trigger_en (trig_loop sigs)).isSome = true ↔ ∃ sg ∈ sigs, sg.trig ≠ 0 := by
  induction sigs with
  | nil => simp [trig_loop, last_trigger_en]
  | cons sg sigs ih =>
    unfold trig_loop
    by_cases hz : sg.trig = 0
    · simp [hz, ih]
    · simp only [ne_eq, hz, not_false_eq_true, ↓reduceIte, last_trigger_en]
      constructor
      · intro _
        exact ⟨sg, List.mem_cons_self sg sigs, hz⟩
      · intro _
        cases last_trigger_en (trig_loop sigs) <;> simp

theorem sample_thread_proc_trace_head (s : SigSession) (dev : DevInst) (sdi : sr_dev_inst)
    (start_error : Option String) (packets : List (sr_datafeed_packet × Bool))
    (hdev : dev.dev_inst = some sdi) :
    ∃ rest, (sample_thread_proc s (some dev) start_error packets).1 =
      trigger_setup s ++ Effect.dev_inst_start :: rest := by
  unfold sample_thread_proc
  simp only [hdev]
  cases start_error with
  | some e => exact ⟨[Effect.error_handler e], by simp⟩
  | none =>
    simp only
    split
    · apply Exists.intro
      simp only [List.append_assoc]
      rfl
    · split
      · apply Exists.intro
        simp only [List.append_assoc]
        rfl
      · apply Exists.intro
        simp only [List.append_assoc]
        rfl

/-- C4: in `sample_thread_proc` the last value passed to `ds_trigger_set_en`
before `dev_inst->start()` is false in instant mode; in simple trigger mode
it is true exactly when some signal has `get_trig() != 0`; in advanced
trigger mode it is true. -/
theorem trigger_enable_before_start (s : SigSession) (dev : DevInst) (sdi : sr_dev_inst)
    (start_error : Option String) (packets : List (sr_datafeed_packet × Bool))
    (hdev : dev.dev_inst = some sdi) :
    Effect.dev_inst_start ∈ (sample_thread_proc s (some dev) start_error packets).1 ∧
    ∃ en, last_trigger_en
        (before_start (sample_thread_proc s (some dev) start_error packets).1) = some en ∧
      (s._instant = true → en = false) ∧
      (s._instant = false → s._adv_trigger = false →
        (en = true ↔ ∃ sg ∈ s._signals, sg.trig ≠ 0)) ∧
      (s._instant = false → s._adv_trigger = true → en = true) := by
  obtain ⟨rest, hrest⟩ := sample_thread_proc_trace_head s dev sdi start_error packets hdev
  rw [hrest, before_start_append _ _ (trigger_setup_no_start s)]
  refine ⟨by simp, ?_⟩
  unfold trigger_setup
  cases hi : s._instant with
  | true => exact ⟨false, by simp [last_trigger_en]⟩
  | false =>
    cases ha : s._adv_trigger with
    | true => exact ⟨true, by simp [last_trigger_en]⟩
    | false =>
      simp only [Bool.false_eq_true, ↓reduceIte, Bool.not_false, last_trigger_en]
      cases hl : last_trigger_en (trig_loop s._signals) with
      | none =>
        refine ⟨false, rfl, by simp, ?_, by simp⟩
        intro _ _
        have := trig_loop_last_isSome s._signals
        rw [hl] at this
        simp only [Option.isSome_none, Bool.false_eq_true, false_iff] at this
        simp only [Bool.false_eq_true, false_iff]
        exact this
      | some later =>
        have hlater : later = true := trig_loop_last_true s._signals later hl
        subst hlater
        refine ⟨true, rfl, by simp, ?_, by simp⟩
        intro _ _
        have := trig_loop_last_isSome s._signals
        rw [hl] at this
        simp only [Option.isSome_some, true_iff] at this
        simp only [true_iff]
        exact this

/-- Witness of C4: simple trigger mode, a trigger set on the second signal. -/
theorem trigger_enable_before_start_witness :
    sample.dev_on.dev_inst =
      some { driver := { name := "DSLogic" }, mode := dev_mode.LOGIC,
             channels := [sample.channel false, sample.channel true] } ∧
    (Effect.dev_inst_start ∈
        (sample_thread_proc sample.session_trig (some sample.dev_on) none
          [(sr_datafeed_packet.SR_DF_END, false)]).1 ∧
      ∃ en, last_trigger_en
          (before_start (sample_thread_proc sample.session_trig (some sample.dev_on) none
            [(sr_datafeed_packet.SR_DF_END, false)]).1) = some en ∧
        (sample.session_trig._instant = true → en = false) ∧
        (sample.session_trig._instant = false → sample.session_trig._adv_trigger = false →
          (en = true ↔ ∃ sg ∈ sample.session_trig._signals, sg.trig ≠ 0)) ∧
        (sample.session_trig._instant = false → sample.session_trig._adv_trigger = true →
          en = true)) :=
  ⟨rfl, trigger_enable_before_start sample.session_trig sample.dev_on _ none
    [(sr_datafeed_packet.SR_DF_END, false)] rfl⟩

theorem stop_capture_fields (s : SigSession) :
    ∃ t, (stop_capture s).1 = { s with _sampling_thread := t } := by
  unfold stop_capture
  split
  · exact ⟨s._sampling_thread, rfl⟩
  · split <;> exact ⟨none, rfl⟩

theorem stop_capture_group_traces (s : SigSession) :
    (stop_capture s).1._group_traces = s._group_traces := by
  obtain ⟨t, ht⟩ := stop_capture_fields s
  rw [ht]

theorem stop_capture_group_data (s : SigSession) :
    (stop_capture s).1._group_data = s._group_data := by
  obtain ⟨t, ht⟩ := stop_capture_fields s
  rw [ht]

theorem stop_capture_logic_data (s : SigSession) :
    (stop_capture s).1._logic_data = s._logic_data := by
  obtain ⟨t, ht⟩ := stop_capture_fields s
  rw [ht]

theorem feed_defined_of_fields (s s' : SigSession) (h : feed_defined s)
    (hg : s'._group_traces = s._group_traces) (hgd : s'._group_data = s._group_data)
    (hl : s'._logic_data = s._logic_data ∨
      ∃ d snap, s._logic_data = some d ∧ s'._logic_data = some (d.push_snapshot snap)) :
    feed_defined s' := by
  rcases h with h | ⟨ld, gd, h1, h2, h3⟩
  · exact Or.inl (hg.trans h)
  · right
    rcases hl with hl | ⟨d, snap, hd, hl⟩
    · exact ⟨ld, gd, hl.trans h1, h2, hgd.trans h3⟩
    · exact ⟨d.push_snapshot snap, gd, hl, by simp [Logic.push_snapshot], hgd.trans h3⟩

theorem feed_in_logic_defined (s : SigSession) (logic : sr_datafeed_logic) (b : Bool)
    (h : feed_defined s) : feed_defined (feed_in_logic s logic b).1 := by
  unfold feed_in_logic
  cases hd : s._logic_data with
  | none => simpa using h
  | some d =>
    cases hc : s._cur_logic_snapshot with
    | some c => simpa using h
    | none =>
      cases b with
      | true =>
        simp only [↓reduceIte]
        refine feed_defined_of_fields s _ h ?_ ?_ (Or.inl ?_)
        · rw [stop_capture_group_traces]
        · rw [stop_capture_group_data]
        · rw [stop_capture_logic_data]
          exact hd.symm
      | false =>
        simp only [Bool.false_eq_true, ↓reduceIte]
        exact feed_defined_of_fields s _ h rfl rfl (Or.inr ⟨d, _, hd, rfl⟩)

theorem feed_in_dso_defined (s : SigSession) (dso : sr_datafeed_dso) (b : Bool)
    (h : feed_defined s) : feed_defined (feed_in_dso s dso b).1 := by
  unfold feed_in_dso
  cases hd : s._dso_data with
  | none => simpa using h
  | some d =>
    cases hc : s._cur_dso_snapshot with
    | some c => simpa using h
    | none =>
      cases b with
      | true =>
        simp only [↓reduceIte]
        refine feed_defined_of_fields s _ h ?_ ?_ (Or.inl ?_)
        · rw [stop_capture_group_traces]
        · rw [stop_capture_group_data]
        · rw [stop_capture_logic_data]
      | false =>
        simp only [Bool.false_eq_true, ↓reduceIte]
        exact feed_defined_of_fields s _ h rfl rfl (Or.inl rfl)

theorem feed_in_analog_defined (s : SigSession) (analog : sr_datafeed_analog) (b : Bool)
    (h : feed_defined s) : feed_defined (feed_in_analog s analog b).1 := by
  unfold feed_in_analog
  cases hd : s._analog_data with
  | none => simpa using h
  | some d =>
    cases hc : s._cur_analog_snapshot with
    | some c => simpa using h
    | none =>
      cases b with
      | true =>
        simp only [↓reduceIte]
        refine feed_defined_of_fields s _ h ?_ ?_ (Or.inl ?_)
        · rw [stop_capture_group_traces]
        · rw [stop_capture_group_data]
        · rw [stop_capture_logic_data]
      | false =>
        simp only [Bool.false_eq_true, ↓reduceIte]
        exact feed_defined_of_fields s _ h rfl rfl (Or.inl rfl)

theorem end_group_loop_defined (gs : List GroupSignal) (s : SigSession)
    (h : ∃ ld gd, s._logic_data = some ld ∧ ld.snapshots ≠ [] ∧ s._group_data = some gd) :
    ∃ s', end_group_loop s gs = some s' ∧ s'._group_traces = s._group_traces ∧
      s'._logic_data = s._logic_data ∧ ∃ gd, s'._group_data = some gd := by
  induction gs generalizing s with
  | nil =>
    obtain ⟨ld, gd, _, _, h3⟩ := h
    exact ⟨s, rfl, rfl, rfl, gd, h3⟩
  | cons g gs ih =>
    obtain ⟨ld, gd, h1, h2, h3⟩ := h
    cases hs : ld.snapshots with
    | nil => exact absurd hs h2
    | cons front rest =>
      unfold end_group_loop
      simp only [h1, h3, hs]
      obtain ⟨s', e1, e2, e3, e4⟩ := ih
        { s with _cur_group_snapshot := some { source := front, index_list := g.index_list },
                 _group_data := some (gd.push_snapshot
                   { source := front, index_list := g.index_list }) }
        ⟨ld, _, h1, h2, rfl⟩
      refine ⟨s', ?_, e2, ?_, e4⟩
      · simpa [h1] using e1
      · simpa [h1] using e3

theorem data_feed_in_defined (s : SigSession) (packet : sr_datafeed_packet) (b : Bool)
    (h : feed_defined s) :
    ∃ s' es, data_feed_in s packet b = some (s', es) ∧ feed_defined s' := by
  cases packet with
  | SR_DF_HEADER => exact ⟨s, _, rfl, h⟩
  | SR_DF_META => exact ⟨s, _, rfl, h⟩
  | SR_DF_TRIGGER real_pos => exact ⟨s, _, rfl, h⟩
  | SR_DF_LOGIC logic => exact ⟨_, _, rfl, feed_in_logic_defined s logic b h⟩
  | SR_DF_DSO dso => exact ⟨_, _, rfl, feed_in_dso_defined s dso b h⟩
  | SR_DF_ANALOG analog => exact ⟨_, _, rfl, feed_in_analog_defined s analog b h⟩
  | SR_DF_OTHER => exact ⟨s, _, rfl, h⟩
  | SR_DF_END =>
    unfold data_feed_in
    rcases h with h | ⟨ld, gd, h1, h2, h3⟩
    · rw [h]
      exact ⟨_, _, rfl, Or.inl h⟩
    · obtain ⟨s1, e1, e2, e3, gd1, e4⟩ := end_group_loop_defined s._group_traces s
        ⟨ld, gd, h1, h2, h3⟩
      rw [e1]
      exact ⟨_, _, rfl, Or.inr ⟨ld, gd1, e3.trans h1, h2, e4⟩⟩

theorem feed_all_defined (packets : List (sr_datafeed_packet × Bool)) (s : SigSession)
    (h : feed_defined s) :
    ∃ es s', feed_all s packets = (es, some s') ∧ feed_defined s' := by
  induction packets generalizing s with
  | nil => exact ⟨[], s, rfl, h⟩
  | cons pb rest ih =>
    obtain ⟨s1, es1, e1, h1⟩ := data_feed_in_defined s pb.1 pb.2 h
    obtain ⟨es2, s2, e2, h2⟩ := ih s1 h1
    refine ⟨es1 ++ es2, s2, ?_, h2⟩
    unfold feed_all
    simp [e1, e2]

theorem data_feed_in_end (s s' : SigSession) (b : Bool) (es : List Effect)
    (h : data_feed_in s sr_datafeed_packet.SR_DF_END b = some (s', es)) :
    s'._cur_logic_snapshot = none ∧ s'._cur_dso_snapshot = none ∧
      s'._cur_analog_snapshot = none := by
  unfold data_feed_in at h
  cases hl : end_group_loop s s._group_traces with
  | none => simp [hl] at h
  | some s1 =>
    simp only [hl, Option.some.injEq, Prod.mk.injEq] at h
    rw [← h.1]
    exact ⟨rfl, rfl, rfl⟩

theorem feed_all_last (packets : List (sr_datafeed_packet × Bool)) (s : SigSession)
    (pb : sr_datafeed_packet × Bool) (es : List Effect) (s' : SigSession)
    (h : feed_all s (packets ++ [pb]) = (es, some s')) :
    ∃ s1 es1, data_feed_in s1 pb.1 pb.2 = some (s', es1) := by
  induction packets generalizing s es with
  | nil =>
    simp only [List.nil_append, feed_all] at h
    cases hd : data_feed_in s pb.1 pb.2 with
    | none => simp [hd] at h
    | some r =>
      simp only [hd, Prod.mk.injEq, Option.some.injEq] at h
      exact ⟨s, r.2, by rw [hd, ← h.2]⟩
  | cons q rest ih =>
    simp only [List.cons_append, feed_all] at h
    cases hd : data_feed_in s q.1 q.2 with
    | none => simp [hd] at h
    | some r =>
      simp only [hd, Prod.mk.injEq] at h
      exact ih r.1 _ (Prod.ext rfl h.2)

/-- C5: whatever packets came before, after `data_feed_in` has processed an
`SR_DF_END` packet the three current snapshots are null; and a run of
`sample_thread_proc` whose last packet is `SR_DF_END` passes the three
assertions at its end.  The packets are processed to the end in every session
where the `SR_DF_END` case finds the data its group loop reads. -/
theorem end_packet_clears_current (s : SigSession)
    (packets : List (sr_datafeed_packet × Bool)) (b : Bool) :
    (∀ es s', feed_all s (packets ++ [(sr_datafeed_packet.SR_DF_END, b)]) = (es, some s') →
      s'._cur_logic_snapshot = none ∧ s'._cur_dso_snapshot = none ∧
        s'._cur_analog_snapshot = none) ∧
    (feed_defined s →
      (∃ es s', feed_all s (packets ++ [(sr_datafeed_packet.SR_DF_END, b)]) = (es, some s')) ∧
      ∀ dev sdi, dev.dev_inst = some sdi →
        ∃ es s', sample_thread_proc s (some dev) none
            (packets ++ [(sr_datafeed_packet.SR_DF_END, b)]) = (es, some s') ∧
          s'._capture_state = capture_state.Stopped ∧
          s'._cur_logic_snapshot = none ∧ s'._cur_dso_snapshot = none ∧
          s'._cur_analog_snapshot = none) := by
  refine ⟨?_, ?_⟩
  · intro es s' h
    obtain ⟨s1, es1, h1⟩ := feed_all_last packets s _ es s' h
    exact data_feed_in_end s1 s' b es1 h1
  · intro hs
    refine ⟨?_, ?_⟩
    · obtain ⟨es, s', h, _⟩ := feed_all_defined
        (packets ++ [(sr_datafeed_packet.SR_DF_END, b)]) s hs
      exact ⟨es, s', h⟩
    · intro dev sdi hdev
      have hrun : feed_defined (set_capture_state s capture_state.Running).1 := hs
      obtain ⟨es, s2, h2, _⟩ := feed_all_defined
        (packets ++ [(sr_datafeed_packet.SR_DF_END, b)]) _ hrun
      obtain ⟨s1, es1, h1⟩ := feed_all_last packets _ _ es s2 h2
      obtain ⟨c1, c2, c3⟩ := data_feed_in_end s1 s2 b es1 h1
      unfold sample_thread_proc
      simp only [hdev, h2]
      have ha : end_asserts (set_capture_state s2 capture_state.Stopped).1 = true := by
        simp [end_asserts, set_capture_state, c1, c2, c3]
      rw [if_pos ha]
      exact ⟨_, _, rfl, rfl, c1, c2, c3⟩

/-- Witness of C5: a logic capture of two data packets on a session without
groups. -/
theorem end_packet_clears_current_witness :
    feed_defined sample.session_logic ∧
    (∃ es s', feed_all sample.session_logic
        (sample.packets_logic ++ [(sr_datafeed_packet.SR_DF_END, false)]) = (es, some s')) ∧
    ∀ dev sdi, dev.dev_inst = some sdi →
      ∃ es s', sample_thread_proc sample.session_logic (some dev) none
          (sample.packets_logic ++ [(sr_datafeed_packet.SR_DF_END, false)]) = (es, some s') ∧
        s'._capture_state = capture_state.Stopped ∧
        s'._cur_logic_snapshot = none ∧ s'._cur_dso_snapshot = none ∧
        s'._cur_analog_snapshot = none :=
  ⟨Or.inl rfl,
   (end_packet_clears_current sample.session_logic sample.packets_logic false).2 (Or.inl rfl)⟩

/-- C6: two calls of `start_capture` in a row, the second before the first
thread has reached `set_capture_state(Running)`: the second call finds the
capture state `Init`, joins nothing and creates a second thread, so that two
capture threads exist. -/
theorem start_capture_twice_two_threads :
    ((World.init sample.dev_on).step (Event.call_start_capture false)).threads =
      [(0, thread_phase.Starting)] ∧
    ((World.init sample.dev_on).step (Event.call_start_capture false)).session._capture_state =
      capture_state.Init ∧
    (start_capture ((World.init sample.dev_on).step (Event.call_start_capture false)).session
        false 1).map Prod.snd = some [Effect.thread_create 1 sample.dev_on] ∧
    ((World.init sample.dev_on).run
        [Event.call_start_capture false, Event.call_start_capture false]).threads =
      [(0, thread_phase.Starting), (1, thread_phase.Starting)] := by
  decide

end pv

namespace pv.toolbars

open pv

theorem get_buf_device (s : SigSession) (b : Bool) (h : get_buf s = some b) :
    ∃ dev sdi, s._dev_inst = some dev ∧ dev.dev_inst = some sdi := by
  unfold get_buf at h
  cases hd : s._dev_inst with
  | none => simp [hd] at h
  | some dev =>
    cases hs : dev.dev_inst with
    | none => simp [hd, hs] at h
    | some sdi => exact ⟨dev, sdi, rfl, hs⟩

/-- C7: `on_actionSave_triggered` calls `save_file` only when `get_buf`
returned a non-null buffer and the dialog returned a non-empty name (and then
with that name); for a null buffer it shows the warning "No Data to Save!"
and opens no dialog; for a non-null buffer it opens the CSV dialog exactly
when the device mode is not `LOGIC`, and the .dsl dialog otherwise. -/
theorem save_action (s : SigSession) (file_name : String) (dev : DevInst) (sdi : sr_dev_inst)
    (b : Bool) (hd : s._dev_inst = some dev) (hs : dev.dev_inst = some sdi)
    (hb : get_buf s = some b) :
    ∃ es, on_actionSave_triggered s file_name = some es ∧
      (save_file_calls es ≠ [] ↔ b = true ∧ file_name ≠ "") ∧
      (save_file_calls es ≠ [] → save_file_calls es = [file_name]) ∧
      (b = false →
        es = [Effect.message_box "File Save" "No Data to Save!"] ∧
          warnings_shown es = ["No Data to Save!"] ∧ dialogs_opened es = []) ∧
      (b = true →
        warnings_shown es = [] ∧
          (dialogs_opened es = ["DSLogic Session CSV (*.csv)"] ↔ sdi.mode ≠ dev_mode.LOGIC) ∧
          (dialogs_opened es = ["DSLogic Session (*.dsl)"] ↔ sdi.mode = dev_mode.LOGIC)) := by
  unfold on_actionSave_triggered
  simp only [hb, hd, hs]
  cases b with
  | false =>
    refine ⟨_, rfl, ?_, ?_, ?_, ?_⟩
    · simp [save_file_calls]
    · simp [save_file_calls]
    · intro _
      exact ⟨rfl, rfl, rfl⟩
    · intro h
      cases h
  | true =>
    by_cases hm : sdi.mode = dev_mode.LOGIC
    · by_cases hf : file_name = ""
      · simp [hm, hf, save_file_calls, dialogs_opened, warnings_shown, tr]
      · simp [hm, hf, save_file_calls, dialogs_opened, warnings_shown, tr]
    · by_cases hf : file_name = ""
      · simp [hm, hf, save_file_calls, dialogs_opened, warnings_shown, tr]
      · simp [hm, hf, save_file_calls, dialogs_opened, warnings_shown, tr]

/-- Witness of C7: a DSO session with captured data and the name "wave.csv". -/
theorem save_action_witness :
    get_buf sample.session_dso = some true ∧
    ∃ es, on_actionSave_triggered sample.session_dso "wave.csv" = some es ∧
      (save_file_calls es ≠ [] ↔ true = true ∧ "wave.csv" ≠ "") ∧
      (save_file_calls es ≠ [] → save_file_calls es = ["wave.csv"]) ∧
      (true = false →
        es = [Effect.message_box "File Save" "No Data to Save!"] ∧
          warnings_shown es = ["No Data to Save!"] ∧ dialogs_opened es = []) ∧
      (true = true →
        warnings_shown es = [] ∧
          (dialogs_opened es = ["DSLogic Session CSV (*.csv)"] ↔
            dev_mode.DSO ≠ dev_mode.LOGIC) ∧
          (dialogs_opened es = ["DSLogic Session (*.dsl)"] ↔
            dev_mode.DSO = dev_mode.LOGIC)) :=
  ⟨rfl, save_action sample.session_dso "wave.csv" sample.dev_dso
    { driver := { name := "DSLogic" }, mode := dev_mode.DSO,
      channels := [{ type := channel_type.SR_CHANNEL_DSO, enabled := true }] }
    true rfl rfl rfl⟩

end pv.toolbars

namespace pv.dock

open pv

theorem sub_u64_ge (a b : Nat) (ha : a < 2 ^ 64) (hb : b < 2 ^ 64) (h : b ≤ a) :
    sub_u64 a b = a - b := by
  unfold sub_u64
  norm_num at *
  omega

theorem sub_u64_lt (a b : Nat) (ha : a < 2 ^ 64) (hb : b < 2 ^ 64) (h : a < b) :
    sub_u64 a b = 2 ^ 64 - (b - a) := by
  unfold sub_u64
  norm_num at *
  omega

theorem u64_to_int_small (x : Nat) (h : x < 2 ^ 31) : u64_to_int x = (x : Int) := by
  unfold u64_to_int
  have h1 : x % 2 ^ 32 = x := by
    norm_num at *
    omega
  rw [h1, if_pos h]

theorem u64_to_int_neg (d : Nat) (h0 : 0 < d) (h : d < 2 ^ 31) :
    u64_to_int (2 ^ 64 - d) = -(d : Int) := by
  unfold u64_to_int
  have h1 : (2 ^ 64 - d) % 2 ^ 32 = 2 ^ 32 - d := by
    norm_num at *
    omega
  rw [h1]
  norm_num at *
  split
  · omega
  · omega

theorem c_abs_neg (d : Nat) (h0 : 0 < d) (h : d < 2 ^ 31) :
    c_abs (-(d : Int)) = some (d : Int) := by
  unfold c_abs
  norm_num at *
  constructor
  · omega
  · intro hc
    omega

theorem c_abs_nonneg (d : Nat) : c_abs (d : Int) = some (d : Int) := by
  unfold c_abs
  norm_num
  omega

theorem int_to_u64_small (d : Nat) (h : d < 2 ^ 64) : int_to_u64 (d : Int) = d := by
  unfold int_to_u64
  norm_num at *
  omega

/-- What `delta_update` computes for cursors less than 2^31 samples apart: the
absolute difference of the two positions. -/
theorem delta_samples_near (a b : Nat) (ha : a < 2 ^ 64) (hb : b < 2 ^ 64)
    (hab : a < b + 2 ^ 31) (hba : b < a + 2 ^ 31) :
    delta_samples a b = some (if a ≤ b then b - a else a - b) := by
  unfold delta_samples
  by_cases h : a < b
  · have hd0 : 0 < b - a := by omega
    have hd : b - a < 2 ^ 31 := by omega
    have hd64 : b - a < 2 ^ 64 := by omega
    rw [sub_u64_lt a b ha hb h, u64_to_int_neg (b - a) hd0 hd, c_abs_neg (b - a) hd0 hd,
      if_pos (le_of_lt h)]
    simp [int_to_u64_small (b - a) hd64]
  · have hle : b ≤ a := not_lt.1 h
    have hd : a - b < 2 ^ 31 := by omega
    have hd64 : a - b < 2 ^ 64 := by omega
    rw [sub_u64_ge a b ha hb hle, u64_to_int_small (a - b) hd, c_abs_nonneg (a - b)]
    by_cases he : a ≤ b
    · have : a = b := le_antisymm he hle
      subst this
      simp [int_to_u64]
    · rw [if_neg he]
      simp [int_to_u64_small (a - b) hd64]

/-- Whatever function is applied to the `uint64_t` difference, it cannot return
the absolute difference for every pair of positions: the pairs (1, 0) and
(0, 2^64 - 1) have the same `uint64_t` difference. -/
theorem abs_of_difference_not_total (f : Nat → Nat) :
    ∃ a b, a < 2 ^ 64 ∧ b < 2 ^ 64 ∧ f (sub_u64 a b) ≠ (if a ≤ b then b - a else a - b) := by
  by_cases h : f 1 = 1
  · refine ⟨0, 2 ^ 64 - 1, by norm_num, by norm_num, ?_⟩
    have e : sub_u64 0 (2 ^ 64 - 1) = 1 := by decide
    rw [e, h]
    norm_num
  · refine ⟨1, 0, by norm_num, by norm_num, ?_⟩
    have e : sub_u64 1 0 = 1 := by decide
    rw [e]
    simpa using h

/-- C8: T1 selects a cursor at sample 4294967296, T2 a cursor at sample 0: the
"Delta Samples" label of the row |T2 - T1| is set to "0", not to
4294967296. -/
theorem delta_update_far_cursors :
    sample.view_far.get_cursor_samples 0 = 4294967296 ∧
    sample.view_far.get_cursor_samples 1 = 0 ∧
    (delta_update sample.view_far sample.dock_two).map (fun m => m._cnt_label_t1t2) =
      some "0" ∧
    toString (4294967296 - 0 : Nat) ≠ "0" := by
  decide

end pv.dock

namespace pv

/-! ### `save_file`: the rows written (C11) -/

theorem rows_loop_never_done (d : DsoSnapshotData) (number_channels : Nat)
    (valueVDivs : List Nat) (samplerate : Nat) (fuel : Nat) :
    ∀ i, i < 2 ^ 64 → ∀ rows,
      rows_loop d number_channels valueVDivs samplerate (2 ^ 64 - 1) fuel i ≠ Run.done rows := by
  induction fuel with
  | zero =>
    intro i _ rows h
    simp [rows_loop] at h
  | succ fuel ih =>
    intro i hi rows h
    have hle : i ≤ 2 ^ 64 - 1 := by omega
    unfold rows_loop at h
    rw [if_pos hle] at h
    cases hr : row_channels d number_channels valueVDivs i (List.range number_channels) with
    | none => simp [hr] at h
    | some fs =>
      have hnext : (i + 1) % 2 ^ 64 < 2 ^ 64 := Nat.mod_lt _ (by norm_num)
      cases hl : rows_loop d number_channels valueVDivs samplerate (2 ^ 64 - 1) fuel
          ((i + 1) % 2 ^ 64) with
      | done rest => exact ih _ hnext rest hl
      | undefined =>
        rw [hr] at h
        dsimp only at h
        rw [hl] at h
        cases h
      | out_of_fuel =>
        rw [hr] at h
        dsimp only at h
        rw [hl] at h
        cases h

theorem row_channels_expected (d : DsoSnapshotData) (valueVDivs : List Nat) (i : Nat)
    (chs : List Nat)
    (hin : ∀ ch ∈ chs, i * d.channel_num + ch < d.samples.length ∧
      i * d.channel_num + ch < 2 ^ 64) :
    row_channels d d.channel_num valueVDivs i chs =
      some (chs.flatMap (fun ch =>
        [Field.volt valueVDivs[ch]? (d.samples.getD (i * d.channel_num + ch) 0),
         if ch + 1 < d.channel_num then Field.text "," else Field.endl])) := by
  induction chs with
  | nil => rfl
  | cons ch rest ih =>
    obtain ⟨h1, h2⟩ := hin ch (List.mem_cons_self ch rest)
    have hrest := ih (fun c hc => hin c (List.mem_cons_of_mem ch hc))
    unfold row_channels
    rw [Nat.mod_eq_of_lt h2, List.getElem?_eq_getElem h1, hrest]
    simp [List.getD_eq_getElem?_getD, List.getElem?_eq_getElem h1]

theorem rows_loop_expected (d : DsoSnapshotData) (valueVDivs : List Nat) (samplerate : Nat)
    (hc1 : 1 ≤ d.sample_count) (hc : d.sample_count * d.channel_num < 2 ^ 64)
    (hn : 1 ≤ d.channel_num) (hbuf : d.sample_count * d.channel_num ≤ d.samples.length)
    (k : Nat) :
    ∀ i, i + k = d.sample_count →
      rows_loop d d.channel_num valueVDivs samplerate (d.sample_count - 1) (k + 1) i =
        Run.done ((List.range' i k).flatMap (expected_row d valueVDivs samplerate)) := by
  have hcount : d.sample_count < 2 ^ 64 := by
    calc d.sample_count = d.sample_count * 1 := (Nat.mul_one _).symm
      _ ≤ d.sample_count * d.channel_num := Nat.mul_le_mul_left _ hn
      _ < 2 ^ 64 := hc
  induction k with
  | zero =>
    intro i hi
    have : ¬ i ≤ d.sample_count - 1 := by omega
    simp [rows_loop, this]
  | succ k ih =>
    intro i hi
    have hle : i ≤ d.sample_count - 1 := by omega
    have hrow : ∀ ch ∈ List.range d.channel_num,
        i * d.channel_num + ch < d.samples.length ∧ i * d.channel_num + ch < 2 ^ 64 := by
      intro ch hch
      have hch' : ch < d.channel_num := List.mem_range.1 hch
      have h1 : i * d.channel_num + ch < (i + 1) * d.channel_num := by
        rw [Nat.add_mul, Nat.one_mul]
        omega
      have h2 : (i + 1) * d.channel_num ≤ d.sample_count * d.channel_num :=
        Nat.mul_le_mul_right _ (by omega)
      exact ⟨by omega, by omega⟩
    have hnext : (i + 1) % 2 ^ 64 = i + 1 := Nat.mod_eq_of_lt (by omega)
    have hrec := ih (i + 1) (by omega)
    unfold rows_loop
    rw [if_pos hle, row_channels_expected d valueVDivs i _ hrow]
    dsimp only
    rw [hnext, hrec]
    simp [List.range'_succ, expected_row]

theorem line_count_append (xs ys : List Field) :
    line_count (xs ++ ys) = line_count xs + line_count ys := by
  induction xs with
  | nil => simp [line_count]
  | cons x xs ih =>
    cases x <;> simp [line_count, ih]
    omega

theorem line_count_titles (n m : Nat) (hm : m ≤ n) :
    line_count ((List.range m).flatMap (fun ch =>
      [Field.text "Channel ", Field.channel ch, Field.text " (V)",
       if ch + 1 < n then Field.text "," else Field.endl])) = if m = n ∧ 0 < n then 1 else 0 := by
  induction m with
  | zero =>
    have : ¬ (0 = n ∧ 0 < n) := by omega
    simp [line_count, this]
  | succ m ih =>
    rw [List.range_succ, List.flatMap_append, line_count_append, ih (by omega)]
    have h0 : ¬ (m = n ∧ 0 < n) := by omega
    rw [if_neg h0]
    by_cases h : m + 1 < n
    · have h1 : ¬ (m + 1 = n ∧ 0 < n) := by omega
      simp [line_count, h, h1]
    · have h1 : m + 1 = n ∧ 0 < n := by omega
      simp [line_count, h, h1]

theorem line_count_values (d : DsoSnapshotData) (valueVDivs : List Nat) (i m : Nat)
    (hm : m ≤ d.channel_num) :
    line_count ((List.range m).flatMap (fun ch =>
      [Field.volt valueVDivs[ch]? (d.samples.getD (i * d.channel_num + ch) 0),
       if ch + 1 < d.channel_num then Field.text "," else Field.endl])) =
      if m = d.channel_num ∧ 0 < d.channel_num then 1 else 0 := by
  induction m with
  | zero =>
    have : ¬ (0 = d.channel_num ∧ 0 < d.channel_num) := by omega
    simp [line_count, this]
  | succ m ih =>
    rw [List.range_succ, List.flatMap_append, line_count_append, ih (by omega)]
    have h0 : ¬ (m = d.channel_num ∧ 0 < d.channel_num) := by omega
    rw [if_neg h0]
    by_cases h : m + 1 < d.channel_num
    · have h1 : ¬ (m + 1 = d.channel_num ∧ 0 < d.channel_num) := by omega
      simp [line_count, h, h1]
    · have h1 : m + 1 = d.channel_num ∧ 0 < d.channel_num := by omega
      simp [line_count, h, h1]

theorem line_count_rows (d : DsoSnapshotData) (valueVDivs : List Nat) (samplerate : Nat)
    (hn : 1 ≤ d.channel_num) (rows : List Nat) :
    line_count (rows.flatMap (expected_row d valueVDivs samplerate)) = rows.length := by
  induction rows with
  | nil => rfl
  | cons i rows ih =>
    have h1 : d.channel_num = d.channel_num ∧ 0 < d.channel_num := ⟨rfl, by omega⟩
    have hrow : line_count (expected_row d valueVDivs samplerate i) = 1 := by
      unfold expected_row
      simp only [line_count]
      rw [line_count_values d valueVDivs i d.channel_num le_rfl, if_pos h1]
    rw [List.flatMap_cons, line_count_append, ih, hrow, List.length_cons]
    omega

theorem save_file_dso (fuel : Nat) (s : SigSession) (front : DsoSnapshotData) (samplerate : Nat)
    (get_config : Nat → Option Nat) (dev : DevInst) (sdi : sr_dev_inst) (dd : Dso)
    (hd : s._dev_inst = some dev) (hs : dev.dev_inst = some sdi)
    (hm : sdi.mode = dev_mode.DSO) (hdd : s._dso_data = some dd) (hne : dd.snapshots ≠ []) :
    save_file fuel s front samplerate get_config =
      match rows_loop front front.channel_num
          (vdiv_loop get_config front.channel_num sdi.channels 0) samplerate
          (last_sample_of front.sample_count) fuel 0 with
      | Run.done rows => Run.done (header_fields front.channel_num ++ rows)
      | Run.undefined => Run.undefined
      | Run.out_of_fuel => Run.out_of_fuel := by
  have hmode : sdi.mode ≠ dev_mode.LOGIC := by
    rw [hm]
    decide
  cases hsn : dd.snapshots with
  | nil => exact absurd hsn hne
  | cons snap snaps =>
    unfold save_file
    rw [hd]
    dsimp only
    rw [hs]
    dsimp only
    rw [if_neg hmode, if_pos hm, hdd]
    dsimp only
    rw [hsn]

/-- What `save_file` writes for a front snapshot with at least one sample and
one channel: the header line and then one row per sample, each as the
specification describes it, `sample_count + 1` lines in all. -/
theorem save_file_rows (s : SigSession) (front : DsoSnapshotData) (samplerate : Nat)
    (get_config : Nat → Option Nat) (dev : DevInst) (sdi : sr_dev_inst) (dd : Dso)
    (hd : s._dev_inst = some dev) (hs : dev.dev_inst = some sdi)
    (hm : sdi.mode = dev_mode.DSO) (hdd : s._dso_data = some dd) (hne : dd.snapshots ≠ [])
    (hc1 : 1 ≤ front.sample_count) (hc : front.sample_count * front.channel_num < 2 ^ 64)
    (hn : 1 ≤ front.channel_num)
    (hbuf : front.sample_count * front.channel_num ≤ front.samples.length) :
    ∃ fuel out, save_file fuel s front samplerate get_config = Run.done out ∧
      out = header_fields front.channel_num ++
        (List.range front.sample_count).flatMap
          (expected_row front (vdiv_loop get_config front.channel_num sdi.channels 0)
            samplerate) ∧
      line_count out = front.sample_count + 1 := by
  have hcount : front.sample_count < 2 ^ 64 := by
    calc front.sample_count = front.sample_count * 1 := (Nat.mul_one _).symm
      _ ≤ front.sample_count * front.channel_num := Nat.mul_le_mul_left _ hn
      _ < 2 ^ 64 := hc
  have hlast : last_sample_of front.sample_count = front.sample_count - 1 := by
    unfold last_sample_of
    rw [Nat.mod_eq_of_lt hcount]
    have : (front.sample_count + 2 ^ 64 - 1) % 2 ^ 64 = front.sample_count - 1 := by
      omega
    rw [this]
    exact Nat.max_eq_left (Nat.zero_le _)
  have hrows := rows_loop_expected front
    (vdiv_loop get_config front.channel_num sdi.channels 0) samplerate hc1 hc hn hbuf
    front.sample_count 0 (by omega)
  have htitles : line_count (header_fields front.channel_num) = 1 := by
    have h1 : front.channel_num = front.channel_num ∧ 0 < front.channel_num := ⟨rfl, by omega⟩
    unfold header_fields
    simp only [line_count]
    rw [line_count_titles front.channel_num front.channel_num le_rfl, if_pos h1]
  refine ⟨front.sample_count + 1, _, ?_, rfl, ?_⟩
  · rw [save_file_dso (front.sample_count + 1) s front samplerate get_config dev sdi dd hd hs hm hdd hne, hlast,
      hrows, List.range_eq_range']
  · rw [line_count_append, line_count_rows front _ samplerate hn, List.length_range, htitles]
    omega

/-- Instance of `save_file_rows`: a two-channel snapshot of three samples. -/
theorem save_file_rows_three :
    ∃ fuel out, save_file fuel sample.session_dso sample.snapshot_three 1000
        (fun _ => some 50) = Run.done out ∧
      out = header_fields sample.snapshot_three.channel_num ++
        (List.range sample.snapshot_three.sample_count).flatMap
          (expected_row sample.snapshot_three
            (vdiv_loop (fun _ => some 50) sample.snapshot_three.channel_num
              [{ type := channel_type.SR_CHANNEL_DSO, enabled := true }] 0) 1000) ∧
      line_count out = sample.snapshot_three.sample_count + 1 :=
  save_file_rows sample.session_dso sample.snapshot_three 1000 (fun _ => some 50)
    sample.dev_dso
    { driver := { name := "DSLogic" }, mode := dev_mode.DSO,
      channels := [{ type := channel_type.SR_CHANNEL_DSO, enabled := true }] }
    { snapshots := [{ buf_null := false }] } rfl rfl rfl rfl (by simp)
    (by decide) (by decide) (by decide) (by decide)

/-- C11: for a front snapshot with `get_sample_count() == 0` the last row index
computed is 2^64 - 1, not 0: `save_file` writes the row of sample 0, reading
index 0 of the buffer, and its row loop never ends normally, whereas the
claim has it write the header and no data row. -/
theorem save_file_empty_snapshot :
    last_sample_of sample.snapshot_empty.sample_count = 2 ^ 64 - 1 ∧
    (∀ fuel out,
      save_file fuel sample.session_dso sample.snapshot_empty 1000 (fun _ => none) ≠
        Run.done out) ∧
    rows_loop sample.snapshot_empty 1 [0] 1000 (2 ^ 64 - 1) 1 0 = Run.out_of_fuel ∧
    row_channels sample.snapshot_empty 1 [0] 0 [0] =
      some [Field.volt (some 0) 128, Field.endl] := by
  have hlast : last_sample_of sample.snapshot_empty.sample_count = 2 ^ 64 - 1 := by decide
  refine ⟨hlast, ?_, by decide, by decide⟩
  intro fuel out h
  rw [save_file_dso fuel sample.session_dso sample.snapshot_empty 1000 (fun _ => none)
    sample.dev_dso _ { snapshots := [{ buf_null := false }] } rfl rfl rfl rfl (by simp),
    hlast] at h
  cases hl : rows_loop sample.snapshot_empty sample.snapshot_empty.channel_num
      (vdiv_loop (fun _ => none) sample.snapshot_empty.channel_num
        [{ type := channel_type.SR_CHANNEL_DSO, enabled := true }] 0) 1000
      (2 ^ 64 - 1) fuel 0 with
  | done rows =>
    exact rows_loop_never_done _ _ _ _ fuel 0 (by norm_num) rows hl
  | undefined =>
    rw [hl] at h
    cases h
  | out_of_fuel =>
    rw [hl] at h
    cases h

/-! ### The time and voltage values written by `save_file` (C9, C10) -/

theorem round64_le_rel (x : ℚ) (hx : 0 ≤ x) : round64 x ≤ x + x / 2 ^ 53 := by
  have h := round64_abs_sub_le x
  rw [abs_of_nonneg hx, abs_le] at h
  linarith [h.2]

theorem round64_ge_rel (x : ℚ) (hx : 0 ≤ x) : x - x / 2 ^ 53 ≤ round64 x := by
  have h := round64_abs_sub_le x
  rw [abs_of_nonneg hx, abs_le] at h
  linarith [h.1]

theorem round64_thousand : round64 1000 = 1000 := by decide!

theorem time_value_eq (i samplerate : Nat) (hs : 0 < samplerate) :
    time_value i samplerate =
      some { val := round64 (round64 (round64 (i : ℚ) / round64 (samplerate : ℚ)) * 1000),
             negative := false } := by
  unfold time_value
  rw [if_neg (by omega)]
  simp only [Double.mul, Double.div, Double.of_u64, Double.lit, round64_thousand]
  simp

theorem time_val_mono (S : ℚ) (hS : 0 < S) (i j : Nat) (h : i ≤ j) :
    round64 (round64 (round64 (i : ℚ) / S) * 1000) ≤
      round64 (round64 (round64 (j : ℚ) / S) * 1000) := by
  have h0 : (i : ℚ) ≤ (j : ℚ) := by exact_mod_cast h
  have h1 := round64_mono _ _ h0
  have h2 := round64_mono _ _ (div_le_div_of_nonneg_right h1 hS.le)
  exact round64_mono _ _ (by linarith)

theorem time_val_strict (S : ℚ) (hS : 0 < S) (i : Nat) (h : i < 2 ^ 51) :
    round64 (round64 (round64 (i : ℚ) / S) * 1000) <
      round64 (round64 (round64 ((i + 1 : Nat) : ℚ) / S) * 1000) := by
  have hi : round64 (i : ℚ) = i := round64_natCast i (by omega)
  have hj : round64 ((i + 1 : Nat) : ℚ) = ((i + 1 : Nat) : ℚ) := round64_natCast (i + 1) (by omega)
  rw [hi, hj]
  have hiq : (i : ℚ) ≤ 2 ^ 51 - 1 := by
    have : i + 1 ≤ 2 ^ 51 := h
    have : ((i + 1 : Nat) : ℚ) ≤ ((2 ^ 51 : Nat) : ℚ) := by exact_mod_cast this
    push_cast at this
    linarith
  have hi0 : (0 : ℚ) ≤ (i : ℚ) := by positivity
  have hx0 : 0 ≤ (i : ℚ) / S := div_nonneg hi0 hS.le
  have hy0 : 0 ≤ ((i + 1 : Nat) : ℚ) / S := div_nonneg (by positivity) hS.le
  have ha := round64_le_rel _ hx0
  have hb := round64_ge_rel _ hy0
  have ha0 : 0 ≤ round64 ((i : ℚ) / S) := round64_nonneg _ hx0
  have hb0 : 0 ≤ round64 (((i + 1 : Nat) : ℚ) / S) := round64_nonneg _ hy0
  have hta := round64_le_rel (round64 ((i : ℚ) / S) * 1000) (by positivity)
  have htb := round64_ge_rel (round64 (((i + 1 : Nat) : ℚ) / S) * 1000) (by positivity)
  have hkey : (i : ℚ) / S * ((1 + 1 / 2 ^ 53) * (1 + 1 / 2 ^ 53)) <
      ((i + 1 : Nat) : ℚ) / S * ((1 - 1 / 2 ^ 53) * (1 - 1 / 2 ^ 53)) := by
    rw [div_mul_eq_mul_div, div_mul_eq_mul_div]
    apply div_lt_div_of_pos_right _ hS
    push_cast
    norm_num
    linarith
  generalize round64 ((i : ℚ) / S) = a at ha ha0 hta ⊢
  generalize round64 (((i + 1 : Nat) : ℚ) / S) = b at hb hb0 htb ⊢
  generalize (i : ℚ) / S = x at ha hx0 hkey
  generalize ((i + 1 : Nat) : ℚ) / S = y at hb hy0 hkey
  generalize round64 (a * 1000) = ta at hta ⊢
  generalize round64 (b * 1000) = tb at htb ⊢
  norm_num at ha hb hta htb hkey
  linarith


theorem time_value_lt (samplerate : Nat) (hs : 0 < samplerate) (i j : Nat) (hij : i < j)
    (hj : j ≤ 2 ^ 51) (ti tj : Double) (hi : time_value i samplerate = some ti)
    (hjv : time_value j samplerate = some tj) : ti.val < tj.val := by
  rw [time_value_eq i samplerate hs] at hi
  rw [time_value_eq j samplerate hs] at hjv
  cases hi
  cases hjv
  have hS : 0 < round64 (samplerate : ℚ) := round64_pos _ (by exact_mod_cast hs)
  exact lt_of_lt_of_le (time_val_strict _ hS i (by omega))
    (time_val_mono _ hS (i + 1) j hij)

theorem time_value_le (samplerate : Nat) (hs : 0 < samplerate) (i j : Nat) (hij : i ≤ j)
    (ti tj : Double) (hi : time_value i samplerate = some ti)
    (hjv : time_value j samplerate = some tj) : ti.val ≤ tj.val := by
  rw [time_value_eq i samplerate hs] at hi
  rw [time_value_eq j samplerate hs] at hjv
  cases hi
  cases hjv
  have hS : 0 < round64 (samplerate : ℚ) := round64_pos _ (by exact_mod_cast hs)
  exact time_val_mono _ hS i j hij

theorem time_value_zero (samplerate : Nat) (hs : 0 < samplerate) :
    time_value 0 samplerate = some { val := 0, negative := false } := by
  rw [time_value_eq 0 samplerate hs]
  simp [round64_zero]

/-- C9 (amended): in DSO mode `save_file` returns, its output is the header
line that starts with "Time (ms)," followed by one row per sample, and the
first field of row `i` is the double `i/(double)samplerate*1000.0`, that is
`i / samplerate * 1000` with the conversion of `samplerate`, the quotient and
the product each rounded to binary64.  For every positive sample rate the time
of row 0 is 0, the times are non-decreasing in `i`, and they are strictly
increasing over the rows `0 .. 2^51`. -/
theorem save_file_times (s : SigSession) (front : DsoSnapshotData) (samplerate : Nat)
    (get_config : Nat → Option Nat) (dev : DevInst) (sdi : sr_dev_inst) (dd : Dso)
    (hd : s._dev_inst = some dev) (hs : dev.dev_inst = some sdi)
    (hm : sdi.mode = dev_mode.DSO) (hdd : s._dso_data = some dd) (hne : dd.snapshots ≠ [])
    (hc1 : 1 ≤ front.sample_count) (hc : front.sample_count * front.channel_num < 2 ^ 64)
    (hn : 1 ≤ front.channel_num)
    (hbuf : front.sample_count * front.channel_num ≤ front.samples.length)
    (hrate : 0 < samplerate) :
    (∃ fuel out, save_file fuel s front samplerate get_config = Run.done out ∧
      out = header_fields front.channel_num ++
        (List.range front.sample_count).flatMap
          (expected_row front (vdiv_loop get_config front.channel_num sdi.channels 0)
            samplerate)) ∧
    (∀ valueVDivs i,
      (expected_row front valueVDivs samplerate i).head? = some (Field.time_ms i samplerate)) ∧
    (∀ vdivs i, Field.value vdivs (Field.time_ms i samplerate) =
      some { val := round64 (round64 (round64 (i : ℚ) / round64 (samplerate : ℚ)) * 1000),
             negative := false }) ∧
    (∀ vdivs, Field.value vdivs (Field.time_ms 0 samplerate) =
      some { val := 0, negative := false }) ∧
    (∀ vdivs i j ti tj, i ≤ j →
      Field.value vdivs (Field.time_ms i samplerate) = some ti →
      Field.value vdivs (Field.time_ms j samplerate) = some tj → ti.val ≤ tj.val) ∧
    (∀ vdivs i j ti tj, i < j → j ≤ 2 ^ 51 →
      Field.value vdivs (Field.time_ms i samplerate) = some ti →
      Field.value vdivs (Field.time_ms j samplerate) = some tj → ti.val < tj.val) := by
  refine ⟨?_, ?_, ?_, ?_, ?_, ?_⟩
  · obtain ⟨fuel, out, h1, h2, _⟩ :=
      save_file_rows s front samplerate get_config dev sdi dd hd hs hm hdd hne hc1 hc hn hbuf
    exact ⟨fuel, out, h1, h2⟩
  · intro valueVDivs i
    rfl
  · intro vdivs i
    exact time_value_eq i samplerate hrate
  · intro vdivs
    exact time_value_zero samplerate hrate
  · intro vdivs i j ti tj hij hi hj
    exact time_value_le samplerate hrate i j hij ti tj hi hj
  · intro vdivs i j ti tj hij hj2 hi hj
    exact time_value_lt samplerate hrate i j hij hj2 ti tj hi hj

/-- Witness of C9: a one-channel snapshot of three samples saved at a sample
rate of 1000. -/
theorem save_file_times_witness :
    0 < 1000 ∧
    ((∃ fuel out, save_file fuel sample.session_dso sample.snapshot_three 1000
        (fun _ => some 50) = Run.done out ∧
      out = header_fields sample.snapshot_three.channel_num ++
        (List.range sample.snapshot_three.sample_count).flatMap
          (expected_row sample.snapshot_three
            (vdiv_loop (fun _ => some 50) sample.snapshot_three.channel_num
              [{ type := channel_type.SR_CHANNEL_DSO, enabled := true }] 0) 1000)) ∧
    (∀ valueVDivs i,
      (expected_row sample.snapshot_three valueVDivs 1000 i).head? =
        some (Field.time_ms i 1000)) ∧
    (∀ vdivs i, Field.value vdivs (Field.time_ms i 1000) =
      some { val := round64 (round64 (round64 (i : ℚ) / round64 ((1000 : Nat) : ℚ)) * 1000),
             negative := false }) ∧
    (∀ vdivs, Field.value vdivs (Field.time_ms 0 1000) =
      some { val := 0, negative := false }) ∧
    (∀ vdivs i j ti tj, i ≤ j →
      Field.value vdivs (Field.time_ms i 1000) = some ti →
      Field.value vdivs (Field.time_ms j 1000) = some tj → ti.val ≤ tj.val) ∧
    (∀ vdivs i j ti tj, i < j → j ≤ 2 ^ 51 →
      Field.value vdivs (Field.time_ms i 1000) = some ti →
      Field.value vdivs (Field.time_ms j 1000) = some tj → ti.val < tj.val)) :=
  ⟨by decide,
   save_file_times sample.session_dso sample.snapshot_three 1000 (fun _ => some 50)
    sample.dev_dso
    { driver := { name := "DSLogic" }, mode := dev_mode.DSO,
      channels := [{ type := channel_type.SR_CHANNEL_DSO, enabled := true }] }
    { snapshots := [{ buf_null := false }] } rfl rfl rfl rfl (by simp)
    (by decide) (by decide) (by decide) (by decide) (by decide)⟩

/-- C9, the claim as stated fails: at a sample rate of 1217 the rows
2814749767106560 and 2814749767106561 carry the same time, so the times are not
strictly increasing in `i`. -/
theorem save_file_times_not_strict :
    0 < 1217 ∧
    Field.value 10 (Field.time_ms 2814749767106560 1217) =
      some { val := 2312859299183698, negative := false } ∧
    Field.value 10 (Field.time_ms 2814749767106561 1217) =
      some { val := 2312859299183698, negative := false } ∧
    ¬ (∀ ti tj, Field.value 10 (Field.time_ms 2814749767106560 1217) = some ti →
        Field.value 10 (Field.time_ms 2814749767106561 1217) = some tj → ti.val < tj.val) := by
  have h1 : Field.value 10 (Field.time_ms 2814749767106560 1217) =
      some { val := 2312859299183698, negative := false } := by decide!
  have h2 : Field.value 10 (Field.time_ms 2814749767106561 1217) =
      some { val := 2312859299183698, negative := false } := by decide!
  refine ⟨by decide, h1, h2, ?_⟩
  intro h
  exact lt_irrefl _ (h _ _ h1 h2)


theorem numbered_append (l1 l2 : List GroupSignal) (k : Int) :
    numbered (l1 ++ l2) k ↔ numbered l1 k ∧ numbered l2 (k + l1.length) := by
  induction l1 generalizing k with
  | nil => simp [numbered]
  | cons g l1 ih =>
    show (g.sec_index = k ∧ numbered (l1 ++ l2) (k + 1)) ↔
      (g.sec_index = k ∧ numbered l1 (k + 1)) ∧
        numbered l2 (k + ((l1.length + 1 : Nat) : Int))
    have e : k + ((l1.length + 1 : Nat) : Int) = k + 1 + (l1.length : Int) := by
      push_cast
      ring
    rw [ih, e]
    constructor
    · rintro ⟨h1, h2, h3⟩
      exact ⟨⟨h1, h2⟩, h3⟩
    · rintro ⟨⟨h1, h2⟩, h3⟩
      exact ⟨h1, h2, h3⟩

theorem numbered_iff (l : List GroupSignal) (k : Int) :
    numbered l k ↔ ∀ (j : Nat) (g : GroupSignal), l[j]? = some g → g.sec_index = k + j := by
  induction l generalizing k with
  | nil => simp [numbered]
  | cons a l ih =>
    simp only [numbered, ih]
    constructor
    · rintro ⟨h1, h2⟩ j g hj
      cases j with
      | zero =>
        simp at hj
        rw [← hj, h1]
        simp
      | succ j =>
        simp at hj
        rw [h2 j g hj]
        push_cast
        ring
    · intro h
      refine ⟨by simpa using h 0 a (by simp), ?_⟩
      intro j g hj
      have := h (j + 1) g (by simpa using hj)
      rw [this]
      push_cast
      ring

theorem group_inv_iff (s : SigSession) :
    group_inv s ↔ s._group_cnt = s._group_traces.length ∧ numbered s._group_traces 0 := by
  unfold group_inv
  rw [numbered_iff]
  simp

theorem shift_sec_index_le (c : Int) (l : List GroupSignal)
    (h : ∀ g ∈ l, g.sec_index ≤ c) : shift_sec_index c l = l := by
  unfold shift_sec_index
  induction l with
  | nil => rfl
  | cons g l ih =>
    have hg : ¬ g.sec_index > c := not_lt.2 (h g (List.mem_cons_self g l))
    simp only [List.map_cons, if_neg hg]
    rw [ih (fun x hx => h x (List.mem_cons_of_mem g hx))]

theorem numbered_le (l : List GroupSignal) (k : Int) (h : numbered l k) :
    ∀ g ∈ l, g.sec_index < k + l.length := by
  induction l generalizing k with
  | nil => simp
  | cons a l ih =>
    obtain ⟨h1, h2⟩ := h
    intro g hg
    simp only [List.length_cons, Nat.cast_add, Nat.cast_one]
    rcases List.mem_cons.1 hg with rfl | hg
    · omega
    · have := ih (k + 1) h2 g hg
      omega

theorem numbered_ge (l : List GroupSignal) (k : Int) (h : numbered l k) :
    ∀ g ∈ l, k ≤ g.sec_index := by
  induction l generalizing k with
  | nil => simp
  | cons a l ih =>
    obtain ⟨h1, h2⟩ := h
    intro g hg
    rcases List.mem_cons.1 hg with rfl | hg
    · omega
    · have := ih (k + 1) h2 g hg
      omega

theorem shift_sec_index_numbered (c : Int) (l : List GroupSignal) (k : Int)
    (h : numbered l k) (hk : c < k) :
    numbered (shift_sec_index c l) (k - 1) ∧
      (shift_sec_index c l).map group_core = l.map group_core ∧
      (shift_sec_index c l).length = l.length := by
  unfold shift_sec_index
  induction l generalizing k with
  | nil => simp [numbered]
  | cons g l ih =>
    obtain ⟨h1, h2⟩ := h
    have hg : g.sec_index > c := by omega
    obtain ⟨i1, i2, i3⟩ := ih (k + 1) h2 (by omega)
    simp only [List.map_cons, if_pos hg, numbered, List.length_cons]
    refine ⟨⟨by omega, ?_⟩, ?_, by omega⟩
    · rw [show k - 1 + 1 = k + 1 - 1 by ring]
      exact i1
    · rw [i2]
      rfl

theorem del_group_loop_end (fuel i : Nat) (s : SigSession) (h : s._group_traces[i]? = none) :
    del_group_loop (fuel + 1) i s = Outcome.returned s [] := by
  rw [del_group_loop, h]

theorem del_group_loop_skip (fuel i : Nat) (s : SigSession) (g : GroupSignal)
    (h : s._group_traces[i]? = some g) (hsel : g.selected = false) :
    del_group_loop (fuel + 1) i s = del_group_loop fuel (i + 1) s := by
  rw [del_group_loop, h]
  simp [hsel]

theorem del_group_loop_erase (fuel i : Nat) (s : SigSession) (g : GroupSignal) (gd : Group)
    (h : s._group_traces[i]? = some g) (hsel : g.selected = true)
    (hgd : s._group_data = some gd)
    (hat : 0 ≤ g.sec_index ∧ g.sec_index.toNat < gd.snapshots.length) :
    del_group_loop (fuel + 1) i s =
      del_group_loop fuel i
        { s with _group_data := some { snapshots := gd.snapshots.eraseIdx g.sec_index.toNat },
                 _group_traces := (shift_sec_index g.sec_index s._group_traces).eraseIdx i,
                 _group_cnt := s._group_cnt - 1 } := by
  rw [del_group_loop, h]
  simp only [hsel, if_true, hgd, if_pos hat]

theorem del_group_loop_throw (fuel i : Nat) (s : SigSession) (g : GroupSignal) (gd : Group)
    (h : s._group_traces[i]? = some g) (hsel : g.selected = true)
    (hgd : s._group_data = some gd)
    (hat : ¬ (0 ≤ g.sec_index ∧ g.sec_index.toNat < gd.snapshots.length)) :
    del_group_loop (fuel + 1) i s =
      Outcome.thrown { s with _group_traces := shift_sec_index g.sec_index s._group_traces } := by
  rw [del_group_loop, h]
  simp only [hsel, if_true, hgd, if_neg hat]

theorem filter_core_congr (l1 l2 : List GroupSignal)
    (h : l1.map group_core = l2.map group_core) :
    (l1.filter (fun g => !g.selected)).map group_core =
      (l2.filter (fun g => !g.selected)).map group_core := by
  induction l1 generalizing l2 with
  | nil =>
    cases l2 with
    | nil => rfl
    | cons b l2 => simp at h
  | cons a l1 ih =>
    cases l2 with
    | nil => simp at h
    | cons b l2 =>
      simp only [List.map_cons, List.cons.injEq] at h
      obtain ⟨hab, hl⟩ := h
      have hsel : a.selected = b.selected := congrArg Prod.snd hab
      have := ih l2 hl
      cases hb : b.selected with
      | true => simp [List.filter_cons, hsel, hb, this]
      | false => simp [List.filter_cons, hsel, hb, this, hab]

theorem filter_unselected (l : List GroupSignal) (h : ∀ g ∈ l, g.selected = false) :
    l.filter (fun g => !g.selected) = l := by
  rw [List.filter_eq_self]
  intro g hg
  simp [h g hg]

theorem del_group_loop_spec (fuel : Nat) :
    ∀ (pre rest : List GroupSignal) (s : SigSession) (gd : Group),
      s._group_traces = pre ++ rest → rest.length ≤ fuel →
      s._group_cnt = ((pre ++ rest).length : Int) → numbered (pre ++ rest) 0 →
      s._group_data = some gd → (pre ++ rest).length ≤ gd.snapshots.length →
      (∀ g ∈ pre, g.selected = false) →
      ∃ s', del_group_loop fuel pre.length s = Outcome.returned s' [] ∧
        group_inv s' ∧
        s'._group_traces.map group_core =
          ((pre ++ rest).filter (fun g => !g.selected)).map group_core := by
  induction fuel with
  | zero =>
    intro pre rest s gd htr hlen hcnt hnum _ _ hpre
    have hrest : rest = [] := List.length_eq_zero.1 (Nat.le_zero.1 hlen)
    subst hrest
    rw [List.append_nil] at htr hcnt hnum
    refine ⟨s, rfl, (group_inv_iff s).2 ⟨by rw [hcnt, htr], by rw [htr]; exact hnum⟩, ?_⟩
    rw [List.append_nil, filter_unselected pre hpre, htr]
  | succ fuel ih =>
    intro pre rest s gd htr hlen hcnt hnum hgd hsnap hpre
    cases rest with
    | nil =>
      rw [List.append_nil] at htr hcnt hnum
      have hnone : s._group_traces[pre.length]? = none := by
        rw [htr]
        exact List.getElem?_eq_none (le_refl _)
      refine ⟨s, del_group_loop_end fuel pre.length s hnone,
        (group_inv_iff s).2 ⟨by rw [hcnt, htr], by rw [htr]; exact hnum⟩, ?_⟩
      rw [List.append_nil, filter_unselected pre hpre, htr]
    | cons g rest =>
      have hget : s._group_traces[pre.length]? = some g := by
        rw [htr, List.getElem?_append_right (le_refl _)]
        simp
      have hlen' : rest.length ≤ fuel := by
        simp only [List.length_cons] at hlen
        omega
      cases hsel : g.selected with
      | false =>
        rw [del_group_loop_skip fuel pre.length s g hget hsel]
        have := ih (pre ++ [g]) rest s gd (by rw [htr]; simp) hlen'
          (by rw [hcnt]; simp) (by simpa using hnum) hgd (by simpa using hsnap)
          (by
            intro x hx
            rcases List.mem_append.1 hx with hx | hx
            · exact hpre x hx
            · rw [List.mem_singleton.1 hx]
              exact hsel)
        simpa using this
      | true =>
        obtain ⟨hnpre, hnrest⟩ := (numbered_append pre (g :: rest) 0).1 hnum
        obtain ⟨hgsec, hnrest'⟩ := hnrest
        rw [zero_add] at hgsec hnrest'
        have hat : 0 ≤ g.sec_index ∧ g.sec_index.toNat < gd.snapshots.length := by
          rw [hgsec]
          simp only [List.length_append, List.length_cons] at hsnap
          refine ⟨by omega, ?_⟩
          rw [Int.toNat_ofNat]
          omega
        obtain ⟨sh1, sh2, sh3⟩ :=
          shift_sec_index_numbered g.sec_index rest (pre.length + 1) hnrest' (by omega)
        have hshift : shift_sec_index g.sec_index s._group_traces =
            pre ++ g :: shift_sec_index g.sec_index rest := by
          rw [htr]
          have h1 : shift_sec_index g.sec_index pre = pre :=
            shift_sec_index_le _ _ (fun x hx => by
              have := numbered_le pre 0 hnpre x hx
              omega)
          have h2 : shift_sec_index g.sec_index [g] = [g] :=
            shift_sec_index_le _ _ (fun x hx => by
              rw [List.mem_singleton.1 hx])
          have happ : ∀ a b : List GroupSignal, shift_sec_index g.sec_index (a ++ b) =
              shift_sec_index g.sec_index a ++ shift_sec_index g.sec_index b := by
            intro a b
            simp [shift_sec_index]
          rw [show pre ++ g :: rest = pre ++ ([g] ++ rest) by simp, happ, happ, h1, h2]
          simp
        have herase : (shift_sec_index g.sec_index s._group_traces).eraseIdx pre.length =
            pre ++ shift_sec_index g.sec_index rest := by
          rw [hshift, List.eraseIdx_append_of_length_le (le_refl _)]
          simp
        rw [del_group_loop_erase fuel pre.length s g gd hget hsel hgd hat, herase]
        have := ih pre (shift_sec_index g.sec_index rest)
          { s with _group_data := some { snapshots := gd.snapshots.eraseIdx g.sec_index.toNat },
                   _group_traces := pre ++ shift_sec_index g.sec_index rest,
                   _group_cnt := s._group_cnt - 1 }
          { snapshots := gd.snapshots.eraseIdx g.sec_index.toNat } rfl (by omega)
          (by
            show s._group_cnt - 1 = _
            rw [hcnt]
            simp only [List.length_append, List.length_cons, sh3]
            push_cast
            ring)
          ((numbered_append _ _ 0).2 ⟨hnpre, by
            rw [zero_add]
            have e : ((pre.length : Int) + 1 - 1) = pre.length := by ring
            rw [e] at sh1
            exact sh1⟩)
          rfl
          (by
            simp only [List.length_append, List.length_cons, sh3] at hsnap ⊢
            rw [List.length_eraseIdx]
            split <;> omega)
          hpre
        obtain ⟨s', e1, e2, e3⟩ := this
        refine ⟨s', e1, e2, ?_⟩
        rw [e3]
        simp only [List.filter_append, List.map_append, List.filter_cons, hsel, Bool.not_true,
          Bool.false_eq_true, if_false]
        rw [filter_core_congr _ _ sh2]

/-- The indices of the selected logic signals, as `add_group` collects them. -/
theorem add_group_few (s : SigSession)
    (h : ¬ ((s._signals.filter
      (fun sg => decide (sg.type = trace_type.DS_LOGIC) && sg.selected)).map
      (fun sg => sg.index)).length > 1) : add_group s = Outcome.returned s [] := by
  unfold add_group
  dsimp only
  rw [if_neg h]

theorem add_group_result (s : SigSession) :
    (∀ s1, add_group s ≠ Outcome.thrown s1) ∧
    (∀ s1 es, add_group s = Outcome.returned s1 es →
      s1 = s ∨
      (∃ l, s1._group_traces = s._group_traces ++ [{ index_list := l, sec_index := s._group_cnt, selected := false }] ∧
        s1._group_cnt = s._group_cnt + 1)) := by
  unfold add_group
  dsimp only
  split
  · split
    · exact ⟨fun _ h => (by cases h), fun _ _ h => (by cases h)⟩
    · split
      · exact ⟨fun _ h => (by cases h), fun _ _ h => (by cases h)⟩
      · split
        · split
          · refine ⟨fun _ h => (by cases h), fun s1 es h => ?_⟩
            cases h
            exact Or.inr ⟨_, rfl, rfl⟩
          · split
            · exact ⟨fun _ h => (by cases h), fun _ _ h => (by cases h)⟩
            · split
              · exact ⟨fun _ h => (by cases h), fun _ _ h => (by cases h)⟩
              · refine ⟨fun _ h => (by cases h), fun s1 es h => ?_⟩
                cases h
                exact Or.inr ⟨_, rfl, rfl⟩
        · refine ⟨fun _ h => (by cases h), fun s1 es h => ?_⟩
          cases h
          exact Or.inr ⟨_, rfl, rfl⟩
  · refine ⟨fun _ h => (by cases h), fun s1 es h => ?_⟩
    cases h
    exact Or.inl rfl

theorem add_group_returns (s : SigSession) (gd : Group) (dev : DevInst) (ld : Logic)
    (hgd : s._group_data = some gd) (hdev : s._dev_inst = some dev)
    (hld : s._logic_data = some ld) (hfront : ld.snapshots ≠ []) :
    ∃ s1 es, add_group s = Outcome.returned s1 es := by
  unfold add_group
  dsimp only
  split
  · rw [hgd]
    dsimp only
    split
    · rename_i h1 h2
      rw [hdev] at h2
      cases h2
    · split
      · split
        · exact ⟨_, _, rfl⟩
        · rw [hld]
          dsimp only
          split
          · rename_i h
            exact absurd h hfront
          · exact ⟨_, _, rfl⟩
      · exact ⟨_, _, rfl⟩
  · exact ⟨_, _, rfl⟩

theorem numbered_sec_index (l : List GroupSignal) (k : Int) (h : numbered l k) :
    l.map (fun g => g.sec_index) = (List.range l.length).map (fun (j : Nat) => k + (j : Int)) := by
  induction l generalizing k with
  | nil => rfl
  | cons a l ih =>
    obtain ⟨h1, h2⟩ := h
    rw [List.length_cons, List.range_succ_eq_map, List.map_cons, List.map_cons, List.map_map,
      ih (k + 1) h2, h1]
    congr 1
    · simp
    · apply List.map_congr_left
      intro j _
      simp only [Function.comp, Nat.succ_eq_add_one]
      push_cast
      ring

theorem del_group_returns (s : SigSession) (gd : Group) (hinv : group_inv s)
    (hgd : s._group_data = some gd) (hlen : s._group_traces.length ≤ gd.snapshots.length) :
    ∃ s1, del_group s = Outcome.returned s1 [Effect.signals_changed, Effect.data_updated] ∧
      group_inv s1 ∧
      s1._group_traces.map group_core =
        (s._group_traces.filter (fun g => !g.selected)).map group_core := by
  obtain ⟨hc, hn⟩ := (group_inv_iff s).1 hinv
  obtain ⟨s1, e1, e2, e3⟩ := del_group_loop_spec s._group_traces.length [] s._group_traces s gd
    rfl (le_refl _) hc hn hgd hlen (fun g hg => by cases hg)
  refine ⟨s1, ?_, e2, e3⟩
  unfold del_group
  rw [show ([] : List GroupSignal).length = 0 from rfl] at e1
  rw [e1]

theorem add_group_inv (s s1 : SigSession) (es : List Effect) (hinv : group_inv s)
    (h : add_group s = Outcome.returned s1 es) : group_inv s1 := by
  rcases (add_group_result s).2 s1 es h with rfl | ⟨l, h1, h2⟩
  · exact hinv
  · obtain ⟨hc, hn⟩ := (group_inv_iff s).1 hinv
    refine (group_inv_iff s1).2 ⟨?_, ?_⟩
    · rw [h2, h1, hc]
      simp
    · rw [h1, numbered_append]
      refine ⟨hn, ?_⟩
      rw [zero_add]
      exact ⟨hc, trivial⟩

/-- Where the claim of C18 does hold: from a state in which `_group_cnt` is the
number of group traces and every group trace has its position as `sec_index`,
in which moreover the group data holds at least as many snapshots as there are
group traces and the objects `add_group` dereferences exist (the device, the
logic data with a front snapshot), `add_group` and `del_group` both return and
re-establish the bookkeeping, for every selection of signals and groups;
after `del_group` the remaining groups are the unselected ones in their
order, and their `sec_index` values are 0, 1, ..., `_group_cnt` - 1. -/
theorem group_bookkeeping_preserved (s : SigSession) (gd : Group) (dev : DevInst) (ld : Logic)
    (hinv : group_inv s) (hgd : s._group_data = some gd)
    (hlen : s._group_traces.length ≤ gd.snapshots.length)
    (hdev : s._dev_inst = some dev) (hld : s._logic_data = some ld)
    (hfront : ld.snapshots ≠ []) :
    (∃ s1 es, add_group s = Outcome.returned s1 es ∧ group_inv s1) ∧
    (∃ s1, del_group s = Outcome.returned s1 [Effect.signals_changed, Effect.data_updated] ∧
      group_inv s1 ∧
      s1._group_traces.map group_core =
        (s._group_traces.filter (fun g => !g.selected)).map group_core ∧
      s1._group_traces.map (fun g => g.sec_index) =
        (List.range s1._group_traces.length).map (fun (k : Nat) => (k : Int)) ∧
      s1._group_cnt = (s1._group_traces.length : Int)) := by
  constructor
  · obtain ⟨s1, es, h⟩ := add_group_returns s gd dev ld hgd hdev hld hfront
    exact ⟨s1, es, h, add_group_inv s s1 es hinv h⟩
  · obtain ⟨s1, h1, h2, h3⟩ := del_group_returns s gd hinv hgd hlen
    obtain ⟨hc, hn⟩ := (group_inv_iff s1).1 h2
    refine ⟨s1, h1, h2, h3, ?_, hc⟩
    rw [numbered_sec_index _ 0 hn]
    apply List.map_congr_left
    intro j _
    simp

/-- Instance of `group_bookkeeping_preserved`: three groups with a snapshot
each, the first and the last selected, and two selected logic signals. -/
theorem group_bookkeeping_preserved_witness :
    group_inv sample.session_three_groups ∧
    (∃ s1 es, add_group sample.session_three_groups = Outcome.returned s1 es ∧ group_inv s1) ∧
    (∃ s1, del_group sample.session_three_groups =
        Outcome.returned s1 [Effect.signals_changed, Effect.data_updated] ∧
      group_inv s1 ∧
      s1._group_traces.map group_core =
        (sample.session_three_groups._group_traces.filter (fun g => !g.selected)).map
          group_core ∧
      s1._group_traces.map (fun g => g.sec_index) =
        (List.range s1._group_traces.length).map (fun (k : Nat) => (k : Int)) ∧
      s1._group_cnt = (s1._group_traces.length : Int)) :=
  have hinv : group_inv sample.session_three_groups :=
    (group_inv_iff _).2 ⟨rfl, rfl, rfl, rfl, trivial⟩
  ⟨hinv, group_bookkeeping_preserved sample.session_three_groups _ sample.dev_two _ hinv rfl
    (by decide) rfl rfl (by decide)⟩

/-- C18: `del_group` does not re-establish the group bookkeeping from every
state that has it.  Before any capture, with two groups added by `add_group`
and the first one selected, `_group_cnt` is 2 and the `sec_index` values are
0, 1; `del_group` decreases the `sec_index` of the second group and then
leaves by the exception of `deque::at`, the group data having no snapshot:
both groups are still there, both with the `sec_index` 0. -/
theorem del_group_breaks_bookkeeping :
    ∃ s s1, sample.session_two_added = some s ∧ group_inv s ∧
      del_group s = Outcome.thrown s1 ∧
      s1._group_traces.map (fun g => g.sec_index) = [0, 0] ∧ s1._group_cnt = 2 ∧
      ¬ group_inv s1 := by
  apply Exists.intro
  apply Exists.intro
  refine ⟨rfl, (group_inv_iff _).2 ⟨rfl, rfl, rfl, trivial⟩, rfl, rfl, rfl, ?_⟩
  intro h
  have h1 := h.2 1 _ rfl
  exact absurd h1 (by decide)

/-- C19: the snapshot deque of the group data does not stay aligned with the
group traces.  After `init_signals` on a device with two enabled logic
channels, with both signals selected, `add_group` adds a group trace and no
snapshot, the capture state not being `Stopped`; `del_group` with that group
selected then leaves by the exception of `deque::at`.  And an `SR_DF_END`
packet appends one snapshot per group trace to the snapshots already there:
three traces with three snapshots have six afterwards. -/
theorem group_snapshots_misaligned :
    (∃ s s1, sample.session_one_added = some s ∧
      s._group_traces.length = 1 ∧ s._group_data = some { snapshots := [] } ∧
      group_aligned s = false ∧ del_group s = Outcome.thrown s1) ∧
    group_aligned sample.session_three_groups = true ∧
    (∃ s1 es, data_feed_in sample.session_three_groups sr_datafeed_packet.SR_DF_END false =
        some (s1, es) ∧
      s1._group_traces.length = 3 ∧
      (s1._group_data.map (fun gd => gd.snapshots.length)) = some 6 ∧
      group_aligned s1 = false) := by
  refine ⟨?_, rfl, ?_⟩
  · apply Exists.intro
    apply Exists.intro
    exact ⟨rfl, rfl, rfl, rfl, rfl⟩
  · apply Exists.intro
    apply Exists.intro
    exact ⟨rfl, rfl, rfl, rfl⟩

end pv

namespace pv.view

/-! ### The DSO horizontal measurement (C12) -/

theorem double_to_u64_int (z : Int) (h0 : 0 ≤ z) (h1 : z < 2 ^ 64) :
    double_to_u64 (z : ℚ) = some z.toNat := by
  unfold double_to_u64
  have hz : (0 : ℚ) ≤ (z : ℚ) := by exact_mod_cast h0
  simp only [hz, if_true, Int.floor_intCast]
  rw [if_pos ⟨h0, h1⟩]

theorem double_to_u64_nonneg (d : ℚ) (h0 : 0 ≤ d) (h1 : d < 2 ^ 64) :
    double_to_u64 d = some ⌊d⌋.toNat := by
  unfold double_to_u64
  simp only [h0, if_true]
  have hf0 : 0 ≤ ⌊d⌋ := Int.floor_nonneg.2 h0
  have hf1 : ⌊d⌋ < 2 ^ 64 := by
    rw [Int.floor_lt]
    exact_mod_cast h1
  rw [if_pos ⟨hf0, hf1⟩]

theorem grabbed_index_nearest (pos : ℚ) (h0 : 0 ≤ pos) (h1 : pos ≤ 2 ^ 64 - 1) :
    ∃ n : Nat, grabbed_index pos = some n ∧ n < 2 ^ 64 ∧ |(n : ℚ) - pos| ≤ 1 / 2 ∧
      (pos - (⌊pos⌋ : ℚ) < 1 / 2 → (n : Int) = ⌊pos⌋) ∧
      (1 / 2 ≤ pos - (⌊pos⌋ : ℚ) → (n : Int) = ⌈pos⌉) := by
  have hlt : pos < 2 ^ 64 := by linarith
  have hf0 : 0 ≤ ⌊pos⌋ := Int.floor_nonneg.2 h0
  have hc0 : 0 ≤ ⌈pos⌉ := Int.ceil_nonneg h0
  have hc1 : ⌈pos⌉ < 2 ^ 64 := by
    have : ⌈pos⌉ ≤ 2 ^ 64 - 1 := by
      rw [Int.ceil_le]
      exact le_of_le_of_eq h1 (by norm_num)
    omega
  have hf1 : ⌊pos⌋ < 2 ^ 64 := lt_of_le_of_lt (Int.floor_le_ceil pos) hc1
  have hcast : ((⌊pos⌋.toNat : Nat) : ℚ) = (⌊pos⌋ : ℚ) := by
    have : ((⌊pos⌋.toNat : Nat) : Int) = ⌊pos⌋ := Int.toNat_of_nonneg hf0
    exact_mod_cast this
  have hcastc : ((⌈pos⌉.toNat : Nat) : ℚ) = (⌈pos⌉ : ℚ) := by
    have : ((⌈pos⌉.toNat : Nat) : Int) = ⌈pos⌉ := Int.toNat_of_nonneg hc0
    exact_mod_cast this
  have hfl : (⌊pos⌋ : ℚ) ≤ pos := Int.floor_le pos
  have hcl : pos ≤ (⌈pos⌉ : ℚ) := Int.le_ceil pos
  have hcl1 : (⌈pos⌉ : ℚ) < pos + 1 := Int.ceil_lt_add_one pos
  have hcf : (⌈pos⌉ : ℚ) ≤ (⌊pos⌋ : ℚ) + 1 := by
    have : ⌈pos⌉ ≤ ⌊pos⌋ + 1 := Int.ceil_le_floor_add_one pos
    exact_mod_cast this
  unfold grabbed_index
  rw [double_to_u64_nonneg pos h0 hlt]
  dsimp only
  rw [hcast]
  by_cases hd : pos - (⌊pos⌋ : ℚ) < 1 / 2
  · rw [if_pos hd, double_to_u64_int _ hf0 hf1]
    refine ⟨_, rfl, by omega, ?_, fun _ => Int.toNat_of_nonneg hf0, fun h => absurd hd (not_lt.2 h)⟩
    rw [hcast, abs_le]
    constructor <;> linarith
  · rw [if_neg hd, double_to_u64_int _ hc0 hc1]
    refine ⟨_, rfl, by omega, ?_, fun h => absurd h hd, fun _ => Int.toNat_of_nonneg hc0⟩
    rw [hcastc, abs_le]
    have hd1 : 1 / 2 ≤ pos - (⌊pos⌋ : ℚ) := not_lt.1 hd
    constructor <;> linarith

theorem measure_loop_calls (ops : DoubleOps) (fm : Format) (sc : Scene) (traces : List Trace) :
    ∀ v : Viewport, ∀ c ∈ (measure_loop ops fm sc v traces).2, c = Call.mouse_measure := by
  induction traces with
  | nil =>
    intro v c hc
    cases hc
  | cons t rest ih =>
    intro v c hc
    cases t with
    | logic m e =>
      unfold measure_loop at hc
      dsimp only at hc
      split_ifs at hc
      all_goals first
        | exact absurd hc (List.not_mem_nil _)
        | exact List.mem_singleton.1 hc
        | (rcases List.mem_cons.1 hc with h | h
           · exact h
           · exact ih _ c h)
    | dso m =>
      unfold measure_loop at hc
      split_ifs at hc
      · exact ih _ c hc
      · exact ih _ c hc
    | other =>
      unfold measure_loop at hc
      exact ih _ c hc

theorem measure_calls (ops : DoubleOps) (fm : Format) (v : Viewport) (sc : Scene) :
    ∀ c ∈ (measure ops fm v sc).2, c = Call.mouse_measure := by
  unfold measure
  split_ifs
  · intro c hc
    cases hc
  · exact measure_loop_calls ops fm sc sc.signals _

theorem move_hover_free (ops : DoubleOps) (fm : Format) (v : Viewport) (sc : Scene)
    (event : QMouseEvent) (n : Nat)
    (hb : event.left = false ∧ event.right = false ∧ event.other = false)
    (hc : sc.cursors_shown = true) (hg : sc.grabbed_cursor = true)
    (hn : grabbed_index (hover_pos ops sc) = some n) :
    ∃ w es, move_hover ops fm v sc event = some (w, Call.set_index n :: es) ∧
      ∀ c ∈ es, c = Call.mouse_measure := by
  unfold move_hover
  rw [hb.1, hb.2.1, hb.2.2, hc, hg, hn]
  exact ⟨_, _, rfl, measure_calls ops fm _ sc⟩

theorem move_drag_free (ops : DoubleOps) (v : Viewport) (sc : Scene) (event : QMouseEvent)
    (hl : event.left = false) : move_drag ops v sc event = (v, []) := by
  unfold move_drag
  rw [hl]
  rfl

/-- C14 (amended): in `Viewport::mouseMoveEvent` with no mouse button held,
the cursors shown and a cursor grabbed, for every position
pos = (offset + hover_x * scale) * sample_rate with 0 <= pos <= 2^64 - 1 the
handler gives the grabbed cursor one new index n, the integer nearest to
pos with ties rounded up: |n - pos| <= 1/2, n = floor(pos) when the
fractional part of pos is below 0.5 and n = ceil(pos) otherwise. -/
theorem grabbed_cursor_nearest (ops : DoubleOps) (fm : Format) (v : Viewport) (sc : Scene)
    (event : QMouseEvent)
    (hb : event.left = false ∧ event.right = false ∧ event.other = false)
    (hc : sc.cursors_shown = true) (hg : sc.grabbed_cursor = true)
    (h0 : 0 ≤ hover_pos ops sc) (h1 : hover_pos ops sc ≤ 2 ^ 64 - 1) :
    ∃ (n : Nat) (w : Viewport) (es : List Call),
      mouseMoveEvent ops fm v sc event = some (w, Call.set_index n :: es) ∧
      (∀ k, Call.set_index k ∉ es) ∧
      n < 2 ^ 64 ∧ |(n : ℚ) - hover_pos ops sc| ≤ 1 / 2 ∧
      (hover_pos ops sc - (⌊hover_pos ops sc⌋ : ℚ) < 1 / 2 → (n : Int) = ⌊hover_pos ops sc⌋) ∧
      (1 / 2 ≤ hover_pos ops sc - (⌊hover_pos ops sc⌋ : ℚ) →
        (n : Int) = ⌈hover_pos ops sc⌉) := by
  obtain ⟨n, hn, hlt, habs, hfl, hce⟩ := grabbed_index_nearest (hover_pos ops sc) h0 h1
  obtain ⟨w, es, hm, hes⟩ := move_hover_free ops fm (move_zoom v event) sc event n hb hc hg hn
  refine ⟨n, { w with _mouse_point := event.pos }, es ++ [Call.update], ?_, ?_, hlt, habs,
    hfl, hce⟩
  · unfold mouseMoveEvent
    dsimp only
    rw [move_drag_free ops _ sc event hb.1]
    dsimp only
    rw [hm]
    rfl
  · intro k hk
    rcases List.mem_append.1 hk with h | h
    · have := hes _ h
      cases this
    · have := List.mem_singleton.1 h
      cases this

/-- Witness of C14: the mouse at pixel 5 of a view at half a second per pixel
and 1 Hz, the position 5/2, gives the index 3. -/
theorem grabbed_cursor_nearest_witness :
    hover_pos DoubleOps.exact sample.scene_logic = 5 / 2 ∧
    ∃ (n : Nat) (w : Viewport) (es : List Call),
      mouseMoveEvent DoubleOps.exact sample.format (Viewport.new sample.blank) sample.scene_logic
        (sample.free_at 5) = some (w, Call.set_index n :: es) ∧
      (∀ k, Call.set_index k ∉ es) ∧
      n < 2 ^ 64 ∧ |(n : ℚ) - hover_pos DoubleOps.exact sample.scene_logic| ≤ 1 / 2 ∧
      (hover_pos DoubleOps.exact sample.scene_logic -
          (⌊hover_pos DoubleOps.exact sample.scene_logic⌋ : ℚ) < 1 / 2 →
        (n : Int) = ⌊hover_pos DoubleOps.exact sample.scene_logic⌋) ∧
      (1 / 2 ≤ hover_pos DoubleOps.exact sample.scene_logic -
          (⌊hover_pos DoubleOps.exact sample.scene_logic⌋ : ℚ) →
        (n : Int) = ⌈hover_pos DoubleOps.exact sample.scene_logic⌉) :=
  ⟨by decide!,
    grabbed_cursor_nearest DoubleOps.exact sample.format (Viewport.new sample.blank)
      sample.scene_logic (sample.free_at 5) ⟨rfl, rfl, rfl⟩ rfl rfl (by decide!) (by decide!)⟩

theorem double_to_u64_large (d : ℚ) (h : 2 ^ 64 ≤ d) : double_to_u64 d = none := by
  unfold double_to_u64
  have h0 : (0 : ℚ) ≤ d := le_trans (by norm_num) h
  simp only [h0, if_true]
  have hf : (2 : Int) ^ 64 ≤ ⌊d⌋ := by
    rw [Int.le_floor]
    exact le_of_eq_of_le (by norm_num) h
  rw [if_neg]
  intro hh
  omega

theorem mouseMoveEvent_large (ops : DoubleOps) (fm : Format) (v : Viewport) (sc : Scene)
    (event : QMouseEvent)
    (hb : event.left = false ∧ event.right = false ∧ event.other = false)
    (hc : sc.cursors_shown = true) (hg : sc.grabbed_cursor = true)
    (h : 2 ^ 64 ≤ hover_pos ops sc) : mouseMoveEvent ops fm v sc event = none := by
  have hn : grabbed_index (hover_pos ops sc) = none := by
    unfold grabbed_index
    rw [double_to_u64_large _ h]
  unfold mouseMoveEvent
  dsimp only
  rw [move_drag_free ops _ sc event hb.1]
  dsimp only
  unfold move_hover
  rw [hb.1, hb.2.1, hb.2.2, hc, hg, hn]
  rfl

/-- C14, the claim as stated fails: at the position pos = 2^64, which is not
negative, the conversion of pos to `uint64_t` is out of range, so that the
behaviour of the handler is undefined, and no `uint64_t` index lies within
1/2 of pos. -/
theorem grabbed_cursor_out_of_range :
    hover_pos DoubleOps.exact sample.scene_far = 2 ^ 64 ∧
    (0 : ℚ) ≤ hover_pos DoubleOps.exact sample.scene_far ∧
    mouseMoveEvent DoubleOps.exact sample.format (Viewport.new sample.blank) sample.scene_far
      (sample.free_at 0) = none ∧
    ¬ ∃ n : Nat, n < 2 ^ 64 ∧
      |(n : ℚ) - hover_pos DoubleOps.exact sample.scene_far| ≤ 1 / 2 := by
  have hp : hover_pos DoubleOps.exact sample.scene_far = 2 ^ 64 := by
    simp only [hover_pos, DoubleOps.exact, sample.scene_far, sample.scene_logic]
    norm_num
  refine ⟨hp, ?_, ?_, ?_⟩
  · rw [hp]
    norm_num
  · exact mouseMoveEvent_large _ _ _ _ _ ⟨rfl, rfl, rfl⟩ rfl rfl (le_of_eq hp.symm)
  · rintro ⟨n, hn, habs⟩
    rw [hp, abs_le] at habs
    have hq : (n : ℚ) + 1 ≤ 2 ^ 64 := by exact_mod_cast Nat.succ_le_of_lt hn
    linarith [habs.1]

/-! ### Zoom rectangle and panning (C16, C17) -/

/-- C16: in `Viewport::mouseReleaseEvent` with the zoom rectangle visible,
the scale asked for is `scale * |x_release - x_press| / view_width` clamped
as `max(min(., maxscale), minscale)`; with minscale <= maxscale it lies in
[minscale, maxscale]; `set_scale_offset` is called, once, with that scale
and the offset `offset + (min(x_release, x_press) + 0.5) * scale`, if and
only if the clamped scale differs from the current scale, and not called
otherwise; the zoom rectangle is hidden afterwards in every case. -/
theorem zoom_release (ops : DoubleOps) (v : Viewport) (sc : Scene) (event : QMouseEvent)
    (hvis : v._zoom_rect_visible = true) (hmm : sc.minscale ≤ sc.maxscale) :
    zoom_scale ops sc event.pos.x v._mouse_down_point.x =
      max (min (ops.div (ops.mul sc.scale ((|event.pos.x - v._mouse_down_point.x| : Int) : ℚ))
        (sc.view_width : ℚ)) sc.maxscale) sc.minscale ∧
    sc.minscale ≤ zoom_scale ops sc event.pos.x v._mouse_down_point.x ∧
    zoom_scale ops sc event.pos.x v._mouse_down_point.x ≤ sc.maxscale ∧
    (zoom_scale ops sc event.pos.x v._mouse_down_point.x ≠ sc.scale →
      (mouseReleaseEvent ops v sc event).2 =
        [Call.set_scale_offset (zoom_scale ops sc event.pos.x v._mouse_down_point.x)
          (ops.add sc.offset
            (ops.mul (ops.add ((min event.pos.x v._mouse_down_point.x : Int) : ℚ) (1 / 2))
              sc.scale))]) ∧
    (zoom_scale ops sc event.pos.x v._mouse_down_point.x = sc.scale →
      (mouseReleaseEvent ops v sc event).2 = []) ∧
    (mouseReleaseEvent ops v sc event).1._zoom_rect_visible = false := by
  refine ⟨rfl, le_max_right _ _, max_le (le_trans (min_le_right _ _) (le_refl _)) hmm, ?_, ?_, ?_⟩
  · intro hne
    unfold mouseReleaseEvent
    rw [if_pos hvis]
    dsimp only
    rw [if_pos hne]
    rfl
  · intro heq
    unfold mouseReleaseEvent
    rw [if_pos hvis]
    dsimp only
    rw [if_neg (not_not.2 heq)]
  · unfold mouseReleaseEvent
    rw [if_pos hvis]

/-- Witness of C16: a zoom rectangle from pixel 10 to pixel 60 in a view 100
pixels wide at scale 1 asks for the scale 1/2 and the offset 21/2. -/
theorem zoom_release_witness :
    (mouseReleaseEvent DoubleOps.exact sample.viewport_zoom sample.scene_dso
        (sample.right_release_at 60)).2 = [Call.set_scale_offset (1 / 2) (21 / 2)] ∧
    (mouseReleaseEvent DoubleOps.exact sample.viewport_zoom sample.scene_dso
        (sample.right_release_at 60)).1._zoom_rect_visible = false :=
  have h := zoom_release DoubleOps.exact sample.viewport_zoom sample.scene_dso
    (sample.right_release_at 60) rfl (by decide!)
  ⟨by decide!, h.2.2.2.2.2⟩

theorem zoom_hidden (ops : DoubleOps) (v : Viewport) (sc : Scene) (event : QMouseEvent) :
    (mouseReleaseEvent ops v sc event).1._zoom_rect_visible = false := by
  by_cases h : v._zoom_rect_visible = true
  · unfold mouseReleaseEvent
    rw [if_pos h]
  · unfold mouseReleaseEvent
    rw [if_neg h]
    exact Bool.eq_false_iff.2 h

theorem press_begin_down (v : Viewport) (sc : Scene) (event : QMouseEvent) :
    (press_begin v sc event)._mouse_down_point = event.pos ∧
    (press_begin v sc event)._mouse_down_offset = sc.offset := by
  unfold press_begin
  dsimp only
  split_ifs <;> exact ⟨rfl, rfl⟩

theorem mousePressEvent_down (ops : DoubleOps) (v w : Viewport) (sc : Scene)
    (event : QMouseEvent) (es : List Call)
    (hp : mousePressEvent ops v sc event = some (w, es)) :
    w._mouse_down_point = event.pos ∧ w._mouse_down_offset = sc.offset := by
  have h2 := press_begin_down v sc event
  unfold mousePressEvent at hp
  dsimp only at hp
  generalize press_begin v sc event = v2 at hp h2
  split_ifs at hp
  all_goals first
    | (cases hp; exact h2)
    | (split at hp
       · cases hp
       · cases hp
         exact h2)

theorem mouseMoveEvent_left (ops : DoubleOps) (fm : Format) (v : Viewport) (sc : Scene)
    (event : QMouseEvent) (hl : event.left = true) (hsig : v._drag_sig = false) :
    ∃ w : Viewport,
      mouseMoveEvent ops fm v sc event =
        some (w, [Call.set_scale_offset sc.scale
          (ops.add v._mouse_down_offset
            (ops.mul ((v._mouse_down_point.x - event.pos.x : Int) : ℚ) sc.scale)),
          Call.update]) ∧
      w._drag_strength = ((v._mouse_down_point.x - event.pos.x : Int) : ℚ) ∧
      w._mouse_down_point = v._mouse_down_point ∧
      w._mouse_down_offset = v._mouse_down_offset ∧
      w._drag_sig = false := by
  have hz : (move_zoom v event)._mouse_down_point = v._mouse_down_point ∧
      (move_zoom v event)._mouse_down_offset = v._mouse_down_offset ∧
      (move_zoom v event)._drag_sig = false := by
    unfold move_zoom
    dsimp only
    split_ifs <;> exact ⟨rfl, rfl, hsig⟩
  obtain ⟨z1, z2, z3⟩ := hz
  unfold mouseMoveEvent
  dsimp only
  generalize move_zoom v event = v1 at z1 z2 z3
  have hd : move_drag ops v1 sc event =
      ({ v1 with _drag_strength := ((v1._mouse_down_point.x - event.pos.x : Int) : ℚ) },
       [Call.set_scale_offset sc.scale
          (ops.add v1._mouse_down_offset
            (ops.mul ((v1._mouse_down_point.x - event.pos.x : Int) : ℚ) sc.scale))]) := by
    unfold move_drag
    rw [if_pos hl, z3]
    rfl
  have hh : ∀ x : Viewport, move_hover ops fm x sc event = some (x, []) := by
    intro x
    unfold move_hover
    rw [hl]
    rfl
  rw [hd]
  dsimp only
  rw [hh, z1, z2]
  exact ⟨_, rfl, rfl, rfl, rfl, z3⟩

theorem run_moves_left (ops : DoubleOps) (fm : Format) (moves : List (Scene × QMouseEvent)) :
    ∀ v : Viewport, v._drag_sig = false → (∀ m ∈ moves, m.2.left = true) →
      ∃ w : Viewport,
        Viewport.run ops fm v (moves.map (fun m => Input.move m.1 m.2)) = some w ∧
        w._mouse_down_point = v._mouse_down_point ∧
        w._mouse_down_offset = v._mouse_down_offset ∧ w._drag_sig = false := by
  induction moves with
  | nil =>
    intro v hsig _
    exact ⟨v, rfl, rfl, rfl, hsig⟩
  | cons m rest ih =>
    intro v hsig hm
    obtain ⟨w1, e1, _, p1, p2, p3⟩ :=
      mouseMoveEvent_left ops fm v m.1 m.2 (hm m (List.mem_cons_self _ _)) hsig
    obtain ⟨w, e2, q1, q2, q3⟩ := ih w1 p3 (fun x hx => hm x (List.mem_cons_of_mem _ hx))
    refine ⟨w, ?_, q1.trans p1, q2.trans p2, q3⟩
    rw [List.map_cons, Viewport.run]
    dsimp only [Viewport.handle]
    rw [e1]
    exact e2

/-- C17: panning by a drag with the left button is anchored at the press
point.  After a mouse press at `press.pos` that leaves no DSO trigger signal
being dragged, and after any moves with the left button held, a
`mouseMoveEvent` at the position `event.pos` with the left button held asks
the view, in one call of `set_scale_offset`, for the current scale and the
offset `_mouse_down_offset + (x_press - event.pos.x) * scale`, where
`_mouse_down_offset` is the view offset at the press: the moves in between
do not enter it; and `_drag_strength` becomes `x_press - event.pos.x`. -/
theorem pan_anchored (ops : DoubleOps) (fm : Format) (v v1 : Viewport) (sc0 : Scene)
    (press : QMouseEvent) (es1 : List Call) (moves : List (Scene × QMouseEvent))
    (sc : Scene) (event : QMouseEvent)
    (hpress : mousePressEvent ops v sc0 press = some (v1, es1))
    (hsig : v1._drag_sig = false)
    (hmoves : ∀ m ∈ moves, m.2.left = true)
    (hleft : event.left = true) :
    ∃ v2 w : Viewport,
      Viewport.run ops fm v1 (moves.map (fun m => Input.move m.1 m.2)) = some v2 ∧
      mouseMoveEvent ops fm v2 sc event =
        some (w, [Call.set_scale_offset sc.scale
          (ops.add sc0.offset (ops.mul ((press.pos.x - event.pos.x : Int) : ℚ) sc.scale)),
          Call.update]) ∧
      w._drag_strength = ((press.pos.x - event.pos.x : Int) : ℚ) := by
  obtain ⟨d1, d2⟩ := mousePressEvent_down ops v v1 sc0 press es1 hpress
  obtain ⟨v2, hrun, q1, q2, q3⟩ := run_moves_left ops fm moves v1 hsig hmoves
  obtain ⟨w, hw, hs, _, _, _⟩ := mouseMoveEvent_left ops fm v2 sc event hleft q3
  rw [q1, q2, d1, d2] at hw
  rw [q1, d1] at hs
  exact ⟨v2, w, hrun, hw, hs⟩

/-- Witness of C17: a press at pixel 50, moves to the pixels 40 and 45, and a
move to pixel 30, at scale 1 from offset 0. -/
theorem pan_anchored_witness :
    ∃ v2 w : Viewport,
      Viewport.run DoubleOps.exact sample.format sample.viewport_pressed
        (sample.moves_pan.map (fun m => Input.move m.1 m.2)) = some v2 ∧
      mouseMoveEvent DoubleOps.exact sample.format v2 sample.scene_dso (sample.left_at 30) =
        some (w, [Call.set_scale_offset sample.scene_dso.scale
          (DoubleOps.exact.add sample.scene_dso.offset
            (DoubleOps.exact.mul
              (((sample.left_at 50).pos.x - (sample.left_at 30).pos.x : Int) : ℚ)
              sample.scene_dso.scale)),
          Call.update]) ∧
      w._drag_strength = (((sample.left_at 50).pos.x - (sample.left_at 30).pos.x : Int) : ℚ) :=
  pan_anchored DoubleOps.exact sample.format (Viewport.new sample.blank) sample.viewport_pressed
    sample.scene_dso (sample.left_at 50) [Call.update] sample.moves_pan sample.scene_dso
    (sample.left_at 30) (by decide!) rfl (by decide) rfl

end pv.view

/-! ### The round trip between pixels and cursor indices (C15) -/

namespace pv

theorem round64_near (y B : ℚ) (h : |y| ≤ B) :
    y - B * (1 / 2 ^ 53) ≤ round64 y ∧ round64 y ≤ y + B * (1 / 2 ^ 53) := by
  have h1 := round64_abs_sub_le y
  rw [abs_le] at h1
  have h2 : |y| / 2 ^ 53 ≤ B * (1 / 2 ^ 53) := by
    rw [div_eq_mul_one_div]
    exact mul_le_mul_of_nonneg_right h (by norm_num)
  constructor <;> linarith [h1.1, h1.2]

/-- The rounding error of `offset + (x + 0.5) * scale`. -/
theorem position_err (X c o : ℚ) (hc : 0 < c) (ho : 0 ≤ o) :
    |round64 (o + round64 (round64 X * c)) - (o + X * c)| ≤ (o + |X| * c) * (5 / 2 ^ 53) := by
  obtain ⟨ha1, ha2⟩ := round64_near X |X| le_rfl
  have hX1 := le_abs_self X
  have hX2 := neg_abs_le X
  have hac1 : round64 X * c ≤ (X + |X| * (1 / 2 ^ 53)) * c :=
    mul_le_mul_of_nonneg_right ha2 hc.le
  have hac2 : (X - |X| * (1 / 2 ^ 53)) * c ≤ round64 X * c :=
    mul_le_mul_of_nonneg_right ha1 hc.le
  have hXc1 : X * c ≤ |X| * c := mul_le_mul_of_nonneg_right hX1 hc.le
  have hXc2 : -X * c ≤ |X| * c := mul_le_mul_of_nonneg_right (by linarith) hc.le
  have hT0 : 0 ≤ |X| * c := by positivity
  generalize round64 X = a at *
  generalize |X| = A at *
  have habs : |a * c| ≤ (A * c) * (1 + 1 / 2 ^ 53) := by
    rw [abs_le]
    constructor <;> linarith
  obtain ⟨hb1, hb2⟩ := round64_near (a * c) _ habs
  generalize round64 (a * c) = b at *
  have habs2 : |o + b| ≤ o + (A * c) * (1 + 3 / 2 ^ 53) := by
    rw [abs_le]
    constructor <;> linarith
  obtain ⟨hd1, hd2⟩ := round64_near (o + b) _ habs2
  generalize round64 (o + b) = d at *
  rw [abs_le]
  constructor <;> linarith


/-- The rounding error of the product with the sample rate. -/
theorem samples_err (d m B S : ℚ) (hS : 0 < S) (hm0 : 0 ≤ m) (hmB : m ≤ B)
    (hd : |d - m| ≤ B * (5 / 2 ^ 53)) :
    |round64 (d * S) - m * S| ≤ (B * S) * (7 / 2 ^ 53) := by
  rw [abs_le] at hd
  obtain ⟨hd1, hd2⟩ := hd
  have h1 : d * S ≤ (m + B * (5 / 2 ^ 53)) * S :=
    mul_le_mul_of_nonneg_right (by linarith) hS.le
  have h2 : (m - B * (5 / 2 ^ 53)) * S ≤ d * S :=
    mul_le_mul_of_nonneg_right (by linarith) hS.le
  have hmS : m * S ≤ B * S := mul_le_mul_of_nonneg_right hmB hS.le
  have hmS0 : 0 ≤ m * S := by positivity
  have habs : |d * S| ≤ (B * S) * (1 + 5 / 2 ^ 53) := by
    rw [abs_le]
    constructor <;> linarith
  obtain ⟨hp1, hp2⟩ := round64_near (d * S) _ habs
  generalize round64 (d * S) = p at *
  rw [abs_le]
  constructor <;> linarith

end pv

namespace pv.view

theorem double_to_u64_bounds (p : ℚ) (n : Nat) (h : double_to_u64 p = some n) :
    p - 1 < (n : ℚ) ∧ ((n : ℚ) ≤ p ∨ n = 0) := by
  unfold double_to_u64 at h
  by_cases hp : 0 ≤ p
  · simp only [hp, if_true] at h
    split_ifs at h with h1
    cases h
    have hn : ((⌊p⌋.toNat : Int) : ℚ) = (⌊p⌋ : ℚ) := by
      rw [Int.toNat_of_nonneg h1.1]
    have hn2 : ((⌊p⌋.toNat : Nat) : ℚ) = (⌊p⌋ : ℚ) := by
      rw [← hn]
      norm_cast
    rw [hn2]
    constructor
    · have := Int.lt_floor_add_one p
      linarith
    · left
      exact Int.floor_le p
  · simp only [hp, if_false] at h
    split_ifs at h with h1
    cases h
    have hc0 : ⌈p⌉ ≤ 0 := Int.ceil_le.mpr (by push_cast; linarith)
    have hc : ⌈p⌉ = 0 := le_antisymm hc0 h1.1
    rw [hc]
    constructor
    · have := Int.ceil_lt_add_one p
      rw [hc] at this
      push_cast at this ⊢
      linarith
    · right
      rfl

end pv.view

namespace pv

/-- The index as a `double`, against the exact sample position `P`. -/
theorem index_err (p P Q : ℚ) (n : Nat) (hP0 : 0 ≤ P) (hPQ : P ≤ Q)
    (hp : |p - P| ≤ Q * (7 / 2 ^ 53)) (hlo : p - 1 < (n : ℚ))
    (hhi : (n : ℚ) ≤ p ∨ n = 0) :
    0 ≤ round64 (n : ℚ) ∧ round64 (n : ℚ) ≤ P + Q * (9 / 2 ^ 53) ∧
      P - 1 - Q * (8 / 2 ^ 53) < round64 (n : ℚ) := by
  have hn0 : (0 : ℚ) ≤ (n : ℚ) := by positivity
  obtain ⟨h1, h2⟩ := round64_near (n : ℚ) (n : ℚ) (abs_of_nonneg hn0).le
  have h0 := round64_nonneg (n : ℚ) hn0
  rw [abs_le] at hp
  obtain ⟨hp1, hp2⟩ := hp
  generalize round64 (n : ℚ) = r at *
  refine ⟨h0, ?_, ?_⟩
  · rcases hhi with h | h
    · generalize (n : ℚ) = k at *
      linarith
    · subst h
      simp only [Nat.cast_zero] at h2
      linarith
  · generalize (n : ℚ) = k at *
    linarith


/-- The rounding error of `index/samples_per_pixel - offset/scale`, in
pixels: `E` is the exact position of the click in samples over the samples
per pixel, `F` bounds the magnitudes involved, `Wd` is the width of a sample. -/
theorem pixel_err (n D G X A E F Wd : ℚ) (hD : 0 < D) (hn0 : 0 ≤ n) (hG : 0 ≤ G)
    (hXA1 : X ≤ A) (hXA2 : -X ≤ A) (hE : E = G + X) (hF : F = G + A)
    (hW : 0 ≤ Wd) (hhi : n / D ≤ E + F * (9 / 2 ^ 53))
    (hlo : E - Wd - F * (8 / 2 ^ 53) < n / D) :
    X - Wd - (F + Wd) * (13 / 2 ^ 53) < round64 (round64 (n / round64 D) - round64 G) ∧
    round64 (round64 (n / round64 D) - round64 G) ≤ X + (F + Wd) * (17 / 2 ^ 53) := by
  obtain ⟨hs1, hs2⟩ := round64_near D D (abs_of_pos hD).le
  have hspp : 0 < round64 D := round64_pos D hD
  generalize round64 D = spp at *
  have hν : n / D * D = n := div_mul_cancel₀ n hD.ne.symm
  have hν0 : 0 ≤ n / D := div_nonneg hn0 hD.le
  have hy : n / spp * spp = n := div_mul_cancel₀ n hspp.ne.symm
  have hy0 : 0 ≤ n / spp := div_nonneg hn0 hspp.le
  generalize n / D = ν at *
  generalize n / spp = y at *
  have hy1 : y * (1 - 1 / 2 ^ 53) ≤ ν := by
    have h1 : y * (D - D * (1 / 2 ^ 53)) ≤ y * spp := mul_le_mul_of_nonneg_left hs1 hy0
    have h2 : y * (1 - 1 / 2 ^ 53) * D ≤ ν * D := by
      rw [hν, ← hy]
      linarith
    exact le_of_mul_le_mul_right h2 hD
  have hy2 : ν ≤ y * (1 + 1 / 2 ^ 53) := by
    have h1 : y * spp ≤ y * (D + D * (1 / 2 ^ 53)) := mul_le_mul_of_nonneg_left hs2 hy0
    have h2 : ν * D ≤ y * (1 + 1 / 2 ^ 53) * D := by
      rw [hν, ← hy]
      linarith
    exact le_of_mul_le_mul_right h2 hD
  obtain ⟨hq1, hq2⟩ := round64_near y y (abs_of_nonneg hy0).le
  generalize round64 y = q at *
  obtain ⟨hr1, hr2⟩ := round64_near G G (abs_of_nonneg hG).le
  generalize round64 G = r at *
  have hA0 : 0 ≤ A := by linarith
  have hF0 : 0 ≤ F := by linarith
  have hz1 : q - r ≤ X + F * (15 / 2 ^ 53) := by linarith
  have hz2 : X - Wd - F * (11 / 2 ^ 53) < q - r := by linarith
  have habs : |q - r| ≤ A + Wd + F * (15 / 2 ^ 53) := by
    rw [abs_le]
    constructor <;> linarith
  obtain ⟨hc1, hc2⟩ := round64_near (q - r) _ habs
  generalize round64 (q - r) = cx at *
  constructor <;> linarith

end pv

namespace pv.view

/-- The index a left double click in LOGIC mode passes to `add_cursor`. -/
theorem double_click_index (v v1 : Viewport) (sc : Scene) (event : QMouseEvent) (index : Nat)
    (rest : List Call) (hmode : sc.mode = dev_mode.LOGIC) (hleft : event.button_left = true)
    (hright : event.button_right = false)
    (hrun : mouseDoubleClickEvent DoubleOps.binary64 v sc event =
      some (v1, Call.add_cursor index :: rest)) :
    double_to_u64 (round64 (round64 (sc.offset +
      round64 (round64 ((event.pos.x : ℚ) + 1 / 2) * sc.scale)) *
        round64 (sc.sample_rate : ℚ))) = some index := by
  unfold mouseDoubleClickEvent at hrun
  rw [if_pos hmode] at hrun
  simp only [hright, hleft, if_true, Bool.false_eq_true, if_false, DoubleOps.binary64] at hrun
  split at hrun
  · cases hrun
  · rename_i i hi
    rw [hi]
    cases hrun
    rfl

theorem cursorX_binary64 (sc : Scene) (index : Nat) :
    cursorX DoubleOps.binary64 sc index =
      round64 (round64 (round64 (index : ℚ) / round64 (round64 (sc.sample_rate : ℚ) * sc.scale)) -
        round64 (sc.offset / sc.scale)) := rfl

/-- The round trip with the rounding of every operation: the bound of the
exact computation holds up to `(|X| + o/c + 1/(S*c)) / 2^48`. -/
theorem round_trip_err (x : Int) (o c : ℚ) (S index : Nat) (ho : 0 ≤ o) (hc : 0 < c)
    (hS : 0 < S) (hm : 0 ≤ o + ((x : ℚ) + 1 / 2) * c)
    (hidx : double_to_u64 (round64 (round64 (o + round64 (round64 ((x : ℚ) + 1 / 2) * c)) *
        round64 (S : ℚ))) = some index) :
    (x : ℚ) + 1 / 2 - 1 / ((S : ℚ) * c) -
        (|(x : ℚ) + 1 / 2| + o / c + 1 / ((S : ℚ) * c)) / 2 ^ 48 <
      round64 (round64 (round64 (index : ℚ) / round64 (round64 (S : ℚ) * c)) -
        round64 (o / c)) ∧
    round64 (round64 (round64 (index : ℚ) / round64 (round64 (S : ℚ) * c)) -
        round64 (o / c)) ≤
      (x : ℚ) + 1 / 2 + (|(x : ℚ) + 1 / 2| + o / c + 1 / ((S : ℚ) * c)) / 2 ^ 48 := by
  have hSq : (0 : ℚ) < (S : ℚ) := by exact_mod_cast hS
  have hSd : 0 < round64 (S : ℚ) := round64_pos _ hSq
  obtain ⟨hS1, hS2⟩ := round64_near (S : ℚ) (S : ℚ) (abs_of_pos hSq).le
  generalize round64 (S : ℚ) = Sd at *
  generalize (S : ℚ) = Sq at *
  generalize (x : ℚ) + 1 / 2 = X at *
  have hX1 := le_abs_self X
  have hX2 := neg_abs_le X
  have hA0 := abs_nonneg X
  have hd := position_err X c o hc ho
  have hXc : X * c ≤ |X| * c := mul_le_mul_of_nonneg_right hX1 hc.le
  have hp := samples_err _ (o + X * c) (o + |X| * c) Sd hSd hm (by linarith) hd
  obtain ⟨hlo, hhi⟩ := double_to_u64_bounds _ index hidx
  have hP0 : 0 ≤ (o + X * c) * Sd := mul_nonneg hm hSd.le
  have hPQ : (o + X * c) * Sd ≤ (o + |X| * c) * Sd :=
    mul_le_mul_of_nonneg_right (by linarith) hSd.le
  obtain ⟨hn0, hn1, hn2⟩ := index_err _ _ _ index hP0 hPQ hp hlo hhi
  generalize round64 (index : ℚ) = n at *
  have hD : 0 < Sd * c := mul_pos hSd hc
  have hG : 0 ≤ o / c := div_nonneg ho hc.le
  have hWd : 0 ≤ 1 / (Sd * c) := by positivity
  have hcne : c ≠ 0 := hc.ne.symm
  have hSne : Sd ≠ 0 := hSd.ne.symm
  have hhi2 : n / (Sd * c) ≤ (o / c + X) + (o / c + |X|) * (9 / 2 ^ 53) := by
    have h := div_le_div_of_nonneg_right hn1 hD.le
    have e : ((o + X * c) * Sd + (o + |X| * c) * Sd * (9 / 2 ^ 53)) / (Sd * c) =
        (o / c + X) + (o / c + |X|) * (9 / 2 ^ 53) := by
      field_simp
      ring
    rw [e] at h
    exact h
  have hlo2 : (o / c + X) - 1 / (Sd * c) - (o / c + |X|) * (8 / 2 ^ 53) < n / (Sd * c) := by
    have h := div_lt_div_of_pos_right hn2 hD
    have e : ((o + X * c) * Sd - 1 - (o + |X| * c) * Sd * (8 / 2 ^ 53)) / (Sd * c) =
        (o / c + X) - 1 / (Sd * c) - (o / c + |X|) * (8 / 2 ^ 53) := by
      field_simp
      ring
    rw [e] at h
    exact h
  obtain ⟨h1, h2⟩ := pixel_err n (Sd * c) (o / c) X |X| (o / c + X) (o / c + |X|)
    (1 / (Sd * c)) hD hn0 hG hX1 (neg_le_abs X) rfl rfl hWd hhi2 hlo2
  have hW0 : 0 ≤ 1 / (Sq * c) := by positivity
  have hW1 : 1 / (Sd * c) ≤ 1 / (Sq * c) * (1 + 2 / 2 ^ 53) := by
    rw [div_mul_eq_mul_div, one_mul, div_le_div_iff₀ hD (mul_pos hSq hc)]
    have : (Sq - Sq * (1 / 2 ^ 53)) * c ≤ Sd * c := mul_le_mul_of_nonneg_right hS1 hc.le
    have hSc : 0 ≤ Sq * c := by positivity
    nlinarith
  generalize round64 (round64 (n / round64 (Sd * c)) - round64 (o / c)) = cx at *
  generalize 1 / (Sd * c) = Wd at *
  generalize 1 / (Sq * c) = W at *
  generalize o / c = G at *
  generalize |X| = A at *
  constructor <;> linarith


/-- C15 (amended): a left double click in LOGIC mode at the pixel `x`, with
offset >= 0, scale > 0, sample rate > 0 and a non-negative mapped position,
adds the cursor at `index = trunc((offset + (x + 0.5) * scale) * sample_rate)`,
and the cursor is drawn and hit-tested at
`cursorX = index / (sample_rate * scale) - offset / scale`, every operation
rounded to binary64.  The two mappings round-trip up to the rounding:
`x + 0.5 - 1/(sample_rate*scale) - d < cursorX <= x + 0.5 + d` with
`d = (|x + 0.5| + offset/scale + 1/(sample_rate*scale)) / 2^48`. -/
theorem cursor_round_trip (v v1 : Viewport) (sc : Scene) (event : QMouseEvent) (index : Nat)
    (rest : List Call) (hmode : sc.mode = dev_mode.LOGIC) (hleft : event.button_left = true)
    (hright : event.button_right = false) (ho : 0 ≤ sc.offset) (hc : 0 < sc.scale)
    (hs : 0 < sc.sample_rate)
    (hm : 0 ≤ sc.offset + ((event.pos.x : ℚ) + 1 / 2) * sc.scale)
    (hrun : mouseDoubleClickEvent DoubleOps.binary64 v sc event =
      some (v1, Call.add_cursor index :: rest)) :
    (event.pos.x : ℚ) + 1 / 2 - 1 / ((sc.sample_rate : ℚ) * sc.scale) -
        (|(event.pos.x : ℚ) + 1 / 2| + sc.offset / sc.scale +
          1 / ((sc.sample_rate : ℚ) * sc.scale)) / 2 ^ 48 <
      cursorX DoubleOps.binary64 sc index ∧
    cursorX DoubleOps.binary64 sc index ≤
      (event.pos.x : ℚ) + 1 / 2 +
        (|(event.pos.x : ℚ) + 1 / 2| + sc.offset / sc.scale +
          1 / ((sc.sample_rate : ℚ) * sc.scale)) / 2 ^ 48 := by
  rw [cursorX_binary64]
  exact round_trip_err event.pos.x sc.offset sc.scale sc.sample_rate index ho hc hs hm
    (double_click_index v v1 sc event index rest hmode hleft hright hrun)

/-- Witness of C15: at 1 MHz, 2e-6 seconds per pixel and offset 0.001 seconds
a double click at the pixel 4 adds the cursor at the sample 1008. -/
theorem cursor_round_trip_witness :
    sample.scene_logic_mhz.mode = dev_mode.LOGIC ∧
    0 ≤ sample.scene_logic_mhz.offset ∧ 0 < sample.scene_logic_mhz.scale ∧
    0 < sample.scene_logic_mhz.sample_rate ∧
    0 ≤ sample.scene_logic_mhz.offset +
      ((((sample.left_at 4).pos.x : Int) : ℚ) + 1 / 2) * sample.scene_logic_mhz.scale ∧
    mouseDoubleClickEvent DoubleOps.binary64 sample.blank sample.scene_logic_mhz
        (sample.left_at 4) =
      some (sample.blank, Call.add_cursor 1008 :: [Call.show_cursors, Call.update]) ∧
    ((((sample.left_at 4).pos.x : Int) : ℚ) + 1 / 2 -
        1 / ((sample.scene_logic_mhz.sample_rate : ℚ) * sample.scene_logic_mhz.scale) -
        (|(((sample.left_at 4).pos.x : Int) : ℚ) + 1 / 2| +
          sample.scene_logic_mhz.offset / sample.scene_logic_mhz.scale +
          1 / ((sample.scene_logic_mhz.sample_rate : ℚ) * sample.scene_logic_mhz.scale)) /
            2 ^ 48 <
      cursorX DoubleOps.binary64 sample.scene_logic_mhz 1008 ∧
    cursorX DoubleOps.binary64 sample.scene_logic_mhz 1008 ≤
      (((sample.left_at 4).pos.x : Int) : ℚ) + 1 / 2 +
        (|(((sample.left_at 4).pos.x : Int) : ℚ) + 1 / 2| +
          sample.scene_logic_mhz.offset / sample.scene_logic_mhz.scale +
          1 / ((sample.scene_logic_mhz.sample_rate : ℚ) * sample.scene_logic_mhz.scale)) /
            2 ^ 48) :=
  ⟨rfl, by decide!, by decide!, by decide, by decide!, by decide!,
    cursor_round_trip sample.blank sample.blank sample.scene_logic_mhz (sample.left_at 4) 1008
      [Call.show_cursors, Call.update] rfl rfl rfl (by decide!) (by decide!) (by decide)
      (by decide!) (by decide!)⟩

/-- C15, the claim as stated fails on both sides.  At 1 MHz, 2e-6 seconds per
pixel and offset 0.001 seconds a double click at the pixel 4 adds the cursor
at the sample 1008, which is drawn left of `4 + 0.5 - 1/(sample_rate*scale)`.
At 1 MHz, 1/8 second per pixel and offset 0.1 seconds a double click at the
pixel 7 adds the cursor at the sample 1037500, which is drawn right of
`7 + 0.5`. -/
theorem cursor_round_trip_fails :
    (sample.scene_logic_mhz.mode = dev_mode.LOGIC ∧
      0 ≤ sample.scene_logic_mhz.offset ∧ 0 < sample.scene_logic_mhz.scale ∧
      0 < sample.scene_logic_mhz.sample_rate ∧
      mouseDoubleClickEvent DoubleOps.binary64 sample.blank sample.scene_logic_mhz
          (sample.left_at 4) =
        some (sample.blank, [Call.add_cursor 1008, Call.show_cursors, Call.update]) ∧
      cursorX DoubleOps.binary64 sample.scene_logic_mhz 1008 <
        (4 : ℚ) + 1 / 2 -
          1 / ((sample.scene_logic_mhz.sample_rate : ℚ) * sample.scene_logic_mhz.scale)) ∧
    (sample.scene_logic_eighth.mode = dev_mode.LOGIC ∧
      0 ≤ sample.scene_logic_eighth.offset ∧ 0 < sample.scene_logic_eighth.scale ∧
      0 < sample.scene_logic_eighth.sample_rate ∧
      mouseDoubleClickEvent DoubleOps.binary64 sample.blank sample.scene_logic_eighth
          (sample.left_at 7) =
        some (sample.blank, [Call.add_cursor 1037500, Call.show_cursors, Call.update]) ∧
      (7 : ℚ) + 1 / 2 < cursorX DoubleOps.binary64 sample.scene_logic_eighth 1037500) :=
  ⟨⟨rfl, by decide!, by decide!, by decide, by decide!, by decide!⟩,
    ⟨rfl, by decide!, by decide!, by decide, by decide!, by decide!⟩⟩

end pv.view
